import Mathlib

/-!
Verification development for the ElectrumSV transaction codec / signing core
(src/electrumsv/transaction.py) and the versioned wallet storage layer
(src/electrumsv/storage.py).

Byte strings are modelled as `List Nat` (one entry per byte).  The source
transports transactions as hexadecimal strings; the hex encoding is a bijection
between byte strings and their hex form, so serialization is modelled directly
at the byte level (each `int_to_hex`/`bh2u` call in the source contributes the
bytes whose hex form it emits).
-/

/-- Error values standing for the Python exceptions raised by the source code.
Each constructor names the exception (and message, where it matters) that the
corresponding source path raises. -/
inductive PErr where
  /-- `SerializationError` (truncated read / malformed compact size). -/
  | serializationError
  /-- Python `IndexError` escaping the parser. -/
  | indexError
  /-- Python `ValueError` (e.g. `invalid XPublicKey`). -/
  | valueError
  /-- Python `TypeError` (e.g. unpacking `None`). -/
  | typeError
  /-- Python `KeyError` (mandatory dict key absent). -/
  | keyError
  /-- Python `AttributeError` (method missing on the object, e.g. `to_bytes` on an address). -/
  | attributeError
  /-- Python `AssertionError` (a failed `assert` in the source). -/
  | assertionError
  /-- `RuntimeError('Unknown txin type', ...)` from `get_preimage_script`. -/
  | unknownTxinType
  /-- `InputValueMissing` from `serialize_preimage`. -/
  | inputValueMissing
  /-- `int_to_hex` applied to an integer not representable in the requested width. -/
  | intRange
  /-- `RuntimeError('expected N signatures; got M')` from `update_signatures`. -/
  | lengthMismatch
  /-- `RuntimeError('This version of ElectrumSV is too old to open this wallet')`. -/
  | incompatibleVersion
  /-- the `raise_unsupported_version` exception of `WalletStorage`. -/
  | unsupportedVersion
  /-- `Exception('mixed addresses and privkeys')` from `convert_imported`. -/
  | mixedAddressesAndPrivkeys
  /-- `Exception('no addresses or privkeys')` from `convert_imported`. -/
  | noAddressesOrPrivkeys
  /-- `Exception('Unable to tell wallet type. ...')` from `convert_wallet_type`. -/
  | unableToTellWalletType
  /-- `Exception('storage upgrade: unexpected version ...')`. -/
  | unexpectedVersion
  /-- the `assert wallet_type is not None` failure of `convert_version_19`. -/
  | walletHasNoType
  /-- failure inside an external collaborator call (bitcoinx / database). -/
  | externalError
  deriving DecidableEq, Repr

/-- Little-endian byte string of width `L` for the value `v` (mod 256^L). -/
def leBytes : Nat → Nat → List Nat
  | 0, _ => []
  | L + 1, v => v % 256 :: leBytes L (v / 256)

/-- Value of a little-endian byte string. -/
def leVal : List Nat → Nat
  | [] => 0
  | b :: r => b + 256 * leVal r

theorem length_leBytes (L v : Nat) : (leBytes L v).length = L := by
  induction L generalizing v with
  | zero => rfl
  | succ n ih => simp [leBytes, ih]

theorem leVal_leBytes (L v : Nat) (h : v < 256 ^ L) : leVal (leBytes L v) = v := by
  induction L generalizing v with
  | zero => simp [pow_zero] at h; simp [leBytes, leVal, h]
  | succ n ih =>
      have hdiv : v / 256 < 256 ^ n := by
        rw [Nat.div_lt_iff_lt_mul (by norm_num : 0 < 256)]
        calc v < 256 ^ (n + 1) := h
        _ = 256 ^ n * 256 := by ring
      simp [leBytes, leVal, ih _ hdiv]
      omega

/-- Reading a fixed-width little-endian number, as `_BCDataStream._read_num`
does via `struct.unpack_from`: fails (`SerializationError`) when fewer than
`L` bytes remain. -/
def readNum (L : Nat) (bs : List Nat) : Except PErr (Nat × List Nat) :=
  if L ≤ bs.length then Except.ok (leVal (bs.take L), bs.drop L)
  else Except.error .serializationError

theorem readNum_append (L v : Nat) (r : List Nat) (h : v < 256 ^ L) :
    readNum L (leBytes L v ++ r) = Except.ok (v, r) := by
  have hlen : (leBytes L v).length = L := length_leBytes L v
  have htake := List.take_left (leBytes L v) r
  have hdrop := List.drop_left (leBytes L v) r
  rw [hlen] at htake hdrop
  simp [readNum, List.length_append, hlen, htake, hdrop, leVal_leBytes L v h]

/-- The `int_to_hex(i, length)` helper of `electrumsv/bitcoin.py`.
Modelled from the spec: that module is not under src/; the spec describes the
wire format as fixed-width little-endian integers, so the value is emitted as
`length` little-endian bytes, and an integer outside `[0, 256^length)` (which
the source helper cannot represent faithfully) is a failure. -/
def int_to_hex (i : Int) (L : Nat) : Except PErr (List Nat) :=
  if 0 ≤ i ∧ i < (256 : Int) ^ L then Except.ok (leBytes L i.toNat)
  else Except.error .intRange

/-- The `var_int(i)` helper of `electrumsv/bitcoin.py`.
Modelled from the spec: compact-size variable-length integers
(one byte below 253; marker 253/254/255 followed by 2/4/8 little-endian bytes). -/
def var_int (n : Nat) : List Nat :=
  if n < 253 then [n]
  else if n < 2 ^ 16 then 253 :: leBytes 2 n
  else if n < 2 ^ 32 then 254 :: leBytes 4 n
  else 255 :: leBytes 8 n

/-- `_BCDataStream.read_compact_size`: fails on an empty stream, otherwise one
byte, with markers 253/254/255 introducing 2/4/8 little-endian bytes. -/
def read_compact_size : List Nat → Except PErr (Nat × List Nat)
  | [] => Except.error .serializationError
  | b :: r =>
      if b = 253 then readNum 2 r
      else if b = 254 then readNum 4 r
      else if b = 255 then readNum 8 r
      else Except.ok (b, r)

theorem read_compact_size_var_int (n : Nat) (r : List Nat) (h : n < 2 ^ 64) :
    read_compact_size (var_int n ++ r) = Except.ok (n, r) := by
  by_cases h1 : n < 253
  · have hv : var_int n ++ r = n :: r := by simp [var_int, h1]
    rw [hv]
    have e1 : ¬ n = 253 := by omega
    have e2 : ¬ n = 254 := by omega
    have e3 : ¬ n = 255 := by omega
    simp [read_compact_size, e1, e2, e3]
  · by_cases h2 : n < 2 ^ 16
    · have hv : var_int n ++ r = 253 :: (leBytes 2 n ++ r) := by
        unfold var_int
        rw [if_neg h1, if_pos h2]
        simp
      rw [hv]
      have hb : n < 256 ^ 2 := by norm_num at h2 ⊢; omega
      simp [read_compact_size, readNum_append 2 n r hb]
    · by_cases h3 : n < 2 ^ 32
      · have hv : var_int n ++ r = 254 :: (leBytes 4 n ++ r) := by
          unfold var_int
          rw [if_neg h1, if_neg h2, if_pos h3]
          simp
        rw [hv]
        have hb : n < 256 ^ 4 := by norm_num at h3 ⊢; omega
        simp [read_compact_size, readNum_append 4 n r hb]
      · have hv : var_int n ++ r = 255 :: (leBytes 8 n ++ r) := by
          unfold var_int
          rw [if_neg h1, if_neg h2, if_neg h3]
          simp
        rw [hv]
        have hb : n < 256 ^ 8 := by norm_num at h ⊢; omega
        simp [read_compact_size, readNum_append 8 n r hb]

/-- `_BCDataStream.read_bytes`: Python slicing is lenient, a read past the end
of the buffer silently returns the bytes that are there. -/
def read_bytes (n : Nat) (bs : List Nat) : List Nat × List Nat :=
  (bs.take n, bs.drop n)

theorem read_bytes_append (d r : List Nat) : read_bytes d.length (d ++ r) = (d, r) := by
  simp [read_bytes, List.take_left, List.drop_left]

/-- Signed reinterpretation of a 4-byte little-endian value,
as `read_int32` does via the struct format `<i`. -/
def toSigned32 (v : Nat) : Int :=
  if v < 2 ^ 31 then (v : Int) else (v : Int) - 2 ^ 32

/-- `_BCDataStream.read_int32`. -/
def read_int32 (bs : List Nat) : Except PErr (Int × List Nat) := do
  let (v, r) ← readNum 4 bs
  pure (toSigned32 v, r)

/-- Structural effectful map over a list (a Python `for` loop collecting
results, stopping at the first exception). -/
def mapE {α β : Type} (f : α → Except PErr β) : List α → Except PErr (List β)
  | [] => .ok []
  | x :: xs => do
      let y ← f x
      let ys ← mapE f xs
      pure (y :: ys)

/-- Structural effectful fold over a list (a Python `for` loop threading
state, stopping at the first exception). -/
def foldE {σ α : Type} (f : σ → α → Except PErr σ) : σ → List α → Except PErr σ
  | s, [] => .ok s
  | s, x :: xs => do
      let s1 ← f s x
      foldE f s1 xs

theorem mapE_ok_of_forall {α β : Type} (f : α → Except PErr β) (g : α → β)
    (l : List α) (h : ∀ x ∈ l, f x = .ok (g x)) : mapE f l = .ok (l.map g) := by
  induction l with
  | nil => rfl
  | cons x xs ih =>
      have hx := h x (List.mem_cons_self x xs)
      have hxs := ih (fun y hy => h y (List.mem_cons_of_mem x hy))
      simp [mapE, hx, hxs]
      rfl

/-- External cryptographic and script-classification primitives supplied by the
bitcoinx library and `electrumsv/crypto.py`, neither of which is part of this
repository's core sources.  The development is parameterised over them: every
theorem below holds for an arbitrary `Crypto`, in particular for the real
implementations.  Modelled from the spec where it describes them (BIP32 /
legacy-keystore resolution, double SHA-256, recoverable signatures). -/
structure Crypto where
  /-- `PublicKey.from_bytes` succeeds on this raw key (length and curve-point check). -/
  validRawPubkey : List Nat → Bool
  /-- the BIP32 payload of a kind-0xff key decodes and derives successfully. -/
  validBip32 : List Nat → Bool
  /-- the legacy-keystore payload of a kind-0xfe key resolves successfully. -/
  validOldMpk : List Nat → Bool
  /-- `classify_output_script` on the payload of a kind-0xfd key: the
  `(is_p2sh, hash160)` of the resulting address, or failure when the script
  does not classify to an address. -/
  classifyAddress : List Nat → Option (Bool × List Nat)
  /-- serialized public key resolved from a kind-0xff (BIP32) reference. -/
  bip32Pubkey : List Nat → List Nat
  /-- serialized public key resolved from a kind-0xfe (legacy keystore) reference. -/
  oldPubkey : List Nat → List Nat
  /-- RIPEMD160 of SHA256 (`crypto.hash_160`). -/
  hash160 : List Nat → List Nat
  /-- double SHA-256 (`crypto.sha256d`). -/
  sha256d : List Nat → List Nat
  /-- `der_signature_to_compact`; `none` models the exception on malformed DER. -/
  derToCompact : List Nat → Option (List Nat)
  /-- `PublicKey.from_recoverable_signature rec_sig hash`; `none` models
  `InvalidSignatureError`/`ValueError` for recovery ids off the curve. -/
  recoverPubkey : List Nat → List Nat → Option (List Nat)
  /-- `public_key.verify_recoverable_signature rec_sig hash` outcome. -/
  verifyRecoverable : List Nat → List Nat → List Nat → Bool
  /-- ECDSA signing (`PrivateKey(...).sign(hash, None)`), DER-encoded result. -/
  ecdsaSign : List Nat → List Nat → List Nat
  /-- `PrivateKey(sec).public_key.to_bytes(compressed=...)`. -/
  pubkeyFromSec : List Nat → Bool → List Nat
  /-- `PublicKey.from_hex(s).to_address(...).to_string()` used by the storage migrations. -/
  pubkeyHexToAddress : String → Option String
  /-- `is_address_valid` from `electrumsv/bitcoin.py`. -/
  isAddressValid : String → Bool
  /-- `PublicKey.from_hex(pubkey).encrypt_message_to_base64` composed with
  zlib compression, used by `WalletStorage._write`. -/
  encryptToBase64 : String → String → String
  /-- the hex form of the fresh 32-byte AES key drawn from `os.urandom` when
  `convert_version_18` finds none stored (the draw is modelled as an ambient
  parameter). -/
  freshAesKeyHex : String

/-- Opcode constants used by the parser (`bitcoinx.Ops`). -/
def OP_PUSHDATA1 : Nat := 76
/-- the two-byte-length push opcode. -/
def OP_PUSHDATA2 : Nat := 77
/-- the four-byte-length push opcode. -/
def OP_PUSHDATA4 : Nat := 78
/-- the empty push. -/
def OP_0 : Nat := 0
/-- the first small-integer push opcode. -/
def OP_1 : Nat := 81
/-- the multisig check opcode. -/
def OP_CHECKMULTISIG : Nat := 174

/-- Minimal push of a data item (`push_item` of bitcoinx; `op_push`+data of
`electrumsv/bitcoin.py`'s `push_script`, which emits the identical encoding on
hex strings).  Modelled from the spec's `push(item)` wire description: a direct
length opcode below 76, otherwise an OP_PUSHDATA1/2/4-prefixed length. -/
def push_item (d : List Nat) : List Nat :=
  if d.length < 76 then d.length :: d
  else if d.length < 2 ^ 8 then 76 :: d.length :: d
  else if d.length < 2 ^ 16 then 77 :: (leBytes 2 d.length ++ d)
  else 78 :: (leBytes 4 d.length ++ d)

/-- `push_script` of `electrumsv/bitcoin.py` (same encoding as `push_item`,
stated on bytes rather than hex text). -/
def push_script (d : List Nat) : List Nat := push_item d

/-- Little-endian minimal byte string of a positive integer (helper for
`push_int` on values above 16; that branch is exercised by no theorem below). -/
def natBytesLE (n : Nat) : List Nat :=
  if n = 0 then [] else n % 256 :: natBytesLE (n / 256)
decreasing_by exact Nat.div_lt_self (Nat.pos_of_ne_zero (by assumption)) (by norm_num)

/-- `push_int` of bitcoinx.  Modelled from the spec: thresholds 1..16 are
emitted as the dedicated small-integer opcodes (`OP_threshold`), zero as OP_0,
anything larger as a plain data push. -/
def push_int (n : Nat) : List Nat :=
  if n = 0 then [OP_0]
  else if n ≤ 16 then [OP_1 + n - 1]
  else push_item (natBytesLE n)

/-- `_script_GetOp`: decode a script into a list of (opcode, pushed-data)
pairs.  Mirrors the source generator: opcodes up to OP_PUSHDATA4 push data,
with the length taken from the opcode itself or from a 1/2/4-byte length field
(tolerating truncation exactly as the source does via lenient slicing). -/
def script_get_op_rec : Nat → List Nat → List (Nat × Option (List Nat))
  | 0, _ => []
  | _ + 1, [] => []
  | fuel + 1, op :: r =>
      if op ≤ OP_PUSHDATA4 then
        let kn : Nat × Nat :=
          if op = OP_PUSHDATA1 then (1, r.headD 0)
          else if op = OP_PUSHDATA2 then (2, if 2 ≤ r.length then leVal (r.take 2) else 0)
          else if op = OP_PUSHDATA4 then (4, if 4 ≤ r.length then leVal (r.take 4) else 0)
          else (0, op)
        (op, some ((r.drop kn.1).take kn.2)) :: script_get_op_rec fuel (r.drop (kn.1 + kn.2))
      else (op, none) :: script_get_op_rec fuel r

/-- Every iteration of the source loop consumes at least the opcode byte, so
the byte count bounds the iteration count and the fuel value is immaterial
from the length up. -/
def script_get_op (bs : List Nat) : List (Nat × Option (List Nat)) :=
  script_get_op_rec bs.length bs

theorem script_get_op_rec_fuel (f1 f2 : Nat) (bs : List Nat)
    (h1 : bs.length ≤ f1) (h2 : bs.length ≤ f2) :
    script_get_op_rec f1 bs = script_get_op_rec f2 bs := by
  induction f1 generalizing f2 bs with
  | zero =>
      have : bs = [] := List.length_eq_zero.mp (by omega)
      subst this
      cases f2 <;> rfl
  | succ f ih =>
      cases bs with
      | nil => cases f2 <;> rfl
      | cons op r =>
          cases f2 with
          | zero => simp at h2
          | succ g =>
              simp only [script_get_op_rec]
              by_cases hop : op ≤ OP_PUSHDATA4
              · rw [if_pos hop, if_pos hop]
                congr 1
                apply ih
                · simp only [List.length_cons] at h1
                  have hdl : ∀ (n : Nat), (r.drop n).length ≤ r.length := by
                    intro n; simp [List.length_drop]
                  exact le_trans (hdl _) (by omega)
                · simp only [List.length_cons] at h2
                  have hdl : ∀ (n : Nat), (r.drop n).length ≤ r.length := by
                    intro n; simp [List.length_drop]
                  exact le_trans (hdl _) (by omega)
              · rw [if_neg hop, if_neg hop]
                congr 1
                apply ih
                · simp only [List.length_cons] at h1
                  omega
                · simp only [List.length_cons] at h2
                  omega

theorem length_drop_le_helper (kn : Nat × Nat) (r : List Nat) :
    (r.drop (kn.1 + kn.2)).length ≤ r.length := by
  simp [List.length_drop]

/-- `_match_decoded`: the template is a list of opcodes where OP_PUSHDATA4
stands for any nonempty-opcode data push.  The template entries are integers
(`Int`) because `_parse_redeemScript` builds templates by integer arithmetic
that can go negative in the source. -/
def match_decoded (decoded : List (Nat × Option (List Nat))) (to_match : List Int) : Bool :=
  match decoded, to_match with
  | [], [] => true
  | d :: ds, m :: ms =>
      (if m = 78 ∧ d.1 ≤ 78 ∧ 0 < d.1 then true else (m == (d.1 : Int))) &&
        match_decoded ds ms
  | _, _ => false

/-- `_parse_sig`: the one-byte `0xff` sentinel (hex `'ff'`, `NO_SIGNATURE`)
denotes an empty slot. -/
def parse_sig (x_sig : List (List Nat)) : List (Option (List Nat)) :=
  x_sig.map (fun x => if x = [255] then none else some x)

/-- Raw-byte wrapper for the source's `XPublicKey` (equality and hashing are
over the raw bytes). -/
structure XPublicKey where
  raw : List Nat
  deriving DecidableEq, Repr

/-- First byte of the raw encoding (`XPublicKey.kind`); the source indexes
`raw[0]`, which its constructor guarantees to exist. -/
def XPublicKey.kind (x : XPublicKey) : Nat := x.raw.headD 0

/-- Construction-time validation of `XPublicKey.__init__` (which calls
`to_public_key` and maps `ValueError`/`AssertionError` to
`ValueError('invalid XPublicKey')`; an empty byte string raises `IndexError`
before that net). -/
def XPublicKey.validate (c : Crypto) (raw : List Nat) : Except PErr XPublicKey :=
  match raw with
  | [] => .error .indexError
  | k :: rest =>
      if k = 2 ∨ k = 3 ∨ k = 4 then
        if c.validRawPubkey raw then .ok ⟨raw⟩ else .error .valueError
      else if k = 255 then
        if raw.length = 83 ∧ c.validBip32 raw then .ok ⟨raw⟩ else .error .valueError
      else if k = 254 then
        if raw.length = 69 ∧ c.validOldMpk raw then .ok ⟨raw⟩ else .error .valueError
      else if k = 253 then
        if (c.classifyAddress rest).isSome then .ok ⟨raw⟩ else .error .valueError
      else .error .valueError

/-- An address as carried by parsed inputs: pay-to-script-hash flag and the
160-bit hash (the network/coin parameter of the source is presentation-only). -/
structure Address where
  p2sh : Bool
  h160 : List Nat
  deriving DecidableEq, Repr

/-- Result of `XPublicKey.to_public_key`: a serialized public key, or an
address (for kind 0xfd script payloads). -/
inductive PubResult where
  /-- a public key, identified by its serialized bytes. -/
  | pub (bytes : List Nat)
  /-- an address. -/
  | addr (a : Address)
  deriving DecidableEq, Repr

/-- `XPublicKey.to_public_key`: plain kinds return the raw key itself
(bitcoinx `PublicKey.from_bytes`/`to_bytes` preserve the compression flag, so
the serialized form is unchanged); 0xff/0xfe resolve through the external
derivations; 0xfd classifies its script payload to an address. -/
def XPublicKey.to_public_key (c : Crypto) (x : XPublicKey) : Except PErr PubResult :=
  match x.raw with
  | [] => .error .indexError
  | k :: rest =>
      if k = 2 ∨ k = 3 ∨ k = 4 then .ok (.pub x.raw)
      else if k = 255 then .ok (.pub (c.bip32Pubkey x.raw))
      else if k = 254 then .ok (.pub (c.oldPubkey x.raw))
      else if k = 253 then
        match c.classifyAddress rest with
        | some (p, h) => .ok (.addr ⟨p, h⟩)
        | none => .error .assertionError
      else .error .assertionError

/-- `.to_bytes()` on the object returned by `to_public_key`: addresses have no
such method in bitcoinx, hence `AttributeError`. -/
def PubResult.to_bytes : PubResult → Except PErr (List Nat)
  | .pub b => .ok b
  | .addr _ => .error .attributeError

/-- `XPublicKey.to_address`: an address result is returned as is, a public key
is converted to its P2PKH address (hash160 of the serialized key). -/
def XPublicKey.to_address (c : Crypto) (x : XPublicKey) : Except PErr Address := do
  match ← x.to_public_key c with
  | .addr a => pure a
  | .pub b => pure ⟨false, c.hash160 b⟩

/-- Standard output script of an address (`Address.to_script_bytes` of
bitcoinx).  Modelled from the spec: P2PKH `OP_DUP OP_HASH160 push(h160)
OP_EQUALVERIFY OP_CHECKSIG`, P2SH `OP_HASH160 push(h160) OP_EQUAL`. -/
def Address.to_script_bytes (a : Address) : List Nat :=
  if a.p2sh then [169, 20] ++ a.h160 ++ [135]
  else [118, 169, 20] ++ a.h160 ++ [136, 172]

/-- Script kinds of a transaction input (the `'type'` dict entry). -/
inductive TxinKind where
  /-- block-reward input (all-zero previous transaction id). -/
  | coinbase
  /-- pay-to-public-key. -/
  | p2pk
  /-- pay-to-public-key-hash. -/
  | p2pkh
  /-- pay-to-script-hash multisig. -/
  | p2sh
  /-- unclassified input, raw scriptSig retained. -/
  | unknown
  deriving DecidableEq, Repr

/-- A transaction input: the source uses a dict with a variable key set, here
a fixed record with `Option` for keys that may be absent.  `prevout_hash`
holds the display-order bytes (the source stores `hash_to_hex_str`, the
byte-reversed hex).  A parsed coinbase input carries no
`x_pubkeys`/`signatures`/`num_sig` keys in the source; it is modelled with
`[]`/`[]`/`none`, which no operation on coinbase inputs distinguishes. -/
structure TxInput where
  prevout_hash : List Nat
  prevout_n : Nat
  sequence : Option Nat
  kind : TxinKind
  scriptSig : Option (List Nat)
  x_pubkeys : List XPublicKey
  signatures : List (Option (List Nat))
  num_sig : Option Int
  address : Option Address
  value : Option Nat
  scriptCode : Option (List Nat)
  deriving DecidableEq, Repr

/-- A transaction output (bitcoinx `TxOutput`). -/
structure TxOutput where
  value : Nat
  script_pubkey : List Nat
  deriving DecidableEq, Repr

/-- A transaction (the parsed fields; the hex cache `raw` of the source is a
memo of `serialize` and carries no further state). -/
structure Transaction where
  version : Int
  locktime : Nat
  inputs : List TxInput
  outputs : List TxOutput
  deriving DecidableEq, Repr

/-- Python truthiness of a signature slot: `None` and the empty string are
falsy, any other string is truthy. -/
def sigPresent : Option (List Nat) → Bool
  | some (_ :: _) => true
  | _ => false

/-- `Transaction.is_txin_complete`: number of truthy signature slots equals
`num_sig` (dict default 1 when the key is absent). -/
def Transaction.is_txin_complete (txin : TxInput) : Bool :=
  ((txin.signatures.countP (fun s => sigPresent s) : Int) == txin.num_sig.getD 1)

/-- `Transaction.signature_count`: pair `(s, r)` of the total number of truthy
signature slots and the total of the `num_sig` thresholds (dict default `-1`)
over the non-coinbase inputs. -/
def Transaction.signature_count (t : Transaction) : Int × Int :=
  t.inputs.foldl
    (fun acc txin =>
      if txin.kind = .coinbase then acc
      else (acc.1 + (txin.signatures.countP (fun s => sigPresent s) : Int),
            acc.2 + txin.num_sig.getD (-1)))
    (0, 0)

/-- `Transaction.is_complete`: the two totals agree. -/
def Transaction.is_complete (t : Transaction) : Bool :=
  let sr := t.signature_count
  sr.2 == sr.1

/-- Layout of a bare multisig output script:
`OP_m push(key)... OP_n OP_CHECKMULTISIG`. -/
def multisig_layout (keys : List (List Nat)) (m : Nat) : List Nat :=
  push_int m ++ keys.flatMap push_item ++ push_int keys.length ++ [OP_CHECKMULTISIG]

/-- `multisig_script` applied to objects whose `to_bytes()` yields the given
raw byte strings (XPublicKey values on the serialization path, resolved public
keys on the preimage path); the leading `assert 1 <= threshold <= len(...)`
raises `AssertionError` outside that range. -/
def multisig_script (keys : List (List Nat)) (threshold : Int) : Except PErr (List Nat) :=
  if 1 ≤ threshold ∧ threshold ≤ (keys.length : Int) then
    .ok (multisig_layout keys threshold.toNat)
  else .error .assertionError

/-- Fields written into the input dict by `_parse_scriptSig` when one of the
three templates matches. -/
structure ScriptSigFields where
  kind : TxinKind
  signatures : List (Option (List Nat))
  num_sig : Int
  x_pubkeys : List XPublicKey
  address : Option Address
  deriving DecidableEq, Repr

/-- `_parse_redeemScript`: decode the redeem script, extract `m` and `n` from
the leading/trailing small-integer opcodes, check the multisig template,
validate the member keys, and rebuild the P2SH address.  A template mismatch
makes the source return `None`, which its caller immediately unpacks —
a `TypeError`; an empty redeem script raises `IndexError` at `dec2[0]`. -/
def parse_redeemScript (c : Crypto) (s : List Nat) :
    Except PErr (Int × Int × List XPublicKey × Address) := do
  let dec2 := script_get_op s
  match dec2.head? with
  | none => throw .indexError
  | some d0 =>
      if dec2.length < 2 then throw .indexError
      else do
        let dn := dec2.getD (dec2.length - 2) (0, none)
        let m : Int := (d0.1 : Int) - OP_1 + 1
        let n : Int := (dn.1 : Int) - OP_1 + 1
        let op_m : Int := OP_1 + m - 1
        let op_n : Int := OP_1 + n - 1
        let match_multisig : List Int :=
          op_m :: (List.replicate n.toNat (78 : Int) ++ [op_n, (OP_CHECKMULTISIG : Int)])
        if ¬ match_decoded dec2 match_multisig then throw .typeError
        let x_pubkeys ← mapE
          (fun e => match e.2 with
            | some b => XPublicKey.validate c b
            | none => throw .typeError)
          ((dec2.drop 1).take (dec2.length - 3))
        let redeemScript ← multisig_script (x_pubkeys.map XPublicKey.raw) m
        let address : Address := ⟨true, c.hash160 redeemScript⟩
        pure (m, n, x_pubkeys, address)

/-- `_parse_scriptSig`: classify a scriptSig against the three templates.
`none` is the source's silent `return` leaving the input unclassified
(`unknown`); exceptions escaping the match (an invalid embedded public key,
a malformed redeem script) propagate. -/
def parse_scriptSig (c : Crypto) (bytes : List Nat) :
    Except PErr (Option ScriptSigFields) :=
  let decoded := script_get_op bytes
  if match_decoded decoded [78] then
    let item := (decoded.headD (0, none)).2.getD []
    .ok (some ⟨.p2pk, [some item], 1, [], none⟩)
  else if match_decoded decoded [78, 78] then
    let sig := (decoded.headD (0, none)).2.getD []
    let pk := ((decoded.drop 1).headD (0, none)).2.getD []
    (XPublicKey.validate c pk) >>= fun x_pubkey =>
      match x_pubkey.to_address c with
      | .error _ => .ok none
      | .ok address =>
          .ok (some ⟨.p2pkh, parse_sig [sig], 1, [x_pubkey], some address⟩)
  else if ¬ match_decoded decoded
      ((OP_0 : Int) :: List.replicate (decoded.length - 1) (78 : Int)) then
    .ok none
  else
    let x_sig := ((decoded.drop 1).dropLast).map (fun e => e.2.getD [])
    (parse_redeemScript c ((decoded.getLastD (0, none)).2.getD [])) >>= fun q =>
      .ok (some ⟨.p2sh, parse_sig x_sig, q.1, q.2.2.1, some q.2.2.2⟩)

/-- `_parse_input`: outpoint, scriptSig, sequence; an all-zero previous id is
a coinbase input; otherwise the scriptSig is classified, and an input whose
parsed signature set is not complete reads a trailing 8-byte value field. -/
def parse_input (c : Crypto) (bs : List Nat) : Except PErr (TxInput × List Nat) := do
  let (h, bs) := read_bytes 32 bs
  let prevout_hash := h.reverse
  let (prevout_n, bs) ← readNum 4 bs
  let (slen, bs) ← read_compact_size bs
  let (scriptSig, bs) := read_bytes slen bs
  let (sequence, bs) ← readNum 4 bs
  if prevout_hash = List.replicate 32 0 then
    return ({ prevout_hash, prevout_n, sequence := some sequence, kind := .coinbase,
              scriptSig := some scriptSig, x_pubkeys := [], signatures := [],
              num_sig := none, address := none, value := none, scriptCode := none }, bs)
  else
    let base : TxInput :=
      { prevout_hash, prevout_n, sequence := some sequence, kind := .unknown,
        scriptSig := some scriptSig, x_pubkeys := [], signatures := [],
        num_sig := some 0, address := none, value := none, scriptCode := none }
    let d ← (do
      match ← parse_scriptSig c scriptSig with
      | none => pure base
      | some f =>
          pure { base with
                 kind := f.kind
                 signatures := f.signatures
                 num_sig := some f.num_sig
                 x_pubkeys := f.x_pubkeys
                 address := f.address })
    if Transaction.is_txin_complete d then
      return (d, bs)
    else
      let (v, bs2) ← readNum 8 bs
      return ({ d with value := some v }, bs2)

/-- Parse `n` consecutive inputs. -/
def parse_inputs (c : Crypto) : Nat → List Nat → Except PErr (List TxInput × List Nat)
  | 0, bs => .ok ([], bs)
  | k + 1, bs => do
      let (i, bs) ← parse_input c bs
      let (rest, bs) ← parse_inputs c k bs
      pure (i :: rest, bs)

/-- `TxOutput.read` of bitcoinx.  Modelled from the spec: 8-byte little-endian
value, then a compact-size length-prefixed script (a strict read: bitcoinx
raises on a short buffer). -/
def TxOutput.read (bs : List Nat) : Except PErr (TxOutput × List Nat) := do
  let (value, bs) ← readNum 8 bs
  let (slen, bs) ← read_compact_size bs
  if slen ≤ bs.length then
    pure (⟨value, bs.take slen⟩, bs.drop slen)
  else throw .serializationError

/-- Parse `n` consecutive outputs (`read_list` of bitcoinx reads a
compact-size count, then that many `TxOutput.read`s). -/
def read_outputs : Nat → List Nat → Except PErr (List TxOutput × List Nat)
  | 0, bs => .ok ([], bs)
  | k + 1, bs => do
      let (o, bs) ← TxOutput.read bs
      let (rest, bs) ← read_outputs k bs
      pure (o :: rest, bs)

/-- Module-level `deserialize`: version, nonzero input count (`assert n_vin
!= 0`), inputs, outputs, locktime.  Trailing bytes are ignored, as in the
source. -/
def deserialize (c : Crypto) (raw : List Nat) : Except PErr Transaction := do
  let (version, bs) ← read_int32 raw
  let (n_vin, bs) ← read_compact_size bs
  if n_vin = 0 then throw .assertionError
  let (inputs, bs) ← parse_inputs c n_vin bs
  let (n_out, bs) ← read_compact_size bs
  let (outputs, bs) ← read_outputs n_out bs
  let (locktime, _) ← readNum 4 bs
  pure { version, locktime, inputs, outputs }

/-- `Transaction.get_siglist` with `estimate_size=False` (the size-estimation
branch substitutes dummies and is out of scope of the claims): when the input
carries enough signatures, the extended public keys are realised
(`XPublicKey(x_pubkey.to_public_key().to_bytes())`, re-running construction
validation) and the present signatures are emitted; otherwise the keys are
kept and each empty slot is emitted as the `0xff` sentinel. -/
def Transaction.get_siglist (c : Crypto) (txin : TxInput) :
    Except PErr (List XPublicKey × List (List Nat)) := do
  let num_sig := txin.num_sig.getD 1
  let x_signatures := txin.signatures
  let signatures := (x_signatures.filter (fun s => sigPresent s)).map (fun s => s.getD [])
  if ((signatures.length : Int) == num_sig) then do
    let realised ← mapE (fun x => do
      let pk ← x.to_public_key c
      let b ← pk.to_bytes
      XPublicKey.validate c b) txin.x_pubkeys
    pure (realised, signatures)
  else
    pure (txin.x_pubkeys,
          x_signatures.map (fun s => if sigPresent s then s.getD [] else [255]))

/-- `Transaction.input_script` with `estimate_size=False`: a coinbase input
replays its stored scriptSig; otherwise the signature pushes are emitted,
then per kind the pay-to checks (nothing for p2pk, `OP_0` prefix plus
re-derived redeem script for p2sh, the first realised key for p2pkh, and the
retained raw scriptSig for unknown inputs). -/
def Transaction.input_script (c : Crypto) (txin : TxInput) : Except PErr (List Nat) := do
  if txin.kind = .coinbase then
    match txin.scriptSig with
    | some s => return s
    | none => throw .keyError
  let (x_pubkeys, sig_list) ← Transaction.get_siglist c txin
  let script := sig_list.flatMap push_script
  match txin.kind with
  | .coinbase => throw .keyError
  | .p2pk => pure script
  | .p2sh => do
      let ns ← (match txin.num_sig with
        | some v => pure v
        | none => throw .keyError)
      let redeem ← multisig_script (x_pubkeys.map XPublicKey.raw) ns
      pure (OP_0 :: (script ++ push_script redeem))
  | .p2pkh =>
      match x_pubkeys.head? with
      | some x => pure (script ++ push_script x.raw)
      | none => throw .indexError
  | .unknown =>
      match txin.scriptSig with
      | some s => pure s
      | none => throw .keyError

/-- `Transaction.serialize_outpoint`: the stored display-order hash reversed
back to wire order, then the 4-byte output index. -/
def Transaction.serialize_outpoint (txin : TxInput) : Except PErr (List Nat) := do
  let n ← int_to_hex (txin.prevout_n : Int) 4
  pure (txin.prevout_hash.reverse ++ n)

/-- `Transaction.serialize_input` with `estimate_size=False`: outpoint, script
length and script, sequence (dict default `0xffffffff - 1`), and — for legacy
transactions — the 8-byte value when the input carries one and is not yet
complete. -/
def Transaction.serialize_input (txin : TxInput) (script : List Nat) :
    Except PErr (List Nat) := do
  let op ← Transaction.serialize_outpoint txin
  let seq ← int_to_hex ((txin.sequence.getD (0xffffffff - 1) : Nat) : Int) 4
  let base := op ++ var_int script.length ++ script ++ seq
  match txin.value with
  | some v =>
      if ¬ Transaction.is_txin_complete txin then do
        let vb ← int_to_hex (v : Int) 8
        pure (base ++ vb)
      else pure base
  | none => pure base

/-- `TxOutput.to_bytes` of bitcoinx: 8-byte little-endian value, compact-size
length, script bytes.  Modelled from the spec's output wire format. -/
def TxOutput.to_bytes (o : TxOutput) : Except PErr (List Nat) := do
  let v ← int_to_hex (o.value : Int) 8
  pure (v ++ var_int o.script_pubkey.length ++ o.script_pubkey)

/-- `Transaction.serialize` with `estimate_size=False`: version, compact-size
input count, serialized inputs, compact-size output count, serialized outputs,
locktime. -/
def Transaction.serialize (c : Crypto) (t : Transaction) : Except PErr (List Nat) := do
  let nVersion ← int_to_hex t.version 4
  let nLocktime ← int_to_hex (t.locktime : Int) 4
  let txins ← mapE (fun txin => do
      Transaction.serialize_input txin (← Transaction.input_script c txin)) t.inputs
  let txouts ← mapE TxOutput.to_bytes t.outputs
  pure (nVersion ++ var_int t.inputs.length ++ txins.flatten ++
        var_int t.outputs.length ++ txouts.flatten ++ nLocktime)

/-- `Transaction.nHashType`: `0x01 | SIGHASH_FORKID`. -/
def Transaction.nHashType : Nat := 0x41

/-- `Transaction.get_preimage_script`: spent-output script for p2pkh, the
re-derived redeem script from the resolved member keys for p2sh, the P2PK
output script for p2pk, the externally supplied `scriptCode` for unknown
inputs (`KeyError` when absent), and `RuntimeError('Unknown txin type')`
otherwise (coinbase). -/
def Transaction.get_preimage_script (c : Crypto) (txin : TxInput) :
    Except PErr (List Nat) := do
  match txin.kind with
  | .p2pkh =>
      match txin.address with
      | some a => pure a.to_script_bytes
      | none => throw .attributeError
  | .p2sh => do
      let pubkeys ← mapE (XPublicKey.to_public_key c) txin.x_pubkeys
      let ns ← (match txin.num_sig with
        | some v => pure v
        | none => throw .keyError)
      if 1 ≤ ns ∧ ns ≤ (pubkeys.length : Int) then do
        let keyBytes ← mapE PubResult.to_bytes pubkeys
        pure (multisig_layout keyBytes ns.toNat)
      else throw .assertionError
  | .p2pk =>
      match txin.x_pubkeys.head? with
      | none => throw .indexError
      | some x => do
          let pk ← x.to_public_key c
          let b ← pk.to_bytes
          pure (push_item b ++ [172])
  | .unknown =>
      match txin.scriptCode with
      | some sc => pure sc
      | none => throw .keyError
  | .coinbase => throw .unknownTxinType

/-- `Transaction.serialize_preimage`: version, double-SHA256 of all outpoints,
double-SHA256 of all sequences, this input's outpoint, the compact-size
prefixed preimage script, the 8-byte spent value (`InputValueMissing` when
absent), this input's sequence, double-SHA256 of the serialized outputs,
locktime, 4-byte sighash type. -/
def Transaction.serialize_preimage (c : Crypto) (t : Transaction) (i : Nat) :
    Except PErr (List Nat) := do
  let nVersion ← int_to_hex t.version 4
  let nHashType ← int_to_hex (Transaction.nHashType : Int) 4
  let nLocktime ← int_to_hex (t.locktime : Int) 4
  let txin ← (match t.inputs.get? i with
    | some txin => pure txin
    | none => throw .indexError)
  let outpoints ← mapE Transaction.serialize_outpoint t.inputs
  let hashPrevouts := c.sha256d outpoints.flatten
  let seqs ← mapE (fun txin =>
    int_to_hex ((txin.sequence.getD (0xffffffff - 1) : Nat) : Int) 4) t.inputs
  let hashSequence := c.sha256d seqs.flatten
  let outs ← mapE TxOutput.to_bytes t.outputs
  let hashOutputs := c.sha256d outs.flatten
  let outpoint ← Transaction.serialize_outpoint txin
  let preimage_script ← Transaction.get_preimage_script c txin
  let scriptCode := var_int preimage_script.length ++ preimage_script
  let amount ← (match txin.value with
    | some v => int_to_hex (v : Int) 8
    | none => throw .inputValueMissing)
  let nSequence ← int_to_hex ((txin.sequence.getD (0xffffffff - 1) : Nat) : Int) 4
  pure (nVersion ++ hashPrevouts ++ hashSequence ++ outpoint ++
        scriptCode ++ amount ++ nSequence ++ hashOutputs ++ nLocktime ++ nHashType)

/-- `Transaction.preimage_hash`: double SHA-256 of the serialized preimage. -/
def Transaction.preimage_hash (c : Crypto) (t : Transaction) (i : Nat) :
    Except PErr (List Nat) :=
  (Transaction.serialize_preimage c t i).map c.sha256d

/-- `Transaction.sign_txin`: ECDSA-sign the preimage hash and append the
sighash byte. -/
def Transaction.sign_txin (c : Crypto) (t : Transaction) (i : Nat)
    (privkey_bytes : List Nat) : Except PErr (List Nat) := do
  let pre_hash ← Transaction.preimage_hash c t i
  pure (c.ecdsaSign privkey_bytes pre_hash ++ [Transaction.nHashType])

/-- The `keypairs` dict of `Transaction.sign`: extended public key to
(private key bytes, compression flag). -/
def KeyPairs := List (XPublicKey × (List Nat × Bool))

/-- Dict lookup in `keypairs`. -/
def lookupKeypair (kp : KeyPairs) (x : XPublicKey) : Option (List Nat × Bool) :=
  (kp.find? (fun p => p.1 == x)).map Prod.snd

/-- One iteration of the inner slot loop of `Transaction.sign`: skip when the
input already carries `num` signatures (the loop's `break`; completeness only
ever grows, so the per-slot skip is equivalent), otherwise sign and store at
slot `j` when slot `j`'s key is in `keypairs`, and — only for kind-0xfd keys —
replace the key list entry with the freshly constructed raw public key. -/
def sign_slot (c : Crypto) (kp : KeyPairs) (i j : Nat) (num : Int)
    (t : Transaction) : Except PErr Transaction := do
  let txin ← (match t.inputs.get? i with
    | some x => pure x
    | none => throw .indexError)
  if ((txin.signatures.countP (fun s => sigPresent s) : Int) == num) then
    pure t
  else
    match txin.x_pubkeys.get? j with
    | none => throw .indexError
    | some x_pubkey =>
        match lookupKeypair kp x_pubkey with
        | none => pure t
        | some (sec, compressed) => do
            let sig ← Transaction.sign_txin c t i sec
            let txin1 := { txin with signatures := txin.signatures.set j (some sig) }
            let txin2 ←
              if x_pubkey.kind = 253 then do
                let nk ← XPublicKey.validate c (c.pubkeyFromSec sec compressed)
                pure { txin1 with x_pubkeys := txin1.x_pubkeys.set j nk }
              else pure txin1
            pure { t with inputs := t.inputs.set i txin2 }

/-- The per-input pass of `Transaction.sign` (`num_sig` is read once per
input; the key list keeps its length throughout). -/
def sign_input (c : Crypto) (kp : KeyPairs) (i : Nat) (t : Transaction) :
    Except PErr Transaction := do
  let txin ← (match t.inputs.get? i with
    | some x => pure x
    | none => throw .indexError)
  let num ← (match txin.num_sig with
    | some v => pure v
    | none => throw .keyError)
  foldE (fun t j => sign_slot c kp i j num t) t (List.range txin.x_pubkeys.length)

/-- `Transaction.sign`: the double loop over inputs and declared keys,
followed by the `self.raw = self.serialize()` recomputation (whose failure
propagates, as in the source). -/
def Transaction.sign (c : Crypto) (kp : KeyPairs) (t : Transaction) :
    Except PErr Transaction := do
  let t1 ← foldE (fun t i => sign_input c kp i t) t (List.range t.inputs.length)
  let _ ← Transaction.serialize c t1
  pure t1

/-- `Transaction.add_signature_to_txin`: store the signature at the slot and
clear the cached scriptSig. -/
def Transaction.add_signature_to_txin (txin : TxInput) (signingPos : Nat)
    (sig : List Nat) : TxInput :=
  { txin with signatures := txin.signatures.set signingPos (some sig),
              scriptSig := none }

/-- The recovery-id loop of `update_signatures`: try recids 0..3, skip
candidates off the curve, skip candidates that are not among the declared
keys or fail verification, and insert at the first matching key's slot. -/
def try_recids (c : Crypto) (pubkeys : List PubResult)
    (rec_sig_base pre_hash sig : List Nat) (txin : TxInput) :
    List Nat → TxInput
  | [] => txin
  | recid :: rest =>
      let rec_sig := rec_sig_base ++ [recid]
      match c.recoverPubkey rec_sig pre_hash with
      | none => try_recids c pubkeys rec_sig_base pre_hash sig txin rest
      | some pk =>
          if pubkeys.contains (.pub pk) then
            if c.verifyRecoverable rec_sig pre_hash pk then
              let j := pubkeys.findIdx (fun p => p == .pub pk)
              Transaction.add_signature_to_txin txin j sig
            else try_recids c pubkeys rec_sig_base pre_hash sig txin rest
          else try_recids c pubkeys rec_sig_base pre_hash sig txin rest

/-- The per-input body of `update_signatures`: append the sighash byte, skip
if that exact signature is already present, resolve the declared keys,
compute the preimage hash, convert the DER signature to compact form
(raising on malformed DER), then run the recovery-id loop. -/
def update_signatures_input (c : Crypto) (sigs : List (List Nat)) (i : Nat)
    (t : Transaction) : Except PErr Transaction := do
  let txin ← (match t.inputs.get? i with
    | some x => pure x
    | none => throw .indexError)
  let sigRaw ← (match sigs.get? i with
    | some s => pure s
    | none => throw .indexError)
  let sig := sigRaw ++ [Transaction.nHashType]
  if txin.signatures.contains (some sig) then pure t
  else do
    let pubkeys ← mapE (XPublicKey.to_public_key c) txin.x_pubkeys
    let pre_hash ← Transaction.preimage_hash c t i
    let rec_sig_base ← (match c.derToCompact sigRaw with
      | some b => pure b
      | none => throw .valueError)
    let txin1 := try_recids c pubkeys rec_sig_base pre_hash sig txin [0, 1, 2, 3]
    pure { t with inputs := t.inputs.set i txin1 }

/-- `Transaction.update_signatures`: a no-op on complete transactions, a
`RuntimeError` on a signature-count mismatch, then the best-effort per-input
pass, then the `self.raw = self.serialize()` recomputation. -/
def Transaction.update_signatures (c : Crypto) (t : Transaction)
    (signatures : List (List Nat)) : Except PErr Transaction := do
  if t.is_complete then return t
  if t.inputs.length ≠ signatures.length then throw .lengthMismatch
  let t1 ← foldE (fun t i => update_signatures_input c signatures i t) t
    (List.range t.inputs.length)
  let _ ← Transaction.serialize c t1
  pure t1

/-- JSON-compatible document values (the wallet document maps string keys to
these; floats do not occur in the migrated key set and are not modelled).
Arrays and objects are spelled as cons-chains so that equality is derivable;
only properly list-shaped values arise (the helpers below treat any other
shape as a type error, as Python would). -/
inductive JVal where
  /-- JSON null / Python `None`. -/
  | null
  /-- a boolean. -/
  | bool (b : Bool)
  /-- an integer. -/
  | int (n : Int)
  /-- a string. -/
  | str (s : String)
  /-- the empty array. -/
  | arrNil
  /-- array cons cell (`tl` is the rest of the array). -/
  | arrCons (hd tl : JVal)
  /-- the empty object. -/
  | objNil
  /-- object cons cell, insertion-ordered as Python dicts are. -/
  | objCons (k : String) (v tl : JVal)
  deriving DecidableEq, Repr

/-- The array, when the value is a proper array. -/
def JVal.asArr : JVal → Option (List JVal)
  | .arrNil => some []
  | .arrCons h t => (t.asArr).map (h :: ·)
  | _ => none

/-- The key/value list, when the value is a proper object. -/
def JVal.asObj : JVal → Option (List (String × JVal))
  | .objNil => some []
  | .objCons k v t => (t.asObj).map ((k, v) :: ·)
  | _ => none

/-- Array literal. -/
def JVal.arrOf : List JVal → JVal
  | [] => .arrNil
  | x :: xs => .arrCons x (arrOf xs)

/-- Object literal. -/
def JVal.objOf : List (String × JVal) → JVal
  | [] => .objNil
  | (k, v) :: xs => .objCons k v (objOf xs)

/-- Python truthiness of a document value. -/
def jTruthy : JVal → Bool
  | .null => false
  | .bool b => b
  | .int n => n != 0
  | .str s => !s.isEmpty
  | .arrNil => false
  | .arrCons _ _ => true
  | .objNil => false
  | .objCons _ _ _ => true

/-- Python `len()` on a document value (`none` models `TypeError`). -/
def jLen (v : JVal) : Option Nat :=
  match v with
  | .str s => some s.length
  | _ =>
      match v.asArr with
      | some xs => some xs.length
      | none =>
          match v.asObj with
          | some kvs => some kvs.length
          | none => none

/-- The wallet document: an insertion-ordered string-keyed mapping. -/
abbrev Doc := List (String × JVal)

/-- Dict lookup. -/
def docGet (d : Doc) (k : String) : Option JVal :=
  (d.find? (fun p => p.1 == k)).map Prod.snd

/-- Dict store: update in place for an existing key (Python dicts keep the
original position), append for a new key. -/
def docSet (d : Doc) (k : String) (v : JVal) : Doc :=
  if (docGet d k).isSome then d.map (fun p => if p.1 == k then (k, v) else p)
  else d ++ [(k, v)]

/-- Dict deletion (`pop`). -/
def docPop (d : Doc) (k : String) : Doc := d.filter (fun p => p.1 != k)

/-- `dict.get(k, default)` on a document value (`AttributeError` when the
value is not a dict). -/
def jDictGet (v : JVal) (k : String) (dflt : JVal) : Except PErr JVal :=
  match v.asObj with
  | some kvs => pure (((kvs.find? (fun p => p.1 == k)).map Prod.snd).getD dflt)
  | none => throw .attributeError

/-- `v[k]` subscription on a document value (`KeyError` when absent,
`TypeError` when not a dict). -/
def jIndex (v : JVal) (k : String) : Except PErr JVal :=
  match v.asObj with
  | some kvs =>
      match (kvs.find? (fun p => p.1 == k)).map Prod.snd with
      | some x => pure x
      | none => throw .keyError
  | none => throw .typeError

/-- File names: the wallet path itself (and any other plain file), and the
backup names the engine builds with the format string `"%s.backup.%d"`.
The decimal rendering of the counter is injective and, for the wallet names
the engine manages, never collides with the plain wallet path; the structured
representation captures exactly that injectivity. -/
inductive FPath where
  /-- an ordinary path string. -/
  | plain (s : String)
  /-- `base ++ ".backup." ++ toString n`. -/
  | backup (base : String) (n : Nat)
  deriving DecidableEq, Repr

/-- The file system visible to the storage layer: path-to-content. -/
abbrev FS := List (FPath × String)

/-- Content of a file, when it exists. -/
def fsLookup (fs : FS) (p : FPath) : Option String :=
  (fs.find? (fun e => e.1 == p)).map Prod.snd

/-- `os.path.exists`. -/
def fsExists (fs : FS) (p : FPath) : Bool := (fsLookup fs p).isSome

/-- Create or overwrite a file (update in place, append when new; paths are
unique keys). -/
def fsSet : FS → FPath → String → FS
  | [], p, c => [(p, c)]
  | e :: rest, p, c => if e.1 = p then (p, c) :: rest else e :: fsSet rest p c

/-- Process state of `WalletStorage` (the in-memory document, the dirty flag,
the optional encryption public key, and the `_file_exists` snapshot taken at
construction). -/
structure WalletStorage where
  path : String
  data : Doc
  modified : Bool
  pubkey : Option String
  fileExists : Bool
  deriving DecidableEq, Repr

/-- `WalletStorage.get`: a deep copy of the stored value, or the default for
an absent key — or a stored `None`, which `data.get` cannot distinguish from
absence. -/
def WalletStorage.get (st : WalletStorage) (key : String) (dflt : JVal) : JVal :=
  match docGet st.data key with
  | none => dflt
  | some .null => dflt
  | some v => v

/-- `WalletStorage.put`: a non-`None` value is deep-copied into the document
and the dirty flag raised only when it differs from the current value
(`data.get`, so a stored `None` compares like an absent key); a `None` value
deletes the key when present.  `json.dumps` cannot fail on `JVal` values, so
the serializability guard always passes. -/
def WalletStorage.put (st : WalletStorage) (key : String) (value : JVal) : WalletStorage :=
  if value ≠ JVal.null then
    if (docGet st.data key).getD JVal.null ≠ value then
      { st with modified := true, data := docSet st.data key value }
    else st
  else
    if (docGet st.data key).isSome then
      { st with modified := true, data := docPop st.data key }
    else st

/-- Deterministic rendering of a document value standing for the
`json.dumps(..., indent=4, sort_keys=True)` text (whitespace, key order and
escaping details of the real dump are observed by no theorem; only that the
file content is a function of the document matters). -/
def jDump : JVal → String
  | .null => "null"
  | .bool b => if b then "true" else "false"
  | .int n => toString n
  | .str s => "\x22" ++ s ++ "\x22"
  | .arrNil => "[]"
  | .arrCons h t => "[" ++ jDump h ++ ", " ++ jDump t ++ "]"
  | .objNil => "\x7b\x7d"
  | .objCons k v t => "\x7b" ++ k ++ ": " ++ jDump v ++ ", " ++ jDump t ++ "\x7d"

/-- Rendering of the whole document. -/
def docDump (d : Doc) : String := jDump (JVal.objOf d)

/-- `WalletStorage._write`: a no-op while the dirty flag is down; otherwise
the canonical dump (ECIES-encrypted when an encryption key is set) replaces
the file content atomically (the temp-file/fsync/rename dance collapses to a
single content update) and the dirty flag drops.  The daemon-thread refusal
is a thread-identity property outside this embedding: the write is modelled
as executing on the primary thread. -/
def WalletStorage.write (c : Crypto) (fs : FS) (st : WalletStorage) :
    FS × WalletStorage :=
  if ¬ st.modified then (fs, st)
  else
    let s := docDump st.data
    let s := match st.pubkey with
      | some pk => c.encryptToBase64 pk s
      | none => s
    (fsSet fs (.plain st.path) s, { st with fileExists := true, modified := false })

/-- Wallet-file seed-version constant: electrum versions below 2.0. -/
def OLD_SEED_VERSION : Int := 4
/-- Wallet-file seed-version constant: electrum versions from 2.0. -/
def NEW_SEED_VERSION : Int := 11
/-- The engine's final known version. -/
def FINAL_SEED_VERSION : Int := 19

/-- `WalletStorage.get_seed_version`: the stored value, with the
`master_public_key`-length fallback for falsy values (Python booleans compare
as 0/1, and `True` is truthy); a version beyond `FINAL_SEED_VERSION` is
rejected (`RuntimeError`), versions from 12 up are returned, and anything
else other than the two legacy baselines raises the unsupported-version
report. -/
def WalletStorage.get_seed_version (st : WalletStorage) : Except PErr Int :=
  (if ¬ jTruthy (st.get "seed_version" JVal.null) then
      match jLen (st.get "master_public_key" (JVal.str "")) with
      | none => throw .typeError
      | some L => .ok (if L = 128 then OLD_SEED_VERSION else NEW_SEED_VERSION)
    else
      match st.get "seed_version" JVal.null with
      | .int n => .ok n
      | .bool _ => .ok 1
      | _ => throw .typeError) >>= fun seed_version =>
  if seed_version > FINAL_SEED_VERSION then throw .incompatibleVersion
  else if seed_version ≥ 12 then .ok seed_version
  else if seed_version ≠ OLD_SEED_VERSION ∧ seed_version ≠ NEW_SEED_VERSION then
    throw .unsupportedVersion
  else .ok seed_version

/-- `WalletStorage._is_upgrade_method_needed`. -/
def WalletStorage.is_upgrade_method_needed (st : WalletStorage)
    (min_version max_version : Int) : Except PErr Bool :=
  st.get_seed_version >>= fun cur =>
  if cur > max_version then .ok false
  else if cur < min_version then throw .unexpectedVersion
  else .ok true

/-- `WalletStorage.requires_split`: more than one legacy account. -/
def WalletStorage.requires_split (st : WalletStorage) : Except PErr Bool :=
  match jLen (st.get "accounts" JVal.objNil) with
  | none => throw .typeError
  | some L => .ok (L > 1)

/-- Backup numbers already taken for this wallet path. -/
def backupNums (fs : FS) (path : String) : List Nat :=
  fs.filterMap (fun e =>
    match e.1 with
    | .backup b n => if b = path then some n else none
    | .plain _ => none)

theorem fsExists_cons (e : FPath × String) (rest : FS) (p : FPath) :
    fsExists (e :: rest) p = (e.1 == p || fsExists rest p) := by
  by_cases h : e.1 = p
  · simp [fsExists, fsLookup, List.find?_cons, h]
  · have hb : (e.1 == p) = false := by simp [h]
    simp [fsExists, fsLookup, List.find?_cons, hb]

theorem fsExists_backup_mem (fs : FS) (path : String) (n : Nat)
    (h : fsExists fs (.backup path n) = true) : n ∈ backupNums fs path := by
  induction fs with
  | nil => simp [fsExists, fsLookup] at h
  | cons e rest ih =>
      rw [fsExists_cons] at h
      rcases Bool.or_eq_true_iff.mp h with h1 | h2
      · have he : e.1 = FPath.backup path n := by
          exact eq_of_beq h1
        unfold backupNums
        rw [List.filterMap_cons, he]
        simp
      · unfold backupNums
        rw [List.filterMap_cons]
        have := ih h2
        unfold backupNums at this
        cases hm : (match e.1 with
          | FPath.backup b n => if b = path then some n else none
          | FPath.plain _ => (none : Option Nat)) with
        | none => simpa [hm] using this
        | some m => exact List.mem_cons.mpr (Or.inr this)

theorem mem_le_foldr_max (m : Nat) (l : List Nat) (hm : m ∈ l) :
    m ≤ l.foldr max 0 := by
  induction l with
  | nil => cases hm
  | cons a t ih =>
      rcases List.mem_cons.mp hm with rfl | h
      · exact le_max_left _ _
      · exact le_trans (ih h) (le_max_right _ _)

theorem exists_free_backup (fs : FS) (path : String) :
    ∃ k, ¬ (fsExists fs (.backup path (k + 1)) = true) := by
  classical
  by_contra hall
  push_neg at hall
  have hmem : ∀ k, (k + 1) ∈ backupNums fs path := fun k =>
    fsExists_backup_mem fs path (k + 1) (hall k)
  have := mem_le_foldr_max _ _ (hmem ((backupNums fs path).foldr max 0))
  omega

/-- `WalletStorage._get_wallet_backup_path`: the first unused
`path.backup.N`, `N` counting from 1 (the source's unbounded `while` loop,
denoted by the least free index, which always exists). -/
def WalletStorage.get_wallet_backup_path (fs : FS) (st : WalletStorage) : FPath :=
  .backup st.path (Nat.find (exists_free_backup fs st.path) + 1)

/-- `WalletStorage._backup_wallet`: nothing at all when the `_file_exists`
snapshot is down; otherwise copy the on-disk wallet file to the first unused
backup path (a missing source file would make `shutil.copyfile` raise). -/
def WalletStorage.backup_wallet (fs : FS) (st : WalletStorage) : FS × Option PErr :=
  if ¬ st.fileExists then (fs, none)
  else
    match fsLookup fs (.plain st.path) with
    | none => (fs, some .externalError)
    | some content =>
        (fsSet fs (WalletStorage.get_wallet_backup_path fs st) content, none)

/-- Decimal value of a digit string (helper for `multisig_type`). -/
def digitsVal (cs : List Char) : Nat :=
  cs.foldl (fun acc ch => acc * 10 + (ch.toNat - 48)) 0

/-- `multisig_type`: `re.match` of `(\d+)of(\d+)` — an anchored-prefix match,
returning the two counts; falsy input and non-strings give `None`. -/
def multisig_type (wallet_type : JVal) : Option (Nat × Nat) :=
  match wallet_type with
  | .str s =>
      let cs := s.toList
      let d1 := cs.takeWhile Char.isDigit
      let r1 := cs.dropWhile Char.isDigit
      if d1.isEmpty then none
      else
        match r1 with
        | 'o' :: 'f' :: r2 =>
            let d2 := r2.takeWhile Char.isDigit
            if d2.isEmpty then none else some (digitsVal d1, digitsVal d2)
        | _ => none
  | _ => none

/-- Run migration steps in sequence, stopping at the first error while
keeping the document state reached so far (the source mutates `self.data` in
place, so state survives a raised exception). -/
def runSteps : WalletStorage → List (WalletStorage → WalletStorage × Option PErr) →
    WalletStorage × Option PErr
  | st, [] => (st, none)
  | st, f :: fs =>
      match f st with
      | (st1, none) => runSteps st1 fs
      | (st1, some e) => (st1, some e)

/-- The `pubkey, privkey = v` unpack plus routing of `convert_imported`'s
account loop, processed in dict order. -/
def splitImported : List (String × JVal) →
    Except PErr (List String × List (String × JVal))
  | [] => pure ([], [])
  | (addr, v) :: rest => do
      match v.asArr with
      | some [pubkey, privkey] => do
          let (as_, ks) ← splitImported rest
          if jTruthy privkey then
            match pubkey with
            | .str pk => pure (as_, (pk, privkey) :: ks)
            | _ => throw .typeError
          else
            pure (addr :: as_, ks)
      | _ => throw .valueError

/-- Raw dict store on an object body (last write wins, original position
kept), mirroring Python dict assignment. -/
def kvsSet (kvs : List (String × JVal)) (k : String) (v : JVal) :
    List (String × JVal) :=
  if ((kvs.find? (fun p => p.1 == k)).map Prod.snd).isSome then
    kvs.map (fun p => if p.1 == k then (k, v) else p)
  else kvs ++ [(k, v)]

/-- `WalletStorage.convert_imported`: split the legacy `/x` imported account
into plain addresses or a keypairs keystore; a mixture, or an empty split, is
fatal. -/
def convert_imported (st : WalletStorage) : WalletStorage × Option PErr :=
  match st.is_upgrade_method_needed 0 13 with
  | .error e => (st, some e)
  | .ok false => (st, none)
  | .ok true =>
      let outer := st.get "accounts" JVal.objNil
      match (do
          let x ← jDictGet outer "/x" JVal.objNil
          jDictGet x "imported" JVal.objNil : Except PErr JVal) with
      | .error e => (st, some e)
      | .ok d =>
          if ¬ jTruthy d then (st, none)
          else
            match d.asObj with
            | none => (st, some .attributeError)
            | some items =>
                match splitImported items with
                | .error e => (st, some e)
                | .ok (addresses, keypairsRev) =>
                    let keypairs := keypairsRev.foldl
                      (fun acc p => kvsSet acc p.1 p.2) []
                    if addresses ≠ [] ∧ keypairs ≠ [] then
                      (st, some .mixedAddressesAndPrivkeys)
                    else if addresses ≠ [] then
                      (((st.put "addresses"
                          (JVal.arrOf (addresses.map JVal.str))).put
                          "accounts" JVal.null), none)
                    else if keypairs ≠ [] then
                      (((((st.put "wallet_type" (JVal.str "standard")).put
                          "key_type" (JVal.str "imported")).put
                          "keypairs" (JVal.objOf keypairs)).put
                          "accounts" JVal.null), none)
                    else (st, some .noAddressesOrPrivkeys)

/-- `bip44_derivation` of `electrumsv/keystore.py`.  Modelled from the spec:
the BIP44 derivation-path string for the given account (its exact text is
observed by no theorem). -/
def bip44_derivation (acc : Nat) : String :=
  "m/44\x27/0\x27/" ++ toString acc ++ "\x27"

/-- The keystore dict built by `convert_wallet_type`'s multisig branch for one
cosigner key. -/
def multisigKeystoreEntry (xpubs xprvs seed : JVal) (key : String) :
    Except PErr JVal := do
  let xpub ← jIndex xpubs key
  let xprv ← jDictGet xprvs key JVal.null
  let base := [("type", JVal.str "bip32"), ("xpub", xpub), ("xprv", xprv)]
  if key = "x1/" ∧ jTruthy seed then
    pure (JVal.objOf (kvsSet base "seed" seed))
  else pure (JVal.objOf base)

/-- `WalletStorage.convert_wallet_type`: normalize every historical account
layout into a single tagged `keystore` record (or per-cosigner records for
multisig), then delete the superseded top-level keys; an unrecognizable
layout is fatal. -/
def convert_wallet_type (st : WalletStorage) : WalletStorage × Option PErr :=
  match st.is_upgrade_method_needed 0 13 with
  | .error e => (st, some e)
  | .ok false => (st, none)
  | .ok true =>
      let wt0 := st.get "wallet_type" JVal.null
      let wallet_type := if wt0 == JVal.str "btchip" then JVal.str "ledger" else wt0
      if jTruthy (st.get "keystore" JVal.null) ∨ jTruthy (st.get "x1/" JVal.null) ∨
          wallet_type == JVal.str "imported" then (st, none)
      else
        match st.requires_split with
        | .error e => (st, some e)
        | .ok true => (st, some .assertionError)
        | .ok false =>
            match st.get_seed_version with
            | .error e => (st, some e)
            | .ok seed_version =>
                let seed := st.get "seed" JVal.null
                let xpubs := st.get "master_public_keys" JVal.null
                let xprvs := st.get "master_private_keys" JVal.objNil
                let mpk := st.get "master_public_key" JVal.null
                let keypairs := st.get "keypairs" JVal.null
                let key_type := st.get "key_type" JVal.null
                let branched : Except PErr WalletStorage :=
                  if seed_version = OLD_SEED_VERSION ∨ wallet_type == JVal.str "old" then
                    pure ((st.put "wallet_type" (JVal.str "standard")).put "keystore"
                      (JVal.objOf [("type", JVal.str "old"), ("seed", seed),
                                   ("mpk", mpk)]))
                  else if key_type == JVal.str "imported" then
                    pure ((st.put "wallet_type" (JVal.str "standard")).put "keystore"
                      (JVal.objOf [("type", JVal.str "imported"),
                                   ("keypairs", keypairs)]))
                  else if wallet_type == JVal.str "xpub" ∨
                      wallet_type == JVal.str "standard" then do
                    let xpub ← jIndex xpubs "x/"
                    let xprv ← jDictGet xprvs "x/" JVal.null
                    pure ((st.put "wallet_type" (JVal.str "standard")).put "keystore"
                      (JVal.objOf [("type", JVal.str "bip32"), ("xpub", xpub),
                                   ("xprv", xprv), ("seed", seed)]))
                  else if wallet_type == JVal.str "bip44" then do
                    let xpub ← jIndex xpubs "x/0\x27"
                    let xprv ← jDictGet xprvs "x/0\x27" JVal.null
                    pure ((st.put "wallet_type" (JVal.str "standard")).put "keystore"
                      (JVal.objOf [("type", JVal.str "bip32"), ("xpub", xpub),
                                   ("xprv", xprv)]))
                  else if wallet_type == JVal.str "trezor" ∨
                      wallet_type == JVal.str "keepkey" ∨
                      wallet_type == JVal.str "ledger" ∨
                      wallet_type == JVal.str "digitalbitbox" then do
                    let xpub ← jIndex xpubs "x/0\x27"
                    let derivation := st.get "derivation" (JVal.str (bip44_derivation 0))
                    pure ((st.put "wallet_type" (JVal.str "standard")).put "keystore"
                      (JVal.objOf [("type", JVal.str "hardware"),
                                   ("hw_type", wallet_type), ("xpub", xpub),
                                   ("derivation", derivation)]))
                  else if (multisig_type wallet_type).isSome then do
                    match xpubs.asObj with
                    | none => throw .attributeError
                    | some kvs =>
                        foldE (fun st p => do
                          let d ← multisigKeystoreEntry xpubs xprvs seed p.1
                          pure (st.put p.1 d)) st kvs
                  else throw .unableToTellWalletType
                match branched with
                | .error e => (st, some e)
                | .ok st1 =>
                    (((((((st1.put "master_public_key" JVal.null).put
                        "master_public_keys" JVal.null).put
                        "master_private_keys" JVal.null).put
                        "derivation" JVal.null).put
                        "seed" JVal.null).put
                        "keypairs" JVal.null).put
                        "key_type" JVal.null, none)

/-- `WalletStorage.convert_account`: drop the legacy `accounts` key. -/
def convert_account (st : WalletStorage) : WalletStorage × Option PErr :=
  match st.is_upgrade_method_needed 0 13 with
  | .error e => (st, some e)
  | .ok false => (st, none)
  | .ok true => (st.put "accounts" JVal.null, none)

/-- `WalletStorage.convert_version_13_b`: for a standard wallet with an
imported keystore, derive a receiving address per keypair public key and
store the list/map address layout; always stamp version 13. -/
def convert_version_13_b (c : Crypto) (st : WalletStorage) :
    WalletStorage × Option PErr :=
  match st.is_upgrade_method_needed 0 13 with
  | .error e => (st, some e)
  | .ok false => (st, none)
  | .ok true =>
      let inner : Except PErr WalletStorage :=
        if st.get "wallet_type" JVal.null == JVal.str "standard" then do
          let ksType ← jDictGet (st.get "keystore" JVal.null) "type" JVal.null
          if ksType == JVal.str "imported" then do
            let kps ← jDictGet (st.get "keystore" JVal.null) "keypairs" JVal.null
            match kps.asObj with
            | none => throw .attributeError
            | some pairs => do
                let addrs ← mapE (fun p =>
                  match c.pubkeyHexToAddress p.1 with
                  | some a => pure (JVal.str a)
                  | none => throw .valueError) pairs
                let d := JVal.objOf [("change", JVal.arrNil),
                                     ("receiving", JVal.arrOf addrs)]
                pure ((st.put "addresses" d).put "pubkeys" JVal.null)
          else pure st
        else pure st
      match inner with
      | .error e => (st, some e)
      | .ok st1 => (st1.put "seed_version" (JVal.int 13), none)

/-- `WalletStorage.convert_version_14`: convert imported wallets for 3.0 —
the plain-address list becomes a map to `None`, and a standard/imported
keystore becomes an `imported` wallet with per-address pubkey records;
always stamp version 14. -/
def convert_version_14 (c : Crypto) (st : WalletStorage) :
    WalletStorage × Option PErr :=
  match st.is_upgrade_method_needed 13 13 with
  | .error e => (st, some e)
  | .ok false => (st, none)
  | .ok true =>
      let inner : Except PErr WalletStorage :=
        if st.get "wallet_type" JVal.null == JVal.str "imported" then do
          let addresses := st.get "addresses" JVal.null
          match addresses.asArr with
          | some xs => do
              let kvs ← mapE (fun x =>
                match x with
                | .str s => pure (s, JVal.null)
                | _ => throw .typeError) xs
              pure (st.put "addresses"
                (JVal.objOf (kvs.foldl (fun acc p => kvsSet acc p.1 p.2) [])))
          | none => pure st
        else if st.get "wallet_type" JVal.null == JVal.str "standard" then do
          let ksType ← jDictGet (st.get "keystore" JVal.null) "type" JVal.null
          if ksType == JVal.str "imported" then do
            let recv ← jDictGet (st.get "addresses" JVal.null) "receiving" JVal.null
            match recv.asArr with
            | none => throw .typeError
            | some rcv => do
                let addrSet := rcv.eraseDups
                let kps ← jDictGet (st.get "keystore" JVal.null) "keypairs" JVal.null
                match kps.asObj with
                | none => throw .attributeError
                | some pairs => do
                    if addrSet.length ≠ pairs.length then throw .assertionError
                    let kvs ← mapE (fun p => do
                      match c.pubkeyHexToAddress p.1 with
                      | none => throw .valueError
                      | some a => do
                          if ¬ (JVal.str a) ∈ addrSet then throw .assertionError
                          pure (a, JVal.objOf [("pubkey", JVal.str p.1),
                            ("redeem_script", JVal.null),
                            ("type", JVal.str "p2pkh")])) pairs
                    let d := kvs.foldl (fun acc p => kvsSet acc p.1 p.2) []
                    pure (((st.put "addresses" (JVal.objOf d)).put
                      "pubkeys" JVal.null).put "wallet_type" (JVal.str "imported"))
          else pure st
        else pure st
      match inner with
      | .error e => (st, some e)
      | .ok st1 => (st1.put "seed_version" (JVal.int 14), none)

/-- `WalletStorage.convert_version_15`: stamp version 15. -/
def convert_version_15 (st : WalletStorage) : WalletStorage × Option PErr :=
  match st.is_upgrade_method_needed 14 14 with
  | .error e => (st, some e)
  | .ok false => (st, none)
  | .ok true => (st.put "seed_version" (JVal.int 15), none)

/-- The `remove_from_dict` closure of `convert_version_16`. -/
def remove_from_dict (st : WalletStorage) (name addr : String) :
    Except PErr WalletStorage := do
  let d := st.get name JVal.null
  if d = JVal.null then pure st
  else
    match d.asObj with
    | none => throw .attributeError
    | some kvs => pure (st.put name (JVal.objOf (kvs.filter (fun p => p.1 ≠ addr))))

/-- The `remove_from_list` closure of `convert_version_16` (Python routes the
list through a `set`, whose order is unspecified; first-occurrence order is
used here and is observed by no theorem). -/
def remove_from_list (st : WalletStorage) (name addr : String) :
    Except PErr WalletStorage := do
  let l := st.get name JVal.null
  if l = JVal.null then pure st
  else
    match l.asArr with
    | none => throw .typeError
    | some xs =>
        pure (st.put name (JVal.arrOf (xs.eraseDups.filter (fun x => x ≠ JVal.str addr))))

/-- The `remove_address` closure of `convert_version_16`: cascade removal of
an invalid address from the history/label/payment-request maps and the
frozen-address list (the address map itself is handled by the caller). -/
def remove_address (st : WalletStorage) (addr : String) :
    Except PErr WalletStorage := do
  let st ← remove_from_dict st "addr_history" addr
  let st ← remove_from_dict st "labels" addr
  let st ← remove_from_dict st "payment_requests" addr
  remove_from_list st "frozen_addresses" addr

/-- `WalletStorage.convert_version_16`: for imported wallets, purge invalid
addresses (cascading into dependent structures) and normalize `None` details
to empty records; always stamp version 16. -/
def convert_version_16 (c : Crypto) (st : WalletStorage) :
    WalletStorage × Option PErr :=
  match st.is_upgrade_method_needed 15 15 with
  | .error e => (st, some e)
  | .ok false => (st, none)
  | .ok true =>
      let inner : Except PErr WalletStorage :=
        if st.get "wallet_type" JVal.null == JVal.str "imported" then do
          let addresses := st.get "addresses" JVal.null
          match addresses.asObj with
          | none => throw .assertionError
          | some items => do
              let (st1, newRev) ← foldE
                (fun (acc : WalletStorage × List (String × JVal)) p => do
                  if ¬ c.isAddressValid p.1 then do
                    let st2 ← remove_address acc.1 p.1
                    pure (st2, acc.2)
                  else if p.2 = JVal.null then
                    pure (acc.1, (p.1, JVal.objNil) :: acc.2)
                  else
                    pure (acc.1, (p.1, p.2) :: acc.2))
                (st, []) items
              pure (st1.put "addresses" (JVal.objOf newRev.reverse))
        else pure st
      match inner with
      | .error e => (st, some e)
      | .ok st1 => (st1.put "seed_version" (JVal.int 16), none)

/-- `WalletStorage.convert_version_17`: reclassify an imported wallet by
whether every address entry carries key material; always stamp version 17. -/
def convert_version_17 (st : WalletStorage) : WalletStorage × Option PErr :=
  match st.is_upgrade_method_needed 16 16 with
  | .error e => (st, some e)
  | .ok false => (st, none)
  | .ok true =>
      let inner : Except PErr WalletStorage :=
        if st.get "wallet_type" JVal.null == JVal.str "imported" then do
          match (st.get "addresses" JVal.null).asObj with
          | none => throw .attributeError
          | some items =>
              if items.all (fun p => jTruthy p.2) then
                pure (st.put "wallet_type" (JVal.str "imported_privkey"))
              else
                pure (st.put "wallet_type" (JVal.str "imported_addr"))
        else pure st
      match inner with
      | .error e => (st, some e)
      | .ok st1 => (st1.put "seed_version" (JVal.int 17), none)

/-- String split on a single colon into exactly two parts (the tuple-unpack
of `"hash:n".split(":")`; any other part count is a `ValueError`). -/
def splitColon2 (s : String) : Option (String × String) :=
  match s.splitOn ":" with
  | [a, b] => some (a, b)
  | _ => none

/-- `bytes.fromhex` validity of a string. -/
def isHexStr (s : String) : Bool :=
  s.length % 2 == 0 &&
    s.toList.all (fun ch =>
      ch.isDigit || ('a' ≤ ch && ch ≤ 'f') || ('A' ≤ ch && ch ≤ 'F'))

/-- The structural requirements `convert_version_18` imposes while walking
the transaction/address/spend data it hands off to the external database, in
source order; any violation is the exception the corresponding Python
expression would raise.  The database writes themselves are effects on an
external collaborator and are not part of the document state. -/
def convert18_checks (st : WalletStorage) : Except PErr Unit := do
  let tx_map_in := st.get "transactions" JVal.objNil
  let tx_fees := st.get "fees" JVal.objNil
  let tx_verified := st.get "verified_tx3" JVal.objNil
  let history := st.get "addr_history" JVal.objNil
  match history.asObj with
  | none => throw .attributeError
  | some hkvs => do
      let _ ← mapE (fun p =>
        match p.2.asArr with
        | none => throw .typeError
        | some entries => mapE (fun e =>
            match e.asArr with
            | some [_, _] => pure ()
            | _ => throw .valueError) entries) hkvs
      match tx_map_in.asObj with
      | none => throw .attributeError
      | some txs => do
          let _ ← mapE (fun p => do
            (match p.2 with
             | .str s => if isHexStr s then pure () else throw .valueError
             | _ => throw .valueError)
            (match tx_fees.asObj with
             | some _ => pure ()
             | none => throw .attributeError)
            match tx_verified.asObj with
            | none => throw .typeError
            | some vkvs =>
                match (vkvs.find? (fun q => q.1 == p.1)).map Prod.snd with
                | none => pure ()
                | some v =>
                    match v.asArr with
                    | some [_, _, _] => pure ()
                    | _ => throw .valueError) txs
          let txi := st.get "txi" JVal.objNil
          match txi.asObj with
          | none => throw .attributeError
          | some ikvs => do
              let _ ← mapE (fun p =>
                match p.2.asObj with
                | none => throw .attributeError
                | some akvs => mapE (fun q =>
                    match q.2.asArr with
                    | none => throw .typeError
                    | some ovs => mapE (fun e =>
                        match e.asArr with
                        | some [pk, _] =>
                            (match pk with
                             | .str s =>
                                 (match splitColon2 s with
                                  | some (_, i) =>
                                      (match i.toInt? with
                                       | some _ => pure ()
                                       | none => throw .valueError)
                                  | none => throw .valueError)
                             | _ => throw .attributeError)
                        | _ => throw .valueError) ovs) akvs) ikvs
              let txo := st.get "txo" JVal.objNil
              match txo.asObj with
              | none => throw .attributeError
              | some okvs => do
                  let _ ← mapE (fun p =>
                    match p.2.asObj with
                    | none => throw .attributeError
                    | some akvs => mapE (fun q =>
                        match q.2.asArr with
                        | none => throw .typeError
                        | some ivs => mapE (fun e =>
                            match e.asArr with
                            | some [_, _, _] => pure ()
                            | _ => throw .valueError) ivs) akvs) okvs
                  let frozen_coins := st.get "frozen_coins" JVal.arrNil
                  match frozen_coins.asArr with
                  | none => throw .typeError
                  | some fcs => do
                      let _ ← mapE (fun e =>
                        match e with
                        | .str s =>
                            (match splitColon2 s with
                             | some (_, i) =>
                                 (match i.toInt? with
                                  | some _ => pure ()
                                  | none => throw .valueError)
                             | none => throw .valueError)
                        | _ => throw .attributeError) fcs
                      let pruned_txo := st.get "pruned_txo" JVal.objNil
                      match pruned_txo.asObj with
                      | none => throw .attributeError
                      | some pkvs => do
                          let _ ← mapE (fun p =>
                            match splitColon2 p.1 with
                            | some (_, i) =>
                                (match i.toInt? with
                                 | some _ => pure ()
                                 | none => throw .valueError)
                            | none => throw .valueError) pkvs
                          pure ()

/-- `WalletStorage.convert_version_18`: relocate the bulk
transaction/address/spend data into the external database (a collaborator,
whose writes live outside the document), then null out the in-document
copies, stamp the `ESV` author marker and version 18.  A missing AES key is
generated and persisted first. -/
def convert_version_18 (c : Crypto) (st : WalletStorage) :
    WalletStorage × Option PErr :=
  match st.is_upgrade_method_needed 17 17 with
  | .error e => (st, some e)
  | .ok false => (st, none)
  | .ok true =>
      let aes := st.get "tx_store_aeskey" JVal.null
      let st1 :=
        if aes = JVal.null then st.put "tx_store_aeskey" (JVal.str c.freshAesKeyHex)
        else st
      let aesHex := if aes = JVal.null then JVal.str c.freshAesKeyHex else aes
      let hexOk : Except PErr Unit :=
        match aesHex with
        | .str s => if isHexStr s then pure () else throw .valueError
        | _ => throw .typeError
      match hexOk >>= (fun _ => convert18_checks st1) with
      | .error e => (st1, some e)
      | .ok _ =>
          let st2 := ((((((((((st1.put "addresses" JVal.null).put
            "addr_history" JVal.null).put "frozen_addresses" JVal.null).put
            "frozen_coins" JVal.null).put "pruned_txo" JVal.null).put
            "transactions" JVal.null).put "txi" JVal.null).put
            "txo" JVal.null).put "tx_fees" JVal.null).put
            "verified_tx3" JVal.null)
          ((st2.put "wallet_author" (JVal.str "ESV")).put
            "seed_version" (JVal.int 18), none)

/-- `WalletStorage.convert_version_19`: restructure the wallet document into
a container of sub-wallets — move the local wallet fields (and the
per-cosigner keystores of a multisig wallet) into the single sub-wallet
record.  The source's multisig loop deletes through the stale `field_name`
loop variable, i.e. it re-deletes `use_change` instead of the cosigner key;
the transliteration keeps that behaviour.  Stamps version 19. -/
def convert_version_19 (st : WalletStorage) : WalletStorage × Option PErr :=
  match st.is_upgrade_method_needed 18 18 with
  | .error e => (st, some e)
  | .ok false => (st, none)
  | .ok true =>
      let wallet_type := st.get "wallet_type" JVal.null
      if wallet_type = JVal.null then (st, some .walletHasNoType)
      else
        let fields := ["gap_limit", "invoices", "keystore", "labels",
          "multiple_change", "payment_requests", "stored_height", "use_change"]
        let s1 := fields.foldl
          (fun (acc : WalletStorage × List (String × JVal)) fn =>
            let fv := acc.1.get fn JVal.null
            if fv ≠ JVal.null then (acc.1.put fn JVal.null, kvsSet acc.2 fn fv)
            else acc)
          (st, [("wallet_type", wallet_type)])
        let s2 := match multisig_type wallet_type with
          | none => s1
          | some (_, n) =>
              (List.range n).foldl
                (fun (acc : WalletStorage × List (String × JVal)) i =>
                  let name := "x" ++ toString (i + 1) ++ "/"
                  let entry := acc.1.get name JVal.null
                  (acc.1.put "use_change" JVal.null, kvsSet acc.2 name entry))
                s1
        let wd := kvsSet s2.2 "id" (JVal.int 0)
        let st3 := s2.1.put "subwallets" (JVal.arrOf [JVal.objOf wd])
        let aesOk : Except PErr Unit :=
          match st3.get "tx_store_aeskey" JVal.null with
          | .str s => if isHexStr s then pure () else throw .valueError
          | _ => throw .typeError
        match aesOk with
        | .error e => (st3, some e)
        | .ok _ => (st3.put "seed_version" (JVal.int 19), none)

/-- `WalletStorage.upgrade`: back the on-disk file up, run the ladder in its
fixed order, stamp the final version and write.  An exception from a step
halts the ladder, keeping the document state reached so far and skipping the
final write. -/
def WalletStorage.upgrade (c : Crypto) (fs : FS) (st : WalletStorage) :
    FS × WalletStorage × Option PErr :=
  match WalletStorage.backup_wallet fs st with
  | (fs1, some e) => (fs1, st, some e)
  | (fs1, none) =>
      match runSteps st
        [convert_imported, convert_wallet_type, convert_account,
         convert_version_13_b c, convert_version_14 c, convert_version_15,
         convert_version_16 c, convert_version_17, convert_version_18 c,
         convert_version_19] with
      | (st1, some e) => (fs1, st1, some e)
      | (st1, none) =>
          let st2 := st1.put "seed_version" (JVal.int FINAL_SEED_VERSION)
          let (fs2, st3) := WalletStorage.write c fs1 st2
          (fs2, st3, none)

/-- A concrete instance of the external primitives, used to evaluate the
development at specific inputs.  The theorems below hold for every `Crypto`;
this instance only instantiates them (placeholder digests and derivations). -/
def crypto0 : Crypto where
  validRawPubkey := fun _ => true
  validBip32 := fun _ => true
  validOldMpk := fun _ => true
  classifyAddress := fun s => some (false, s.take 20)
  bip32Pubkey := fun r => 2 :: r.take 32
  oldPubkey := fun r => 4 :: r.take 64
  hash160 := fun s => s.take 20
  sha256d := fun s => s.take 32
  derToCompact := fun s => some s
  recoverPubkey := fun _ _ => none
  verifyRecoverable := fun _ _ _ => false
  ecdsaSign := fun _ _ => [48, 1, 2]
  pubkeyFromSec := fun sec compressed => (if compressed then 2 else 4) :: sec.take 32
  pubkeyHexToAddress := fun _ => some "addr"
  isAddressValid := fun _ => true
  encryptToBase64 := fun _ s => s
  freshAesKeyHex := "00"

/-- A 33-byte compressed public key (raw kind 0x02). -/
def pk1 : XPublicKey := ⟨2 :: List.replicate 32 1⟩
/-- A second 33-byte compressed public key (raw kind 0x03). -/
def pk2 : XPublicKey := ⟨3 :: List.replicate 32 2⟩
/-- A DER-signature-shaped byte string (71 bytes). -/
def sigBytes : List Nat := 48 :: List.replicate 70 5
/-- A second distinct signature-shaped byte string. -/
def sigBytes2 : List Nat := 48 :: List.replicate 70 6

/-- An overfilled 1-of-2 multisig input: both slots signed though the
threshold is 1 (the deserializer accepts such scripts). -/
def inOver : TxInput :=
  { prevout_hash := 1 :: List.replicate 31 0
    prevout_n := 0
    sequence := some 4294967294
    kind := .p2sh
    scriptSig := none
    x_pubkeys := [pk1, pk2]
    signatures := [some sigBytes, some sigBytes2]
    num_sig := some 1
    address := none
    value := some 1000
    scriptCode := none }

/-- An unfilled 1-of-2 multisig input: no slot signed. -/
def inUnder : TxInput :=
  { prevout_hash := 2 :: List.replicate 31 0
    prevout_n := 1
    sequence := some 4294967294
    kind := .p2sh
    scriptSig := none
    x_pubkeys := [pk1, pk2]
    signatures := [none, none]
    num_sig := some 1
    address := none
    value := some 1000
    scriptCode := none }

/-- The C1 counterexample transaction: one input holds one signature too
many, the other one too few; the totals agree. -/
def txC1 : Transaction := ⟨1, 0, [inOver, inUnder], []⟩

/-- The opcode byte that `push_item` places in front of a data item. -/
def pushOp (d : List Nat) : Nat :=
  if d.length < 76 then d.length
  else if d.length < 2 ^ 8 then OP_PUSHDATA1
  else if d.length < 2 ^ 16 then OP_PUSHDATA2
  else OP_PUSHDATA4

/-- A signature slot in canonical serialized form: present, nonempty, not the
`0xff` sentinel byte, and short enough for a direct length-opcode push. -/
def canonicalSig : Option (List Nat) → Bool
  | some l => (l != []) && (l != [255]) && decide (l.length < 76)
  | none => false

/-- An extended public key in canonical serialized form: a plain raw public
key (leading byte 2, 3 or 4) that the curve library accepts, short enough for
a direct length-opcode push. -/
def canonicalKey (c : Crypto) (x : XPublicKey) : Bool :=
  match x.raw with
  | [] => false
  | k :: _ => (k == 2 || k == 3 || k == 4) && c.validRawPubkey x.raw &&
      decide (x.raw.length < 76)

/-- A transaction input in canonical serialized form: outpoint and sequence
within their wire ranges, and a standard fully-signed script: every signature
slot filled, plain validated member keys, and — for multisig — a threshold
met exactly by the slots and at most 16 keys. -/
def canonicalInput (c : Crypto) (txin : TxInput) : Bool :=
  decide (txin.prevout_hash.length = 32) &&
  decide (txin.prevout_n < 2 ^ 32) &&
  (match txin.sequence with
   | some s => decide (s < 2 ^ 32)
   | none => false) &&
  (match txin.kind with
   | .coinbase =>
       decide (txin.prevout_hash = List.replicate 32 0) &&
       (match txin.scriptSig with
        | some s => decide (s.length < 2 ^ 64)
        | none => false) &&
       (txin.x_pubkeys == []) && (txin.signatures == []) &&
       (txin.value == none)
   | .p2pk =>
       decide (txin.prevout_hash ≠ List.replicate 32 0) &&
       (txin.x_pubkeys == []) && (txin.num_sig == some 1) &&
       (match txin.signatures with
        | [s] => canonicalSig s
        | _ => false)
   | .p2pkh =>
       decide (txin.prevout_hash ≠ List.replicate 32 0) &&
       (txin.num_sig == some 1) &&
       (match txin.x_pubkeys with
        | [x] => canonicalKey c x
        | _ => false) &&
       (match txin.signatures with
        | [s] => canonicalSig s
        | _ => false)
   | .p2sh =>
       decide (txin.prevout_hash ≠ List.replicate 32 0) &&
       (match txin.num_sig with
        | some m => decide (1 ≤ m) && decide (m ≤ (txin.x_pubkeys.length : Int)) &&
            decide (txin.x_pubkeys.length ≤ 16) &&
            decide ((txin.signatures.length : Int) = m)
        | none => false) &&
       txin.x_pubkeys.all (canonicalKey c) &&
       txin.signatures.all canonicalSig
   | .unknown => false)

/-- A transaction in canonical serialized form: version and locktime in their
wire ranges and a nonempty list of canonical inputs. -/
def canonicalTx (c : Crypto) (t : Transaction) : Bool :=
  decide (0 ≤ t.version) && decide (t.version < 2 ^ 31) &&
  decide (t.locktime < 2 ^ 32) &&
  (t.inputs != []) && decide (t.inputs.length < 2 ^ 64) &&
  decide (t.outputs.length < 2 ^ 64) &&
  t.inputs.all (canonicalInput c) &&
  t.outputs.all (fun o => decide (o.value < 2 ^ 64) &&
    decide (o.script_pubkey.length < 2 ^ 64))

/-- Equality of two inputs on the fields the roundtrip claim compares. -/
def inputClaimEq (a b : TxInput) : Prop :=
  a.prevout_hash = b.prevout_hash ∧ a.prevout_n = b.prevout_n ∧
  a.sequence = b.sequence ∧ a.kind = b.kind ∧
  a.x_pubkeys = b.x_pubkeys ∧ a.signatures = b.signatures

/-- The C2 counterexample input: a complete 1-of-2 multisig input whose first
signature slot is empty. -/
def inC2 : TxInput := { inOver with signatures := [none, some sigBytes] }

/-- The C2 counterexample transaction. -/
def txC2 : Transaction := ⟨1, 0, [inC2], []⟩

/-- A fully-signed 2-of-2 multisig input in canonical form. -/
def inW2 : TxInput :=
  { inOver with
    num_sig := some 2
    signatures := [some sigBytes, some sigBytes2] }

/-- A canonical complete transaction instantiating the amended roundtrip. -/
def txW2 : Transaction := ⟨1, 7, [inW2], [⟨5000, [118, 169, 20]⟩]⟩

/-- C1: the claim reads `is_complete` as the conjunction of per-input
completeness; the code sums the counts over the non-coinbase inputs and
compares the totals, and the two differ: `txC1` is reported complete although
its second input carries none of its required signatures. -/
theorem C1_counterexample :
    Transaction.is_complete txC1 = true ∧
    ¬ ((inUnder.signatures.countP (fun s => sigPresent s) : Int) =
        inUnder.num_sig.getD 1) ∧
    inUnder ∈ txC1.inputs ∧ inUnder.kind ≠ TxinKind.coinbase := by
  refine ⟨by decide, by decide, by decide, by decide⟩

theorem signature_count_foldl (t : Transaction) :
    Transaction.signature_count t =
      (((t.inputs.filter (fun i => i.kind ≠ TxinKind.coinbase)).map
          (fun i => (i.signatures.countP (fun s => sigPresent s) : Int))).sum,
       ((t.inputs.filter (fun i => i.kind ≠ TxinKind.coinbase)).map
          (fun i => i.num_sig.getD (-1))).sum) := by
  unfold Transaction.signature_count
  suffices h : ∀ (l : List TxInput) (a b : Int),
      l.foldl (fun acc txin =>
        if txin.kind = .coinbase then acc
        else (acc.1 + (txin.signatures.countP (fun s => sigPresent s) : Int),
              acc.2 + txin.num_sig.getD (-1))) (a, b) =
      (a + ((l.filter (fun i => i.kind ≠ TxinKind.coinbase)).map
          (fun i => (i.signatures.countP (fun s => sigPresent s) : Int))).sum,
       b + ((l.filter (fun i => i.kind ≠ TxinKind.coinbase)).map
          (fun i => i.num_sig.getD (-1))).sum) by
    rw [h t.inputs 0 0]
    simp
  intro l
  induction l with
  | nil => intro a b; simp
  | cons x xs ih =>
      intro a b
      by_cases hx : x.kind = TxinKind.coinbase
      · simp [List.foldl_cons, hx, ih]
      · simp only [List.foldl_cons, hx, if_false, ih, List.filter_cons]
        have : (decide (x.kind ≠ TxinKind.coinbase)) = true := by
          simp [hx]
        simp [this, List.map_cons, List.sum_cons]
        constructor <;> ring

/-- C1 (amended): `is_complete` is the equality of the summed signature
count and the summed `num_sig` threshold over the non-coinbase inputs
(missing thresholds counting as −1); in particular it holds whenever every
non-coinbase input is individually complete, but — as the counterexample
shows — not conversely. -/
theorem C1_is_complete_sum (t : Transaction) :
    (Transaction.is_complete t = true ↔
      ((t.inputs.filter (fun i => i.kind ≠ TxinKind.coinbase)).map
          (fun i => (i.signatures.countP (fun s => sigPresent s) : Int))).sum =
      ((t.inputs.filter (fun i => i.kind ≠ TxinKind.coinbase)).map
          (fun i => i.num_sig.getD (-1))).sum) ∧
    ((∀ txin ∈ t.inputs, txin.kind ≠ TxinKind.coinbase →
        (txin.signatures.countP (fun s => sigPresent s) : Int) =
          txin.num_sig.getD (-1)) →
      Transaction.is_complete t = true) := by
  have hsum := signature_count_foldl t
  constructor
  · unfold Transaction.is_complete
    rw [hsum]
    simp only [beq_iff_eq]
    exact eq_comm
  · intro hall
    unfold Transaction.is_complete
    rw [hsum]
    simp only [beq_iff_eq]
    have hmapeq :
        (t.inputs.filter (fun i => i.kind ≠ TxinKind.coinbase)).map
          (fun i => (i.signatures.countP (fun s => sigPresent s) : Int)) =
        (t.inputs.filter (fun i => i.kind ≠ TxinKind.coinbase)).map
          (fun i => i.num_sig.getD (-1)) := by
      apply List.map_congr_left
      intro txin hmem
      have h1 := List.of_mem_filter hmem
      have h2 := List.mem_of_mem_filter hmem
      exact hall txin h2 (by simpa using h1)
    rw [hmapeq]

/-- Witness for C1's amended theorem: applied to `txC1`, whose totals agree. -/
theorem C1_is_complete_sum_witness :
    Transaction.is_complete txC1 = true := by
  have h := C1_is_complete_sum txC1
  exact h.1.mpr (by decide)

theorem ebind_ok {α β : Type} (a : α) (f : α → Except PErr β) :
    (Except.ok a >>= f) = f a := rfl

theorem ebind_error {α β : Type} (e : PErr) (f : α → Except PErr β) :
    ((Except.error e : Except PErr α) >>= f) = Except.error e := rfl

theorem emap_ok {α β : Type} (a : α) (f : α → β) :
    (f <$> (Except.ok a : Except PErr α)) = Except.ok (f a) := rfl

theorem emap_error {α β : Type} (e : PErr) (f : α → β) :
    (f <$> (Except.error e : Except PErr α)) = Except.error e := rfl

theorem epure_bind {α β : Type} (a : α) (f : α → Except PErr β) :
    ((pure a : Except PErr α) >>= f) = f a := rfl

theorem ethrow_bind {α β : Type} (e : PErr) (f : α → Except PErr β) :
    ((throw e : Except PErr α) >>= f) = Except.error e := rfl

theorem mapE_error_exists {α β : Type} (f : α → Except PErr β) (l : List α)
    (e : PErr) (h : mapE f l = .error e) : ∃ x ∈ l, f x = .error e := by
  induction l with
  | nil => simp [mapE] at h
  | cons x xs ih =>
      simp only [mapE] at h
      rcases hx : f x with ex | y <;> rw [hx] at h
      · rw [ebind_error] at h
        cases h
        exact ⟨x, List.mem_cons_self x xs, hx⟩
      · rw [ebind_ok] at h
        rcases hxs : mapE f xs with exs | ys <;> rw [hxs] at h
        · rw [ebind_error] at h
          cases h
          obtain ⟨z, hz, hfz⟩ := ih hxs
          exact ⟨z, List.mem_cons_of_mem x hz, hfz⟩
        · rw [ebind_ok] at h
          cases h

theorem int_to_hex_err (i : Int) (L : Nat) (e : PErr)
    (h : int_to_hex i L = .error e) : e = PErr.intRange := by
  unfold int_to_hex at h
  split at h
  · cases h
  · cases h; rfl

theorem to_public_key_err (c : Crypto) (x : XPublicKey) (e : PErr)
    (h : XPublicKey.to_public_key c x = .error e) :
    e = PErr.indexError ∨ e = PErr.assertionError := by
  unfold XPublicKey.to_public_key at h
  split at h
  · cases h; left; rfl
  · split at h
    · cases h
    · split at h
      · cases h
      · split at h
        · cases h
        · split at h
          · split at h
            · cases h
            · cases h; right; rfl
          · cases h; right; rfl

theorem validate_err (c : Crypto) (raw : List Nat) (e : PErr)
    (h : XPublicKey.validate c raw = .error e) :
    e = PErr.indexError ∨ e = PErr.valueError := by
  unfold XPublicKey.validate at h
  split at h
  · cases h; left; rfl
  · split at h
    · split at h
      · cases h
      · cases h; right; rfl
    · split at h
      · split at h
        · cases h
        · cases h; right; rfl
      · split at h
        · split at h
          · cases h
          · cases h; right; rfl
        · split at h
          · split at h
            · cases h
            · cases h; right; rfl
          · cases h; right; rfl

theorem to_bytes_err (p : PubResult) (e : PErr)
    (h : PubResult.to_bytes p = .error e) : e = PErr.attributeError := by
  cases p with
  | pub b => cases h
  | addr a => cases h; rfl

theorem multisig_script_err (keys : List (List Nat)) (m : Int) (e : PErr)
    (h : multisig_script keys m = .error e) : e = PErr.assertionError := by
  unfold multisig_script at h
  split at h
  · cases h
  · cases h; rfl

theorem get_preimage_script_err (c : Crypto) (txin : TxInput) (e : PErr)
    (h : Transaction.get_preimage_script c txin = .error e) :
    e ≠ PErr.inputValueMissing ∧ e ≠ PErr.lengthMismatch := by
  unfold Transaction.get_preimage_script at h
  split at h
  · split at h
    · cases h
    · cases h; exact ⟨by decide, by decide⟩
  · rcases hm : mapE (XPublicKey.to_public_key c) txin.x_pubkeys with em | pubkeys <;>
      rw [hm] at h
    · rw [ebind_error] at h
      cases h
      obtain ⟨x, _, hx⟩ := mapE_error_exists _ _ _ hm
      rcases to_public_key_err c x _ hx with rfl | rfl <;>
        exact ⟨by decide, by decide⟩
    · rw [ebind_ok] at h
      split at h
      · rw [epure_bind] at h
        split at h
        · rcases hb : mapE PubResult.to_bytes pubkeys with eb | bs <;> rw [hb] at h
          · rw [ebind_error] at h
            cases h
            obtain ⟨p, _, hp⟩ := mapE_error_exists _ _ _ hb
            rw [to_bytes_err _ _ hp]
            exact ⟨by decide, by decide⟩
          · rw [ebind_ok] at h
            cases h
        · cases h; exact ⟨by decide, by decide⟩
      · rw [ethrow_bind] at h
        cases h; exact ⟨by decide, by decide⟩
  · split at h
    · cases h; exact ⟨by decide, by decide⟩
    · rcases hp : XPublicKey.to_public_key c _ with ep | pk <;> rw [hp] at h
      · rw [ebind_error] at h
        cases h
        rcases to_public_key_err _ _ _ hp with rfl | rfl <;>
          exact ⟨by decide, by decide⟩
      · rw [ebind_ok] at h
        rcases hb : PubResult.to_bytes pk with eb | b <;> rw [hb] at h
        · rw [ebind_error] at h
          cases h
          rw [to_bytes_err _ _ hb]
          exact ⟨by decide, by decide⟩
        · rw [ebind_ok] at h
          cases h
  · split at h
    · cases h
    · cases h; exact ⟨by decide, by decide⟩
  · cases h; exact ⟨by decide, by decide⟩

/-- A coinbase input with no value field (as every parsed coinbase input is). -/
def inCB : TxInput :=
  { prevout_hash := List.replicate 32 0
    prevout_n := 4294967295
    sequence := some 17
    kind := .coinbase
    scriptSig := some [1, 2, 3]
    x_pubkeys := []
    signatures := []
    num_sig := none
    address := none
    value := none
    scriptCode := none }

/-- A transaction whose only input is a coinbase input. -/
def txC6 : Transaction := ⟨1, 0, [inCB], []⟩

/-- C6: the claim makes `InputValueMissing` equivalent to the absence of the
spent value, but `get_preimage_script` runs first: a coinbase input without a
value fails with `RuntimeError('Unknown txin type')`, not `InputValueMissing`. -/
theorem C6_counterexample :
    inCB.value = none ∧
    Transaction.serialize_preimage crypto0 txC6 0 = .error PErr.unknownTxinType := by
  constructor
  · rfl
  · rfl

/-- Bound checks under which every fixed-width integer field of the preimage
serializes (the widths `int_to_hex` is called with). -/
def preimage_fields_in_range (t : Transaction) : Bool :=
  decide (0 ≤ t.version) && decide (t.version < (256 : Int) ^ 4) &&
  decide (t.locktime < 2 ^ 32) &&
  t.inputs.all (fun i =>
    decide (i.prevout_n < 2 ^ 32) &&
    decide (i.sequence.getD (0xffffffff - 1) < 2 ^ 32)) &&
  t.outputs.all (fun o => decide (o.value < 2 ^ 64))

theorem serialize_outpoint_ok (txin : TxInput) (h : txin.prevout_n < 2 ^ 32) :
    Transaction.serialize_outpoint txin =
      .ok (txin.prevout_hash.reverse ++ leBytes 4 txin.prevout_n) := by
  unfold Transaction.serialize_outpoint
  have : int_to_hex (txin.prevout_n : Int) 4 = .ok (leBytes 4 txin.prevout_n) := by
    unfold int_to_hex
    rw [if_pos]
    · simp
    · constructor
      · exact Int.natCast_nonneg _
      · have : ((2 : Int) ^ 32) = ((256 : Int) ^ 4) := by norm_num
        rw [← this]
        exact_mod_cast h
  rw [this, ebind_ok]
  rfl

theorem txoutput_to_bytes_ok (o : TxOutput) (h : o.value < 2 ^ 64) :
    TxOutput.to_bytes o =
      .ok (leBytes 8 o.value ++ var_int o.script_pubkey.length ++ o.script_pubkey) := by
  unfold TxOutput.to_bytes
  have : int_to_hex (o.value : Int) 8 = .ok (leBytes 8 o.value) := by
    unfold int_to_hex
    rw [if_pos]
    · simp
    · constructor
      · exact Int.natCast_nonneg _
      · have : ((2 : Int) ^ 64) = ((256 : Int) ^ 8) := by norm_num
        rw [← this]
        exact_mod_cast h
  rw [this, ebind_ok]
  rfl

theorem int_to_hex_seq_ok (txin : TxInput)
    (h : txin.sequence.getD (0xffffffff - 1) < 2 ^ 32) :
    int_to_hex ((txin.sequence.getD (0xffffffff - 1) : Nat) : Int) 4 =
      .ok (leBytes 4 (txin.sequence.getD (0xffffffff - 1))) := by
  unfold int_to_hex
  rw [if_pos]
  · simp
  · constructor
    · exact Int.natCast_nonneg _
    · have : ((2 : Int) ^ 32) = ((256 : Int) ^ 4) := by norm_num
      rw [← this]
      exact_mod_cast h

/-- C6 (amended): with the fixed-width fields representable and the input in
range, preimage construction fails with `InputValueMissing` exactly when the
input's preimage script is constructible and its spent value is absent; a
coinbase or script-less unknown input fails earlier with a different
exception even when its value is also absent, and no other field's absence
raises `InputValueMissing`.  (`serialize_preimage` is a pure function of the
transaction: a failure changes nothing.) -/
theorem C6_value_missing_iff (c : Crypto) (t : Transaction) (i : Nat)
    (txin : TxInput) (hget : t.inputs.get? i = some txin)
    (hrange : preimage_fields_in_range t = true) :
    Transaction.serialize_preimage c t i = .error PErr.inputValueMissing ↔
      ((∃ s, Transaction.get_preimage_script c txin = .ok s) ∧
        txin.value = none) := by
  simp only [preimage_fields_in_range, Bool.and_eq_true, decide_eq_true_eq,
    List.all_eq_true] at hrange
  obtain ⟨⟨⟨⟨hv0, hv1⟩, hlt⟩, hins⟩, houts⟩ := hrange
  have hV : int_to_hex t.version 4 = .ok (leBytes 4 t.version.toNat) := by
    unfold int_to_hex
    rw [if_pos ⟨hv0, hv1⟩]
  have hHT : int_to_hex ((Transaction.nHashType : Nat) : Int) 4 =
      .ok (leBytes 4 65) := by rfl
  have hLT : int_to_hex (t.locktime : Int) 4 = .ok (leBytes 4 t.locktime) := by
    unfold int_to_hex
    rw [if_pos]
    · simp
    · constructor
      · exact Int.natCast_nonneg _
      · have : ((2 : Int) ^ 32) = ((256 : Int) ^ 4) := by norm_num
        rw [← this]
        exact_mod_cast hlt
  have houtp : mapE Transaction.serialize_outpoint t.inputs =
      .ok (t.inputs.map (fun x => x.prevout_hash.reverse ++ leBytes 4 x.prevout_n)) := by
    apply mapE_ok_of_forall
    intro x hx
    exact serialize_outpoint_ok x (by
      have := hins x hx
      simp only [Bool.and_eq_true, decide_eq_true_eq] at this
      exact this.1)
  have hseqs : mapE (fun txin =>
      int_to_hex ((txin.sequence.getD (0xffffffff - 1) : Nat) : Int) 4) t.inputs =
      .ok (t.inputs.map (fun x => leBytes 4 (x.sequence.getD (0xffffffff - 1)))) := by
    apply mapE_ok_of_forall
    intro x hx
    exact int_to_hex_seq_ok x (by
      have := hins x hx
      simp only [Bool.and_eq_true, decide_eq_true_eq] at this
      exact this.2)
  have houtsE : mapE TxOutput.to_bytes t.outputs =
      .ok (t.outputs.map (fun o =>
        leBytes 8 o.value ++ var_int o.script_pubkey.length ++ o.script_pubkey)) := by
    apply mapE_ok_of_forall
    intro o ho
    exact txoutput_to_bytes_ok o (by
      have := houts o ho
      simpa using this)
  have hmem : txin ∈ t.inputs := List.get?_mem hget
  have hseqtxin : txin.sequence.getD (0xffffffff - 1) < 2 ^ 32 := by
    have := hins txin hmem
    simp only [Bool.and_eq_true, decide_eq_true_eq] at this
    exact this.2
  have hopt : Transaction.serialize_outpoint txin =
      .ok (txin.prevout_hash.reverse ++ leBytes 4 txin.prevout_n) := by
    apply serialize_outpoint_ok
    have := hins txin hmem
    simp only [Bool.and_eq_true, decide_eq_true_eq] at this
    exact this.1
  unfold Transaction.serialize_preimage
  rw [hV, ebind_ok, hHT, ebind_ok, hLT, ebind_ok, hget, epure_bind, houtp,
    ebind_ok, hseqs, ebind_ok, houtsE, ebind_ok, hopt, ebind_ok]
  rcases hps : Transaction.get_preimage_script c txin with ep | s
  · rw [ebind_error]
    obtain ⟨h1, _⟩ := get_preimage_script_err c txin ep hps
    constructor
    · intro h
      cases h
      exact absurd rfl h1
    · rintro ⟨⟨s, hs⟩, _⟩
      cases hs
  · rw [ebind_ok]
    rcases hval : txin.value with _ | v
    · constructor
      · intro _
        exact ⟨⟨s, rfl⟩, rfl⟩
      · intro _
        rfl
    · have hnsq := int_to_hex_seq_ok txin hseqtxin
      rcases hv8 : int_to_hex (v : Int) 8 with ev | vb
      · obtain rfl := int_to_hex_err _ _ _ hv8
        constructor
        · intro h
          simp only [hv8, ebind_error] at h
          exact Except.noConfusion h (fun he => PErr.noConfusion he)
        · rintro ⟨_, h⟩
          cases h
      · constructor
        · intro h
          simp only [hv8, ebind_ok, hnsq, epure_bind] at h
          exact Except.noConfusion h
        · rintro ⟨_, h⟩
          cases h

/-- A p2pkh input carrying no spent value. -/
def inW6 : TxInput :=
  { prevout_hash := 9 :: List.replicate 31 0
    prevout_n := 0
    sequence := some 4294967294
    kind := .p2pkh
    scriptSig := none
    x_pubkeys := [pk1]
    signatures := [none]
    num_sig := some 1
    address := some ⟨false, List.replicate 20 4⟩
    value := none
    scriptCode := none }

/-- The C6 witness transaction. -/
def txW6 : Transaction := ⟨1, 0, [inW6], []⟩

/-- Witness for C6's amended theorem at a concrete value-less p2pkh input. -/
theorem C6_value_missing_iff_witness :
    Transaction.serialize_preimage crypto0 txW6 0 = .error PErr.inputValueMissing := by
  have h := C6_value_missing_iff crypto0 txW6 0 inW6 (by rfl) (by decide)
  exact h.mpr ⟨⟨Address.to_script_bytes ⟨false, List.replicate 20 4⟩, by rfl⟩, rfl⟩

theorem parse_scriptSig_kind (c : Crypto) (s : List Nat) (f : ScriptSigFields)
    (h : parse_scriptSig c s = .ok (some f)) : f.kind ≠ TxinKind.coinbase := by
  unfold parse_scriptSig at h
  dsimp only at h
  split at h
  · cases h
    exact fun hk => TxinKind.noConfusion hk
  · split at h
    · rcases hv :
          XPublicKey.validate c ((((script_get_op s).drop 1).headD (0, none)).2.getD []) with
        ev | xp <;> rw [hv] at h
      · rw [ebind_error] at h
        cases h
      · rw [ebind_ok] at h
        split at h
        · cases h
        · cases h
          exact fun hk => TxinKind.noConfusion hk
    · split at h
      · cases h
      · rcases hr :
            parse_redeemScript c (((script_get_op s).getLastD (0, none)).2.getD []) with
          er | q <;> rw [hr] at h
        · rw [ebind_error] at h
          cases h
        · rw [ebind_ok] at h
          cases h
          exact fun hk => TxinKind.noConfusion hk

/-- C7: whenever `_parse_input` succeeds on a non-coinbase input, the decoded
input carries a trailing value exactly when its parsed signature set is not
complete, and that value was read as an 8-byte little-endian field after the
sequence field (consuming the 8 bytes immediately preceding the remainder);
coinbase inputs never carry a value. -/
theorem C7_trailing_value (c : Crypto) (bs : List Nat) (d : TxInput)
    (rest : List Nat) (h : parse_input c bs = .ok (d, rest)) :
    (d.kind = TxinKind.coinbase → d.value = none) ∧
    (d.kind ≠ TxinKind.coinbase →
      (d.value.isSome = true ↔ Transaction.is_txin_complete d = false) ∧
      (∀ v, d.value = some v → ∃ pre, readNum 8 pre = .ok (v, rest))) := by
  unfold parse_input at h
  simp only [read_bytes] at h
  rcases hA : readNum 4 (List.drop 32 bs) with e | pr <;> rw [hA] at h
  · rw [ebind_error] at h; cases h
  obtain ⟨pn, bs1⟩ := pr
  rw [ebind_ok] at h
  rcases hB : read_compact_size bs1 with e | pr2 <;> rw [hB] at h
  · rw [ebind_error] at h; cases h
  obtain ⟨slen, bs2⟩ := pr2
  rw [ebind_ok] at h
  simp only [read_bytes] at h
  rcases hC : readNum 4 (List.drop slen bs2) with e | pr3 <;> rw [hC] at h
  · rw [ebind_error] at h; cases h
  obtain ⟨seqv, bs3⟩ := pr3
  rw [ebind_ok] at h
  split at h
  · cases h
    refine ⟨fun _ => rfl, fun hne => absurd rfl hne⟩
  · rcases hps : parse_scriptSig c (List.take slen bs2) with e | od <;> rw [hps] at h
    · rw [ebind_error] at h; cases h
    · rw [ebind_ok] at h
      rcases od with _ | f
      all_goals rw [epure_bind] at h
      all_goals split at h
      · cases h
        rename_i hc
        refine ⟨fun _ => rfl, fun _ => ⟨?_, ?_⟩⟩
        · simp [hc]
        · intro v hv; cases hv
      · rcases hv8 : readNum 8 bs3 with e | pr4 <;> rw [hv8] at h
        · rw [ebind_error] at h; cases h
        · obtain ⟨v, bs4⟩ := pr4
          rw [ebind_ok] at h
          cases h
          rename_i hc
          refine ⟨fun hk => TxinKind.noConfusion hk, fun _ => ⟨?_, ?_⟩⟩
          · simpa using hc
          · intro w hw
            cases hw
            exact ⟨bs3, hv8⟩
      · cases h
        rename_i hc
        refine ⟨fun _ => rfl, fun _ => ⟨?_, ?_⟩⟩
        · simp [hc]
        · intro v hv; cases hv
      · rcases hv8 : readNum 8 bs3 with e | pr4 <;> rw [hv8] at h
        · rw [ebind_error] at h; cases h
        · obtain ⟨v, bs4⟩ := pr4
          rw [ebind_ok] at h
          cases h
          rename_i hc
          have hkind := parse_scriptSig_kind c (List.take slen bs2) f hps
          refine ⟨fun hk => absurd hk hkind, fun _ => ⟨?_, ?_⟩⟩
          · simpa using hc
          · intro w hw
            cases hw
            exact ⟨bs3, hv8⟩

/-- Wire bytes of a single partially signed p2pkh input (sentinel signature,
then a 33-byte key), followed by the legacy 8-byte value field. -/
def c7bytes : List Nat :=
  (7 :: List.replicate 31 0) ++ leBytes 4 1 ++ [36] ++
  ([1, 255, 33] ++ pk1.raw) ++ leBytes 4 4294967294 ++ leBytes 8 5000

/-- The input parsed from `c7bytes`. -/
def c7din : TxInput :=
  { prevout_hash := List.replicate 31 0 ++ [7]
    prevout_n := 1
    sequence := some 4294967294
    kind := .p2pkh
    scriptSig := some ([1, 255, 33] ++ pk1.raw)
    x_pubkeys := [pk1]
    signatures := [none]
    num_sig := some 1
    address := some ⟨false, pk1.raw.take 20⟩
    value := some 5000
    scriptCode := none }

/-- Witness for C7 at a concrete incomplete input (the value field is read
and the parsed input is not complete). -/
theorem C7_trailing_value_witness :
    c7din.value.isSome = true ∧ Transaction.is_txin_complete c7din = false := by
  have hp : parse_input crypto0 c7bytes = .ok (c7din, []) := by rfl
  have h := (C7_trailing_value crypto0 c7bytes c7din [] hp).2 (by decide)
  exact ⟨by decide, h.1.mp (by decide)⟩

/-- C8: a stored `seed_version` above the engine's final known version (19)
makes `get_seed_version` raise the incompatible-version error, and an
`upgrade` run on such a document halts at the very first ladder step's
version guard with the document untouched (only the pre-step backup file is
created). -/
theorem C8_future_version_rejected (c : Crypto) (fs : FS) (st : WalletStorage)
    (v : Int) (hv : docGet st.data "seed_version" = some (JVal.int v))
    (hgt : v > 19) :
    WalletStorage.get_seed_version st = .error PErr.incompatibleVersion ∧
    (∀ fs1, WalletStorage.backup_wallet fs st = (fs1, none) →
      WalletStorage.upgrade c fs st = (fs1, st, some PErr.incompatibleVersion)) := by
  have hsv : st.get "seed_version" JVal.null = JVal.int v := by
    simp only [WalletStorage.get, hv]
  have hgsv : WalletStorage.get_seed_version st = .error PErr.incompatibleVersion := by
    unfold WalletStorage.get_seed_version
    rw [hsv]
    have ht : jTruthy (JVal.int v) = true := by
      simp only [jTruthy, bne_iff_ne, ne_eq, decide_eq_true_eq]
      omega
    rw [if_neg (by simp [ht]), ebind_ok]
    rw [if_pos (show v > FINAL_SEED_VERSION from hgt)]
    rfl
  have hneed : WalletStorage.is_upgrade_method_needed st 0 13 =
      .error PErr.incompatibleVersion := by
    unfold WalletStorage.is_upgrade_method_needed
    rw [hgsv]
    rfl
  have hstep : convert_imported st = (st, some PErr.incompatibleVersion) := by
    unfold convert_imported
    rw [hneed]
  refine ⟨hgsv, fun fs1 hb => ?_⟩
  unfold WalletStorage.upgrade
  rw [hb]
  have hrun : runSteps st
      [convert_imported, convert_wallet_type, convert_account,
       convert_version_13_b c, convert_version_14 c, convert_version_15,
       convert_version_16 c, convert_version_17, convert_version_18 c,
       convert_version_19] = (st, some PErr.incompatibleVersion) := by
    unfold runSteps
    rw [hstep]
  rw [hrun]

/-- Witness for C8 at a concrete document with `seed_version` 25. -/
theorem C8_future_version_rejected_witness :
    WalletStorage.get_seed_version
      ⟨"w", [("seed_version", JVal.int 25)], false, none, false⟩ =
      .error PErr.incompatibleVersion := by
  exact (C8_future_version_rejected crypto0 []
    ⟨"w", [("seed_version", JVal.int 25)], false, none, false⟩ 25
    (by decide) (by decide)).1

theorem fsLookup_fsSet_self (fs : FS) (p : FPath) (c : String) :
    fsLookup (fsSet fs p c) p = some c := by
  induction fs with
  | nil => simp [fsSet, fsLookup, List.find?]
  | cons e rest ih =>
      by_cases he : e.1 = p
      · simp [fsSet, he, fsLookup, List.find?]
      · have hb : (e.1 == p) = false := by simp [he]
        simp only [fsSet, he, if_neg, not_false_iff]
        unfold fsLookup
        simp only [List.find?, hb]
        exact ih

theorem fsLookup_fsSet_other (fs : FS) (p q : FPath) (c : String) (hne : q ≠ p) :
    fsLookup (fsSet fs p c) q = fsLookup fs q := by
  induction fs with
  | nil =>
      have hb : ((p, c).1 == q) = false := by
        simp only [beq_eq_false_iff_ne, ne_eq]
        intro hc; exact hne hc.symm
      simp [fsSet, fsLookup, List.find?, hb]
  | cons e rest ih =>
      by_cases he : e.1 = p
      · have hb : (p == q) = false := by
          simp only [beq_eq_false_iff_ne, ne_eq]
          intro hc; exact hne hc.symm
        have hbe : (e.1 == q) = false := by
          simp only [beq_eq_false_iff_ne, ne_eq]
          intro hc; exact hne (hc ▸ he ▸ rfl)
        simp only [fsSet, he, if_pos]
        unfold fsLookup
        simp only [List.find?, hb, hbe]
      · simp only [fsSet, he, if_neg, not_false_iff]
        unfold fsLookup
        simp only [List.find?]
        cases hq : (e.1 == q) with
        | true => rfl
        | false => exact ih

/-- A wallet-storage state whose on-disk file does not exist (as
`split_accounts` constructs for the freshly derived child wallets it
upgrades), already at the final version so the ladder's guards all pass. -/
def st9 : WalletStorage :=
  { path := "w"
    data := [("seed_version", JVal.int 19)]
    modified := false
    pubkey := none
    fileExists := false }

/-- C9: the claim calls the pre-migration backup unconditional, but
`_backup_wallet` returns without copying when the `_file_exists` snapshot is
down: this upgrade run completes without creating any file at all. -/
theorem C9_counterexample :
    WalletStorage.upgrade crypto0 [] st9 = ([], st9, none) := by rfl

/-- C9 (amended): on every upgrade run whose wallet file exists on disk, the
file's content at entry is copied to `path.backup.N` for the smallest
positive `N` naming no existing file, and that copy is still intact when
`upgrade` returns (the transformations and the final write never touch it);
when the file does not exist, no backup is made. -/
theorem C9_backup_on_existing_file (c : Crypto) (fs : FS) (st : WalletStorage)
    (content : String) (hex : st.fileExists = true)
    (hlook : fsLookup fs (.plain st.path) = some content) :
    ∃ N, 1 ≤ N ∧
      fsExists fs (.backup st.path N) = false ∧
      (∀ k, 1 ≤ k → k < N → fsExists fs (.backup st.path k) = true) ∧
      fsLookup (WalletStorage.upgrade c fs st).1 (.backup st.path N) = some content := by
  refine ⟨Nat.find (exists_free_backup fs st.path) + 1, by omega, ?_, ?_, ?_⟩
  · have := Nat.find_spec (exists_free_backup fs st.path)
    simpa using this
  · intro k hk1 hkN
    have hlt : k - 1 < Nat.find (exists_free_backup fs st.path) := by omega
    have := Nat.find_min (exists_free_backup fs st.path) hlt
    have hk : k - 1 + 1 = k := by omega
    rw [hk] at this
    simpa using this
  · have hb : WalletStorage.backup_wallet fs st =
        (fsSet fs (.backup st.path (Nat.find (exists_free_backup fs st.path) + 1))
          content, none) := by
      unfold WalletStorage.backup_wallet
      rw [hex]
      simp only [Bool.not_true, Bool.false_eq_true, if_neg, not_false_iff]
      rw [hlook]
      rfl
    unfold WalletStorage.upgrade
    rw [hb]
    have hself := fsLookup_fsSet_self fs
      (.backup st.path (Nat.find (exists_free_backup fs st.path) + 1)) content
    rcases hrun : runSteps st
        [convert_imported, convert_wallet_type, convert_account,
         convert_version_13_b c, convert_version_14 c, convert_version_15,
         convert_version_16 c, convert_version_17, convert_version_18 c,
         convert_version_19] with ⟨st1, err⟩
    cases err with
    | some e =>
        simp only [hrun]
        exact hself
    | none =>
        simp only [hrun]
        unfold WalletStorage.write
        split
        · exact hself
        · rw [fsLookup_fsSet_other _ _ _ _ (by intro hc; cases hc)]
          exact hself

/-- Witness for C9's amended theorem at a concrete one-file file system. -/
theorem C9_backup_on_existing_file_witness :
    ∃ N, 1 ≤ N ∧
      fsExists [((FPath.plain "w"), "body")] (.backup "w" N) = false ∧
      (∀ k, 1 ≤ k → k < N →
        fsExists [((FPath.plain "w"), "body")] (.backup "w" k) = true) ∧
      fsLookup (WalletStorage.upgrade crypto0 [((FPath.plain "w"), "body")]
        { st9 with fileExists := true }).1 (.backup "w" N) = some "body" := by
  exact C9_backup_on_existing_file crypto0 [((FPath.plain "w"), "body")]
    { st9 with fileExists := true } "body" (by rfl) (by rfl)

/-- A document carrying an explicit `None` value (as any JSON document with
a `null` field produces at load time). -/
def st10 : WalletStorage :=
  { path := "w"
    data := [("a", JVal.null)]
    modified := false
    pubkey := none
    fileExists := true }

/-- C10: re-storing the very value already stored is claimed to leave the
document and the dirty flag unchanged, but a stored JSON `null` is deleted
and the flag raised (`put` treats a `None` value as deletion, and the key is
present). -/
theorem C10_counterexample :
    docGet st10.data "a" = some JVal.null ∧
    (WalletStorage.put st10 "a" JVal.null).data = [] ∧
    (WalletStorage.put st10 "a" JVal.null).modified = true := by
  refine ⟨by rfl, by rfl, by rfl⟩

/-- C10 (amended): re-storing the stored value leaves the state untouched
for every value other than `None`; a `write` with the dirty flag down leaves
the file system untouched; hence any sequence of such no-change puts
followed by `write` never rewrites the file. -/
theorem C10_put_write_frame :
    (∀ (st : WalletStorage) (k : String) (v : JVal), v ≠ JVal.null →
      docGet st.data k = some v → WalletStorage.put st k v = st) ∧
    (∀ (c : Crypto) (fs : FS) (st : WalletStorage), st.modified = false →
      WalletStorage.write c fs st = (fs, st)) ∧
    (∀ (c : Crypto) (fs : FS) (st : WalletStorage)
        (ops : List (String × JVal)), st.modified = false →
      (∀ p ∈ ops, p.2 ≠ JVal.null ∧ docGet st.data p.1 = some p.2) →
      WalletStorage.write c fs
        (ops.foldl (fun s p => WalletStorage.put s p.1 p.2) st) = (fs, st)) := by
  have hput : ∀ (st : WalletStorage) (k : String) (v : JVal), v ≠ JVal.null →
      docGet st.data k = some v → WalletStorage.put st k v = st := by
    intro st k v hv hg
    unfold WalletStorage.put
    rw [if_pos hv, if_neg]
    rw [hg]
    simp
  have hwrite : ∀ (c : Crypto) (fs : FS) (st : WalletStorage),
      st.modified = false → WalletStorage.write c fs st = (fs, st) := by
    intro c fs st hm
    unfold WalletStorage.write
    rw [if_pos (by simp [hm])]
  refine ⟨hput, hwrite, ?_⟩
  intro c fs st ops hm hops
  have hfold : ops.foldl (fun s p => WalletStorage.put s p.1 p.2) st = st := by
    induction ops with
    | nil => rfl
    | cons p rest ih =>
        simp only [List.foldl_cons]
        rw [hput st p.1 p.2 (hops p (List.mem_cons_self p rest)).1
          (hops p (List.mem_cons_self p rest)).2]
        exact ih (fun q hq => hops q (List.mem_cons_of_mem p hq))
  rw [hfold]
  exact hwrite c fs st hm

/-- Witness for C10's amended theorem: a no-change put of a non-null value
followed by a write leaves the state and file system alone. -/
theorem C10_put_write_frame_witness :
    WalletStorage.write crypto0 []
      ([("a", JVal.int 3)].foldl (fun s p => WalletStorage.put s p.1 p.2)
        { st10 with data := [("a", JVal.int 3)] }) =
      ([], { st10 with data := [("a", JVal.int 3)] }) := by
  exact C10_put_write_frame.2.2 crypto0 []
    { st10 with data := [("a", JVal.int 3)] } [("a", JVal.int 3)]
    (by rfl) (by intro p hp; cases hp with
      | head => exact ⟨by decide, by rfl⟩
      | tail _ h => cases h)

theorem serialize_outpoint_congr (a b : TxInput)
    (hph : a.prevout_hash = b.prevout_hash) (hpn : a.prevout_n = b.prevout_n) :
    Transaction.serialize_outpoint a = Transaction.serialize_outpoint b := by
  unfold Transaction.serialize_outpoint
  rw [hph, hpn]

theorem get_preimage_script_congr (c : Crypto) (a b : TxInput)
    (hk : a.kind = b.kind) (ha : a.address = b.address)
    (hx : a.x_pubkeys = b.x_pubkeys) (hn : a.num_sig = b.num_sig)
    (hs : a.scriptCode = b.scriptCode) :
    Transaction.get_preimage_script c a = Transaction.get_preimage_script c b := by
  unfold Transaction.get_preimage_script
  rw [hk, ha, hx, hn, hs]

theorem mapE_congr_forall2 {α β : Type} (f : α → Except PErr β)
    (R : α → α → Prop) (l l' : List α) (hrel : List.Forall₂ R l l')
    (hf : ∀ a b, R a b → f a = f b) : mapE f l = mapE f l' := by
  induction hrel with
  | nil => rfl
  | cons hab _ ih =>
      simp only [mapE]
      rw [hf _ _ hab, ih]

/-- C3: the signing preimage of input `i` (hence its hash) is a function of
the version, the locktime, every input's outpoint and sequence, input `i`'s
own non-signature fields (script kind, keys, threshold, address, external
script code and value) and the outputs alone — in particular it is unchanged
by filling in or reordering the signature slots (or cached scriptSigs) of any
input other than `i`. -/
theorem C3_preimage_independence (c : Crypto) (t t' : Transaction) (i : Nat)
    (hver : t'.version = t.version) (hlock : t'.locktime = t.locktime)
    (houts : t'.outputs = t.outputs)
    (hins : List.Forall₂ (fun a b =>
      a.prevout_hash = b.prevout_hash ∧ a.prevout_n = b.prevout_n ∧
        a.sequence = b.sequence) t'.inputs t.inputs)
    (hi : (t'.inputs.get? i).map (fun x =>
        (x.kind, x.x_pubkeys, x.num_sig, x.address, x.value, x.scriptCode)) =
      (t.inputs.get? i).map (fun x =>
        (x.kind, x.x_pubkeys, x.num_sig, x.address, x.value, x.scriptCode))) :
    Transaction.preimage_hash c t' i = Transaction.preimage_hash c t i := by
  have houtp : mapE Transaction.serialize_outpoint t'.inputs =
      mapE Transaction.serialize_outpoint t.inputs :=
    mapE_congr_forall2 _ _ _ _ hins
      (fun a b hab => serialize_outpoint_congr a b hab.1 hab.2.1)
  have hseqE : mapE (fun txin =>
        int_to_hex ((txin.sequence.getD (0xffffffff - 1) : Nat) : Int) 4) t'.inputs =
      mapE (fun txin =>
        int_to_hex ((txin.sequence.getD (0xffffffff - 1) : Nat) : Int) 4) t.inputs :=
    mapE_congr_forall2 _ _ _ _ hins (fun a b hab => by rw [hab.2.2])
  suffices hsp : Transaction.serialize_preimage c t' i =
      Transaction.serialize_preimage c t i by
    unfold Transaction.preimage_hash
    rw [hsp]
  cases hti : t.inputs.get? i with
  | none =>
      have hti' : t'.inputs.get? i = none := by
        rw [hti] at hi
        cases ht2 : t'.inputs.get? i with
        | none => rfl
        | some a =>
            rw [ht2] at hi
            exact Option.noConfusion hi
      unfold Transaction.serialize_preimage
      rw [hver, hlock, houts, houtp, hseqE, hti, hti']
  | some txin =>
      rw [hti] at hi
      cases hti' : t'.inputs.get? i with
      | none =>
          rw [hti'] at hi
          exact Option.noConfusion hi
      | some txin' =>
          rw [hti'] at hi
          have hi2 := Option.some.inj hi
          simp only [Prod.mk.injEq] at hi2
          obtain ⟨hk, hx, hn, ha, hval, hsc⟩ := hi2
          have hiF2 : ∀ {k : Nat} {a b : TxInput}, t'.inputs.get? k = some a →
              t.inputs.get? k = some b →
              a.prevout_hash = b.prevout_hash ∧ a.prevout_n = b.prevout_n ∧
                a.sequence = b.sequence := by
            intro k a b ha2 hb2
            have := List.forall₂_iff_get.mp hins
            obtain ⟨hlen, hget⟩ := this
            have hk2 : k < t'.inputs.length := by
              by_contra hc
              rw [List.get?_eq_none.mpr (by omega)] at ha2
              cases ha2
            have hk3 : k < t.inputs.length := by omega
            have := hget k hk2 hk3
            rw [List.get?_eq_get hk2] at ha2
            rw [List.get?_eq_get hk3] at hb2
            cases ha2; cases hb2
            exact this
          obtain ⟨hph, hpn, hseq⟩ := hiF2 hti' hti
          have hop : Transaction.serialize_outpoint txin' =
              Transaction.serialize_outpoint txin :=
            serialize_outpoint_congr _ _ hph hpn
          have hps : Transaction.get_preimage_script c txin' =
              Transaction.get_preimage_script c txin :=
            get_preimage_script_congr c _ _ hk ha hx hn hsc
          unfold Transaction.serialize_preimage
          rw [hver, hlock, houts, houtp, hseqE, hti, hti']
          simp only [epure_bind]
          rw [hop, hps, hval, hseq]

/-- Witness for C3: filling the second input's signature slot does not change
the first input's preimage hash. -/
theorem C3_preimage_independence_witness :
    Transaction.preimage_hash crypto0
        ⟨1, 0, [inW6, { inUnder with signatures := [some sigBytes, none] }], []⟩ 0 =
      Transaction.preimage_hash crypto0 ⟨1, 0, [inW6, inUnder], []⟩ 0 := by
  exact C3_preimage_independence crypto0 ⟨1, 0, [inW6, inUnder], []⟩
    ⟨1, 0, [inW6, { inUnder with signatures := [some sigBytes, none] }], []⟩ 0
    rfl rfl rfl
    (List.Forall₂.cons ⟨rfl, rfl, rfl⟩
      (List.Forall₂.cons ⟨rfl, rfl, rfl⟩ List.Forall₂.nil))
    rfl

set_option maxRecDepth 4096 in
/-- C2: the claim fails: serializing a complete transaction emits only the
present signatures, so the roundtrip shrinks the signature list of a complete
1-of-2 multisig input whose first slot is empty from two slots to one, and the
deserialized transaction is not structurally equal to the original. -/
theorem C2_counterexample :
    Transaction.is_complete txC2 = true ∧
    (Transaction.serialize crypto0 txC2 >>= fun raw => deserialize crypto0 raw).map
        (fun t => t.inputs.map (fun txin => txin.signatures.length)) =
      Except.ok [1] ∧
    txC2.inputs.map (fun txin => txin.signatures.length) = [2] ∧ (1 : Nat) ≠ 2 :=
  ⟨rfl, rfl, rfl, by decide⟩

theorem pushOp_range (d : List Nat) (h : d ≠ []) : 0 < pushOp d ∧ pushOp d ≤ 78 := by
  have hpos : 0 < d.length := List.length_pos.mpr h
  unfold pushOp OP_PUSHDATA1 OP_PUSHDATA2 OP_PUSHDATA4
  split
  · constructor <;> omega
  · split
    · constructor <;> omega
    · split
      · constructor <;> omega
      · constructor <;> omega

theorem script_get_op_zero (r : List Nat) :
    script_get_op (0 :: r) = (0, some []) :: script_get_op r := by
  unfold script_get_op
  simp only [List.length_cons, script_get_op_rec]
  norm_num [OP_PUSHDATA1, OP_PUSHDATA2, OP_PUSHDATA4]

theorem script_get_op_opcode (op : Nat) (r : List Nat) (h : 78 < op) :
    script_get_op (op :: r) = (op, none) :: script_get_op r := by
  unfold script_get_op
  simp only [List.length_cons, script_get_op_rec]
  rw [if_neg (by unfold OP_PUSHDATA4; omega)]

theorem script_get_op_push (d r : List Nat) (hlen : d.length < 2 ^ 16) :
    script_get_op (push_item d ++ r) = (pushOp d, some d) :: script_get_op r := by
  by_cases h76 : d.length < 76
  · have hb : push_item d ++ r = d.length :: (d ++ r) := by
      unfold push_item
      rw [if_pos h76]
      simp
    have hop : pushOp d = d.length := by unfold pushOp; rw [if_pos h76]
    rw [hb, hop]
    unfold script_get_op
    simp only [List.length_cons, script_get_op_rec]
    rw [if_pos (by unfold OP_PUSHDATA4; omega)]
    rw [if_neg (by unfold OP_PUSHDATA1; omega), if_neg (by unfold OP_PUSHDATA2; omega),
        if_neg (by unfold OP_PUSHDATA4; omega)]
    simp only [List.drop_zero, Nat.zero_add]
    rw [List.take_left, List.drop_left]
    congr 1
    exact script_get_op_rec_fuel _ _ r (by rw [List.length_append]; omega) (le_refl _)
  · by_cases h256 : d.length < 2 ^ 8
    · have hb : push_item d ++ r = 76 :: d.length :: (d ++ r) := by
        unfold push_item
        rw [if_neg h76, if_pos h256]
        simp
      have hop : pushOp d = 76 := by
        unfold pushOp OP_PUSHDATA1
        rw [if_neg h76, if_pos h256]
      rw [hb, hop]
      unfold script_get_op
      simp only [List.length_cons, script_get_op_rec]
      rw [if_pos (by unfold OP_PUSHDATA4; omega)]
      rw [if_pos (by unfold OP_PUSHDATA1; omega)]
      simp only [List.headD_cons]
      have hd1 : (d.length :: (d ++ r)).drop 1 = d ++ r := rfl
      have hd2 : (d.length :: (d ++ r)).drop (1 + d.length) = r := by
        rw [Nat.add_comm, List.drop_succ_cons, List.drop_left]
      rw [hd1, hd2, List.take_left]
      congr 1
      exact script_get_op_rec_fuel _ _ r
        (by simp only [List.length_cons, List.length_append]; omega) (le_refl _)
    · have hb : push_item d ++ r = 77 :: (leBytes 2 d.length ++ (d ++ r)) := by
        unfold push_item
        rw [if_neg h76, if_neg h256, if_pos (by omega)]
        simp
      have hop : pushOp d = 77 := by
        unfold pushOp OP_PUSHDATA2
        rw [if_neg h76, if_neg h256, if_pos hlen]
      have hlb : (leBytes 2 d.length).length = 2 := length_leBytes 2 d.length
      rw [hb, hop]
      unfold script_get_op
      simp only [List.length_cons, script_get_op_rec]
      rw [if_pos (by unfold OP_PUSHDATA4; omega)]
      rw [if_neg (by unfold OP_PUSHDATA1; omega)]
      rw [if_pos (by unfold OP_PUSHDATA2; omega)]
      have hge : 2 ≤ (leBytes 2 d.length ++ (d ++ r)).length := by
        rw [List.length_append, hlb]; omega
      rw [if_pos hge]
      have htk : (leBytes 2 d.length ++ (d ++ r)).take 2 = leBytes 2 d.length := by
        conv_lhs => rw [show (2 : Nat) = (leBytes 2 d.length).length from hlb.symm]
        exact List.take_left _ _
      rw [htk, leVal_leBytes 2 d.length (by norm_num at hlen ⊢; omega)]
      have hdr : (leBytes 2 d.length ++ (d ++ r)).drop 2 = d ++ r := by
        conv_lhs => rw [show (2 : Nat) = (leBytes 2 d.length).length from hlb.symm]
        exact List.drop_left _ _
      have hdr2 : (leBytes 2 d.length ++ (d ++ r)).drop (2 + d.length) = r := by
        rw [← List.drop_drop, hdr, List.drop_left]
      rw [hdr, hdr2, List.take_left]
      congr 1
      exact script_get_op_rec_fuel _ _ r
        (by simp only [List.length_append, hlb]; omega) (le_refl _)

theorem script_get_op_push_nil (d : List Nat) (hlen : d.length < 2 ^ 16) :
    script_get_op (push_item d) = [(pushOp d, some d)] := by
  have h := script_get_op_push d [] hlen
  rw [List.append_nil] at h
  rw [h]
  rfl

theorem script_get_op_pushes (ss : List (List Nat)) (r : List Nat)
    (h : ∀ s ∈ ss, s.length < 2 ^ 16) :
    script_get_op (ss.flatMap push_item ++ r) =
      ss.map (fun s => (pushOp s, some s)) ++ script_get_op r := by
  induction ss with
  | nil => simp
  | cons s ss ih =>
      rw [List.flatMap_cons, List.append_assoc,
          script_get_op_push s _ (h s (List.mem_cons_self s ss)),
          ih (fun x hx => h x (List.mem_cons_of_mem s hx))]
      simp

theorem match_decoded_push_cons (op : Nat) (dta : Option (List Nat))
    (rest : List (Nat × Option (List Nat))) (ms : List Int)
    (h1 : 0 < op) (h2 : op ≤ 78) :
    match_decoded ((op, dta) :: rest) ((78 : Int) :: ms) = match_decoded rest ms := by
  simp only [match_decoded]
  rw [if_pos ⟨by trivial, h2, h1⟩]
  simp

theorem match_decoded_op_cons (op : Nat) (dta : Option (List Nat))
    (rest : List (Nat × Option (List Nat))) (ms : List Int) (h : 78 < op) :
    match_decoded ((op, dta) :: rest) (((op : Nat) : Int) :: ms) =
      match_decoded rest ms := by
  simp only [match_decoded]
  rw [if_neg (by intro hcon; omega)]
  simp

theorem match_decoded_zero78 (dta : Option (List Nat))
    (rest : List (Nat × Option (List Nat))) (ms : List Int) :
    match_decoded ((0, dta) :: rest) ((78 : Int) :: ms) = false := by
  simp only [match_decoded]
  rw [if_neg (by intro hcon; omega)]
  simp

theorem match_decoded_zero0 (dta : Option (List Nat))
    (rest : List (Nat × Option (List Nat))) (ms : List Int) :
    match_decoded ((0, dta) :: rest) ((0 : Int) :: ms) = match_decoded rest ms := by
  simp only [match_decoded]
  rw [if_neg (by intro hcon; omega)]
  simp

theorem match_decoded_replicate_append (dec rest : List (Nat × Option (List Nat)))
    (ms : List Int) (h : ∀ e ∈ dec, 0 < e.1 ∧ e.1 ≤ 78) :
    match_decoded (dec ++ rest) (List.replicate dec.length 78 ++ ms) =
      match_decoded rest ms := by
  induction dec with
  | nil => rfl
  | cons e es ih =>
      obtain ⟨e1, e2⟩ := e
      have he := h (e1, e2) (List.mem_cons_self _ es)
      rw [List.cons_append, List.length_cons, List.replicate_succ, List.cons_append,
          match_decoded_push_cons e1 e2 _ _ he.1 he.2,
          ih (fun x hx => h x (List.mem_cons_of_mem _ hx))]

theorem match_decoded_length_ne (dec : List (Nat × Option (List Nat)))
    (ms : List Int) (h : ¬ dec.length = ms.length) : match_decoded dec ms = false := by
  induction dec generalizing ms with
  | nil =>
      cases ms with
      | nil => exact absurd rfl h
      | cons m ms => rfl
  | cons e es ih =>
      cases ms with
      | nil => rfl
      | cons m ms =>
          simp only [match_decoded]
          rw [ih ms (by simp only [List.length_cons] at h; omega)]
          simp

theorem canonicalSig_elim (s : Option (List Nat)) (h : canonicalSig s = true) :
    ∃ l, s = some l ∧ l ≠ [] ∧ l ≠ [255] ∧ l.length < 76 := by
  cases s with
  | none => simp [canonicalSig] at h
  | some l =>
      simp only [canonicalSig, Bool.and_eq_true, bne_iff_ne, ne_eq,
        decide_eq_true_eq] at h
      exact ⟨l, rfl, h.1.1, h.1.2, h.2⟩

theorem canonicalKey_elim (c : Crypto) (x : XPublicKey) (h : canonicalKey c x = true) :
    ∃ k rest, x.raw = k :: rest ∧ (k = 2 ∨ k = 3 ∨ k = 4) ∧
      c.validRawPubkey (k :: rest) = true ∧ (k :: rest).length < 76 := by
  unfold canonicalKey at h
  rcases hx : x.raw with _ | ⟨k, rest⟩
  · rw [hx] at h; cases h
  · rw [hx] at h
    simp only [Bool.and_eq_true, Bool.or_eq_true, beq_iff_eq, decide_eq_true_eq] at h
    exact ⟨k, rest, rfl, by tauto, h.1.2, h.2⟩

theorem parse_sig_canonical (sl : List (Option (List Nat)))
    (h : sl.all canonicalSig = true) :
    parse_sig (sl.map (fun s => s.getD [])) = sl := by
  unfold parse_sig
  rw [List.map_map]
  have hp : ∀ s ∈ sl, ((fun x => if x = [255] then none else some x) ∘
      (fun s => Option.getD s [])) s = id s := by
    intro s hs
    obtain ⟨l, hsl, _, h255, _⟩ := canonicalSig_elim s (List.all_eq_true.mp h s hs)
    subst hsl
    simp [h255]
  rw [List.map_congr_left hp, List.map_id]

theorem countP_canonical (sl : List (Option (List Nat)))
    (h : sl.all canonicalSig = true) :
    sl.countP (fun s => sigPresent s) = sl.length := by
  rw [List.countP_eq_length]
  intro s hs
  obtain ⟨l, hsl, hne, _, _⟩ := canonicalSig_elim s (List.all_eq_true.mp h s hs)
  subst hsl
  cases l with
  | nil => exact absurd rfl hne
  | cons b bs => rfl

theorem filter_canonical (sl : List (Option (List Nat)))
    (h : sl.all canonicalSig = true) :
    sl.filter (fun s => sigPresent s) = sl := by
  rw [List.filter_eq_self]
  intro s hs
  obtain ⟨l, hsl, hne, _, _⟩ := canonicalSig_elim s (List.all_eq_true.mp h s hs)
  subst hsl
  cases l with
  | nil => exact absurd rfl hne
  | cons b bs => rfl

theorem push_item_length (d : List Nat) (h : d.length < 76) :
    (push_item d).length = d.length + 1 := by
  unfold push_item
  rw [if_pos h]
  simp

theorem flatMap_push_item_length (ds : List (List Nat))
    (h : ∀ d ∈ ds, d.length < 76) :
    (ds.flatMap push_item).length ≤ 77 * ds.length := by
  induction ds with
  | nil => simp
  | cons d ds ih =>
      rw [List.flatMap_cons, List.length_append,
          push_item_length d (h d (List.mem_cons_self d ds))]
      have h1 := ih (fun x hx => h x (List.mem_cons_of_mem d hx))
      have h2 := h d (List.mem_cons_self d ds)
      simp only [List.length_cons]
      omega

theorem to_public_key_canonical (c : Crypto) (x : XPublicKey)
    (h : canonicalKey c x = true) :
    XPublicKey.to_public_key c x = .ok (.pub x.raw) := by
  obtain ⟨k, rest, hx, hk, hv, _⟩ := canonicalKey_elim c x h
  unfold XPublicKey.to_public_key
  rw [hx]
  dsimp only
  rw [if_pos hk]

theorem validate_canonical (c : Crypto) (x : XPublicKey)
    (h : canonicalKey c x = true) :
    XPublicKey.validate c x.raw = .ok x := by
  obtain ⟨k, rest, hx, hk, hv, _⟩ := canonicalKey_elim c x h
  have hmain : XPublicKey.validate c (k :: rest) = .ok ⟨k :: rest⟩ := by
    unfold XPublicKey.validate
    dsimp only
    rw [if_pos hk, if_pos hv]
  rw [hx, hmain, ← hx]

theorem realise_canonical (c : Crypto) (x : XPublicKey)
    (h : canonicalKey c x = true) :
    (XPublicKey.to_public_key c x >>= fun pk =>
      PubResult.to_bytes pk >>= fun b => XPublicKey.validate c b) = .ok x := by
  rw [to_public_key_canonical c x h, ebind_ok,
      show PubResult.to_bytes (.pub x.raw) = .ok x.raw from rfl, ebind_ok]
  exact validate_canonical c x h

theorem to_address_canonical (c : Crypto) (x : XPublicKey)
    (h : canonicalKey c x = true) :
    XPublicKey.to_address c x = .ok ⟨false, c.hash160 x.raw⟩ := by
  unfold XPublicKey.to_address
  rw [to_public_key_canonical c x h]
  rfl

theorem get_siglist_canonical (c : Crypto) (txin : TxInput) (m : Int)
    (hnum : txin.num_sig = some m)
    (hall : txin.signatures.all canonicalSig = true)
    (hlen : (txin.signatures.length : Int) = m)
    (hkeys : txin.x_pubkeys.all (canonicalKey c) = true) :
    Transaction.get_siglist c txin =
      .ok (txin.x_pubkeys, txin.signatures.map (fun s => s.getD [])) := by
  unfold Transaction.get_siglist
  rw [hnum]
  dsimp only
  rw [filter_canonical _ hall]
  rw [if_pos (show (((txin.signatures.map (fun s => s.getD [])).length : Int) ==
      (some m).getD 1) = true by
        simp only [List.length_map, Option.getD_some, beq_iff_eq]
        exact hlen)]
  rw [mapE_ok_of_forall _ id txin.x_pubkeys
        (fun x hx => realise_canonical c x (List.all_eq_true.mp hkeys x hx))]
  rw [List.map_id]
  rfl

theorem int_to_hex_nat (n : Nat) (L : Nat) (h : n < 256 ^ L) :
    int_to_hex (n : Int) L = .ok (leBytes L n) := by
  unfold int_to_hex
  rw [if_pos ⟨Int.natCast_nonneg n, by exact_mod_cast h⟩]
  simp

theorem read_bytes_exact (d r : List Nat) (n : Nat) (h : d.length = n) :
    read_bytes n (d ++ r) = (d, r) := by
  subst h
  exact read_bytes_append d r

theorem serialize_input_base (txin : TxInput) (script : List Nat)
    (hn : txin.prevout_n < 2 ^ 32)
    (q : Nat) (hq : txin.sequence = some q) (hq2 : q < 2 ^ 32)
    (hok : txin.value = none ∨ Transaction.is_txin_complete txin = true) :
    Transaction.serialize_input txin script =
      .ok (txin.prevout_hash.reverse ++ (leBytes 4 txin.prevout_n ++
        (var_int script.length ++ (script ++ leBytes 4 q)))) := by
  have h232 : (256 : Nat) ^ 4 = 2 ^ 32 := by norm_num
  unfold Transaction.serialize_input
  rw [serialize_outpoint_ok txin hn, ebind_ok, hq]
  simp only [Option.getD_some]
  rw [int_to_hex_nat q 4 (by omega), ebind_ok]
  have hbase : ∀ z : List Nat,
      txin.prevout_hash.reverse ++ leBytes 4 txin.prevout_n ++
        var_int script.length ++ script ++ z =
      txin.prevout_hash.reverse ++ (leBytes 4 txin.prevout_n ++
        (var_int script.length ++ (script ++ z))) := by
    intro z
    simp [List.append_assoc]
  rcases hok with hv | hcomp
  · rw [hv]
    dsimp only
    rw [hbase]
    rfl
  · cases hval : txin.value with
    | none =>
        dsimp only
        rw [hbase]
        rfl
    | some v =>
        dsimp only
        rw [if_neg (not_not_intro hcomp)]
        rw [hbase]
        rfl

theorem epure_eq_ok {α : Type} (a : α) : (pure a : Except PErr α) = .ok a := rfl

theorem parse_input_cb (c : Crypto) (ph : List Nat) (pn : Nat) (ss : List Nat)
    (sq : Nat) (rest : List Nat)
    (hph : ph.length = 32) (hph0 : ph = List.replicate 32 0)
    (hpn : pn < 2 ^ 32) (hsq : sq < 2 ^ 32) (hss : ss.length < 2 ^ 64) :
    parse_input c (ph.reverse ++ (leBytes 4 pn ++ (var_int ss.length ++
        (ss ++ (leBytes 4 sq ++ rest))))) =
      .ok ({ prevout_hash := ph, prevout_n := pn, sequence := some sq,
             kind := .coinbase, scriptSig := some ss, x_pubkeys := [],
             signatures := [], num_sig := none, address := none, value := none,
             scriptCode := none }, rest) := by
  have h232 : (256 : Nat) ^ 4 = 2 ^ 32 := by norm_num
  unfold parse_input
  rw [read_bytes_exact ph.reverse _ 32 (by simp [hph])]
  dsimp only
  rw [readNum_append 4 pn _ (by omega)]
  simp only [ebind_ok]
  rw [read_compact_size_var_int ss.length _ hss]
  simp only [ebind_ok]
  rw [read_bytes_exact ss _ ss.length rfl]
  dsimp only
  rw [readNum_append 4 sq _ (by omega)]
  simp only [ebind_ok]
  simp only [List.reverse_reverse]
  rw [if_pos hph0]
  rfl

theorem parse_input_classified (c : Crypto) (ph : List Nat) (pn : Nat)
    (ss : List Nat) (sq : Nat) (rest : List Nat) (f : ScriptSigFields)
    (hph : ph.length = 32) (hph0 : ph ≠ List.replicate 32 0)
    (hpn : pn < 2 ^ 32) (hsq : sq < 2 ^ 32) (hss : ss.length < 2 ^ 64)
    (hcls : parse_scriptSig c ss = .ok (some f))
    (hcomp : (f.signatures.countP (fun s => sigPresent s) : Int) = f.num_sig) :
    parse_input c (ph.reverse ++ (leBytes 4 pn ++ (var_int ss.length ++
        (ss ++ (leBytes 4 sq ++ rest))))) =
      .ok ({ prevout_hash := ph, prevout_n := pn, sequence := some sq,
             kind := f.kind, scriptSig := some ss, x_pubkeys := f.x_pubkeys,
             signatures := f.signatures, num_sig := some f.num_sig,
             address := f.address, value := none, scriptCode := none }, rest) := by
  have h232 : (256 : Nat) ^ 4 = 2 ^ 32 := by norm_num
  unfold parse_input
  rw [read_bytes_exact ph.reverse _ 32 (by simp [hph])]
  dsimp only
  rw [readNum_append 4 pn _ (by omega)]
  simp only [ebind_ok]
  rw [read_compact_size_var_int ss.length _ hss]
  simp only [ebind_ok]
  rw [read_bytes_exact ss _ ss.length rfl]
  dsimp only
  rw [readNum_append 4 sq _ (by omega)]
  simp only [ebind_ok]
  simp only [List.reverse_reverse]
  rw [if_neg hph0]
  rw [hcls]
  simp only [ebind_ok]
  rw [epure_eq_ok]
  simp only [ebind_ok]
  rw [if_pos (show Transaction.is_txin_complete
      { prevout_hash := ph, prevout_n := pn, sequence := some sq,
        kind := f.kind, scriptSig := some ss, x_pubkeys := f.x_pubkeys,
        signatures := f.signatures, num_sig := some f.num_sig,
        address := f.address, value := none, scriptCode := none } = true by
    unfold Transaction.is_txin_complete
    simp only [Option.getD_some, beq_iff_eq]
    exact hcomp)]
  rfl

theorem parse_scriptSig_p2pk (c : Crypto) (s : List Nat)
    (hne : s ≠ []) (hlen : s.length < 76) :
    parse_scriptSig c (push_item s) = .ok (some ⟨.p2pk, [some s], 1, [], none⟩) := by
  obtain ⟨hp1, hp2⟩ := pushOp_range s hne
  unfold parse_scriptSig
  rw [script_get_op_push_nil s (by omega)]
  rw [if_pos (show match_decoded [(pushOp s, some s)] [78] = true by
    rw [show ([78] : List Int) = (78 : Int) :: [] from rfl,
        match_decoded_push_cons _ _ _ _ hp1 hp2]
    rfl)]
  rfl

theorem parse_scriptSig_p2pkh (c : Crypto) (s : List Nat) (x : XPublicKey)
    (hne : s ≠ []) (hlen : s.length < 76) (h255 : s ≠ [255])
    (hx : canonicalKey c x = true) :
    parse_scriptSig c (push_item s ++ push_item x.raw) =
      .ok (some ⟨.p2pkh, [some s], 1, [x], some ⟨false, c.hash160 x.raw⟩⟩) := by
  obtain ⟨k, krest, hraw, -, -, hkl⟩ := canonicalKey_elim c x hx
  have hxl : x.raw.length < 76 := by rw [hraw]; exact hkl
  have hxne : x.raw ≠ [] := by rw [hraw]; simp
  obtain ⟨hp1, hp2⟩ := pushOp_range s hne
  obtain ⟨hq1, hq2⟩ := pushOp_range x.raw hxne
  unfold parse_scriptSig
  rw [script_get_op_push s _ (by omega), script_get_op_push_nil x.raw (by omega)]
  rw [if_neg (show ¬ match_decoded
      ((pushOp s, some s) :: [(pushOp x.raw, some x.raw)]) [78] = true by
    rw [match_decoded_length_ne _ _ (by simp)]
    simp)]
  rw [if_pos (show match_decoded
      ((pushOp s, some s) :: [(pushOp x.raw, some x.raw)]) [78, 78] = true by
    rw [show ([78, 78] : List Int) = (78 : Int) :: (78 : Int) :: [] from rfl,
        match_decoded_push_cons _ _ _ _ hp1 hp2,
        match_decoded_push_cons _ _ _ _ hq1 hq2]
    rfl)]
  rw [show (((List.drop 1 [(pushOp s, some s), (pushOp x.raw, some x.raw)]).headD
        (0, none)).2.getD []) = x.raw from rfl]
  rw [show (([(pushOp s, some s), (pushOp x.raw, some x.raw)].headD
        (0, none)).2.getD []) = s from rfl]
  dsimp only
  rw [validate_canonical c x hx]
  simp only [ebind_ok]
  rw [to_address_canonical c x hx]
  dsimp only
  unfold parse_sig
  simp only [List.map_cons, List.map_nil]
  rw [if_neg h255]

theorem push_int_small (k : Nat) (h1 : 1 ≤ k) (h2 : k ≤ 16) :
    push_int k = [80 + k] := by
  unfold push_int OP_1
  rw [if_neg (by omega), if_pos h2]
  congr 1
  omega

theorem get_append_mid {α : Type} (l1 l2 : List α) (a : α) (i : Nat)
    (hi : i = l1.length) (hlt : i < (l1 ++ a :: l2).length) :
    (l1 ++ a :: l2).get ⟨i, hlt⟩ = a := by
  subst hi
  induction l1 with
  | nil => rfl
  | cons b bs ih => exact ih _

theorem canonicalKeys_raw_short (c : Crypto) (keys : List XPublicKey)
    (hkeys : keys.all (canonicalKey c) = true) :
    ∀ b ∈ keys.map XPublicKey.raw, b ≠ [] ∧ b.length < 76 := by
  intro b hb
  obtain ⟨x, hxk, hxb⟩ := List.mem_map.mp hb
  obtain ⟨k, r2, hr, -, -, hl⟩ :=
    canonicalKey_elim c x (List.all_eq_true.mp hkeys x hxk)
  subst hxb
  rw [hr]
  exact ⟨by simp, hl⟩

theorem script_get_op_multisig (c : Crypto) (keys : List XPublicKey) (mN : Nat)
    (hkeys : keys.all (canonicalKey c) = true)
    (hm1 : 1 ≤ mN) (hm16 : mN ≤ 16)
    (hn1 : 1 ≤ keys.length) (hn16 : keys.length ≤ 16) :
    script_get_op (multisig_layout (keys.map XPublicKey.raw) mN) =
      (80 + mN, none) ::
        (keys.map (fun x => (pushOp x.raw, some x.raw)) ++
          [(80 + keys.length, none), (174, none)]) := by
  have hkb : ∀ b ∈ keys.map XPublicKey.raw, b.length < 2 ^ 16 := by
    intro b hb
    have := (canonicalKeys_raw_short c keys hkeys b hb).2
    omega
  unfold multisig_layout OP_CHECKMULTISIG
  rw [push_int_small mN hm1 hm16]
  rw [show (keys.map XPublicKey.raw).length = keys.length from by simp]
  rw [push_int_small keys.length hn1 hn16]
  simp only [List.append_assoc, List.singleton_append, List.cons_append,
    List.nil_append]
  rw [script_get_op_opcode _ _ (by omega)]
  rw [script_get_op_pushes _ _ hkb]
  rw [script_get_op_opcode _ _ (by omega), script_get_op_opcode 174 _ (by omega),
      List.map_map]
  rfl

theorem getD_cons_append_two {α : Type} (dflt a x y : α) (l : List α) :
    (a :: (l ++ [x, y])).getD ((a :: (l ++ [x, y])).length - 2) dflt = x := by
  induction l generalizing a with
  | nil => rfl
  | cons b bs ih =>
      have e : (a :: (b :: bs ++ [x, y])).length - 2 =
          ((b :: (bs ++ [x, y])).length - 2) + 1 := by
        simp only [List.length_cons, List.length_append]
        omega
      rw [e, List.getD_cons_succ]
      exact ih b

theorem parse_redeemScript_canonical (c : Crypto) (keys : List XPublicKey) (m : Int)
    (hkeys : keys.all (canonicalKey c) = true)
    (hm1 : 1 ≤ m) (hmn : m ≤ (keys.length : Int)) (hn16 : keys.length ≤ 16) :
    parse_redeemScript c (multisig_layout (keys.map XPublicKey.raw) m.toNat) =
      .ok (m, (keys.length : Int), keys,
        ⟨true, c.hash160 (multisig_layout (keys.map XPublicKey.raw) m.toNat)⟩) := by
  have hn1 : 1 ≤ keys.length := by omega
  have hmN1 : 1 ≤ m.toNat := by omega
  have hmN16 : m.toNat ≤ 16 := by omega
  have em : ((80 + m.toNat : Nat) : Int) - (OP_1 : Int) + 1 = m := by
    unfold OP_1
    push_cast
    omega
  have en : ((80 + keys.length : Nat) : Int) - (OP_1 : Int) + 1 = (keys.length : Int) := by
    unfold OP_1
    push_cast
    omega
  have eop : (OP_1 : Int) + m - 1 = ((80 + m.toNat : Nat) : Int) := by
    unfold OP_1
    push_cast
    omega
  have eopn : (OP_1 : Int) + (keys.length : Int) - 1 =
      ((80 + keys.length : Nat) : Int) := by
    unfold OP_1
    push_cast
    omega
  unfold parse_redeemScript
  rw [script_get_op_multisig c keys m.toNat hkeys hmN1 hmN16 hn1 hn16]
  dsimp only
  simp only [List.head?_cons]
  rw [if_neg (show ¬ ((80 + m.toNat, (none : Option (List Nat))) ::
      (keys.map (fun x => (pushOp x.raw, some x.raw)) ++
        [(80 + keys.length, none), (174, none)])).length < 2 from by
    simp only [List.length_cons, List.length_append]
    omega)]
  rw [getD_cons_append_two]
  dsimp only
  rw [em, en, eop, eopn, Int.toNat_natCast]
  have hmatch : match_decoded
      ((80 + m.toNat, (none : Option (List Nat))) ::
        (keys.map (fun x => (pushOp x.raw, some x.raw)) ++
          [(80 + keys.length, none), (174, none)]))
      (((80 + m.toNat : Nat) : Int) ::
        (List.replicate keys.length (78 : Int) ++
          [((80 + keys.length : Nat) : Int), (OP_CHECKMULTISIG : Int)])) = true := by
    rw [match_decoded_op_cons _ _ _ _ (by omega)]
    rw [show keys.length = (keys.map (fun x => (pushOp x.raw, some x.raw))).length
        from by simp]
    rw [match_decoded_replicate_append _ _ _ (by
      intro e he
      obtain ⟨x, hxk, hxe⟩ := List.mem_map.mp he
      obtain ⟨k2, r2, hr, -, -, -⟩ :=
        canonicalKey_elim c x (List.all_eq_true.mp hkeys x hxk)
      have hxne : x.raw ≠ [] := by rw [hr]; simp
      obtain ⟨hp1, hp2⟩ := pushOp_range x.raw hxne
      rw [← hxe]
      exact ⟨hp1, hp2⟩)]
    rw [match_decoded_op_cons _ _ _ _ (by omega)]
    rw [show (OP_CHECKMULTISIG : Int) = ((174 : Nat) : Int) from by
      unfold OP_CHECKMULTISIG; norm_num]
    rw [match_decoded_op_cons _ _ _ _ (by omega)]
    rfl
  rw [if_neg (not_not_intro hmatch)]
  rw [epure_eq_ok]
  simp only [ebind_ok]
  simp only [List.drop_succ_cons, List.drop_zero]
  rw [show ((80 + m.toNat, (none : Option (List Nat))) ::
      (keys.map (fun x => (pushOp x.raw, some x.raw)) ++
        [(80 + keys.length, none), (174, none)])).length - 3 =
      (keys.map (fun x => (pushOp x.raw, some x.raw))).length from by
    simp only [List.length_cons, List.length_append, List.length_map,
      List.length_nil]
    omega]
  rw [List.take_left]
  rw [mapE_ok_of_forall _ (fun e => (⟨e.2.getD []⟩ : XPublicKey)) _ (by
    intro e he
    obtain ⟨x, hxk, hxe⟩ := List.mem_map.mp he
    have hc := List.all_eq_true.mp hkeys x hxk
    rw [← hxe]
    dsimp only
    exact validate_canonical c x hc)]
  simp only [ebind_ok]
  rw [show (keys.map (fun x => (pushOp x.raw, some x.raw))).map
      (fun e => (⟨e.2.getD []⟩ : XPublicKey)) = keys from by
    rw [List.map_map]
    conv_rhs => rw [← List.map_id keys]
    exact List.map_congr_left (fun x hx => rfl)]
  rw [show multisig_script (keys.map XPublicKey.raw) m =
      .ok (multisig_layout (keys.map XPublicKey.raw) m.toNat) from by
    unfold multisig_script
    rw [if_pos ⟨hm1, by simpa using hmn⟩]]
  simp only [ebind_ok]
  rfl

theorem match_decoded_replicate (dec : List (Nat × Option (List Nat)))
    (h : ∀ e ∈ dec, 0 < e.1 ∧ e.1 ≤ 78) :
    match_decoded dec (List.replicate dec.length 78) = true := by
  have h2 := match_decoded_replicate_append dec [] [] h
  simpa using h2

theorem parse_scriptSig_p2sh (c : Crypto) (sigs : List (List Nat))
    (keys : List XPublicKey) (m : Int)
    (hkeys : keys.all (canonicalKey c) = true)
    (hm1 : 1 ≤ m) (hmn : m ≤ (keys.length : Int)) (hn16 : keys.length ≤ 16)
    (hsigs : ∀ s ∈ sigs, s ≠ [] ∧ s.length < 76) :
    parse_scriptSig c (OP_0 :: (sigs.flatMap push_script ++
        push_script (multisig_layout (keys.map XPublicKey.raw) m.toNat))) =
      .ok (some ⟨.p2sh, parse_sig sigs, m, keys,
        some ⟨true, c.hash160 (multisig_layout (keys.map XPublicKey.raw) m.toNat)⟩⟩) := by
  have hn1 : 1 ≤ keys.length := by omega
  have hmN1 : 1 ≤ m.toNat := by omega
  have hkshort := canonicalKeys_raw_short c keys hkeys
  have hrne : multisig_layout (keys.map XPublicKey.raw) m.toNat ≠ [] := by
    unfold multisig_layout
    rw [push_int_small m.toNat hmN1 (by omega)]
    simp
  have hrlen : (multisig_layout (keys.map XPublicKey.raw) m.toNat).length < 2 ^ 16 := by
    unfold multisig_layout
    rw [push_int_small m.toNat hmN1 (by omega)]
    rw [show (keys.map XPublicKey.raw).length = keys.length from by simp]
    rw [push_int_small keys.length hn1 hn16]
    have hfl := flatMap_push_item_length (keys.map XPublicKey.raw)
      (fun b hb => (hkshort b hb).2)
    simp only [List.length_append, List.length_cons, List.length_nil,
      List.length_map] at hfl ⊢
    omega
  obtain ⟨hr1, hr2⟩ := pushOp_range _ hrne
  have hsig16 : ∀ s ∈ sigs, s.length < 2 ^ 16 := by
    intro s hs
    have := (hsigs s hs).2
    omega
  unfold parse_scriptSig OP_0
  unfold push_script
  rw [script_get_op_zero, script_get_op_pushes sigs _ hsig16,
      script_get_op_push_nil _ hrlen]
  rw [if_neg (show ¬ match_decoded ((0, some []) ::
      (sigs.map (fun s => (pushOp s, some s)) ++
        [(pushOp (multisig_layout (keys.map XPublicKey.raw) m.toNat),
          some (multisig_layout (keys.map XPublicKey.raw) m.toNat))])) [78] = true from by
    rw [show ([78] : List Int) = (78 : Int) :: [] from rfl, match_decoded_zero78]
    simp)]
  rw [if_neg (show ¬ match_decoded ((0, some []) ::
      (sigs.map (fun s => (pushOp s, some s)) ++
        [(pushOp (multisig_layout (keys.map XPublicKey.raw) m.toNat),
          some (multisig_layout (keys.map XPublicKey.raw) m.toNat))])) [78, 78] = true from by
    rw [show ([78, 78] : List Int) = (78 : Int) :: [(78 : Int)] from rfl,
        match_decoded_zero78]
    simp)]
  have hm3 : match_decoded ((0, some []) ::
      (sigs.map (fun s => (pushOp s, some s)) ++
        [(pushOp (multisig_layout (keys.map XPublicKey.raw) m.toNat),
          some (multisig_layout (keys.map XPublicKey.raw) m.toNat))]))
      (((0 : Nat) : Int) :: List.replicate (((0, some ([] : List Nat)) ::
        (sigs.map (fun s => (pushOp s, some s)) ++
          [(pushOp (multisig_layout (keys.map XPublicKey.raw) m.toNat),
            some (multisig_layout (keys.map XPublicKey.raw) m.toNat))])).length - 1)
        (78 : Int)) = true := by
    rw [show ((0 : Nat) : Int) = (0 : Int) from by norm_num, match_decoded_zero0]
    rw [show (((0, some ([] : List Nat)) ::
        (sigs.map (fun s => (pushOp s, some s)) ++
          [(pushOp (multisig_layout (keys.map XPublicKey.raw) m.toNat),
            some (multisig_layout (keys.map XPublicKey.raw) m.toNat))])).length - 1) =
        (sigs.map (fun s => (pushOp s, some s)) ++
          [(pushOp (multisig_layout (keys.map XPublicKey.raw) m.toNat),
            some (multisig_layout (keys.map XPublicKey.raw) m.toNat))]).length from by
      simp]
    apply match_decoded_replicate
    intro e he
    rcases List.mem_append.mp he with hs | hl
    · obtain ⟨s, hsm, hse⟩ := List.mem_map.mp hs
      obtain ⟨hp1, hp2⟩ := pushOp_range s (hsigs s hsm).1
      rw [← hse]
      exact ⟨hp1, hp2⟩
    · have he2 := List.mem_singleton.mp hl
      subst he2
      exact ⟨hr1, hr2⟩
  rw [if_neg (not_not_intro hm3)]
  simp only [List.drop_succ_cons, List.drop_zero]
  rw [List.dropLast_concat]
  rw [show (sigs.map (fun s => (pushOp s, some s))).map (fun e => e.2.getD []) =
      sigs from by
    rw [List.map_map]
    conv_rhs => rw [← List.map_id sigs]
    exact List.map_congr_left (fun s hs => rfl)]
  rw [show ((0, some ([] : List Nat)) ::
      (sigs.map (fun s => (pushOp s, some s)) ++
        [(pushOp (multisig_layout (keys.map XPublicKey.raw) m.toNat),
          some (multisig_layout (keys.map XPublicKey.raw) m.toNat))])).getLastD
      (0, none) =
      (pushOp (multisig_layout (keys.map XPublicKey.raw) m.toNat),
        some (multisig_layout (keys.map XPublicKey.raw) m.toNat)) from by
    rw [show ((0, some ([] : List Nat)) ::
        (sigs.map (fun s => (pushOp s, some s)) ++
          [(pushOp (multisig_layout (keys.map XPublicKey.raw) m.toNat),
            some (multisig_layout (keys.map XPublicKey.raw) m.toNat))])) =
        (((0, some ([] : List Nat)) :: sigs.map (fun s => (pushOp s, some s))) ++
          [(pushOp (multisig_layout (keys.map XPublicKey.raw) m.toNat),
            some (multisig_layout (keys.map XPublicKey.raw) m.toNat))]) from by simp]
    rw [List.getLastD_concat]]
  dsimp only
  simp only [Option.getD_some]
  rw [parse_redeemScript_canonical c keys m hkeys hm1 hmn hn16]
  simp only [ebind_ok]

theorem input_script_cb (c : Crypto) (txin : TxInput) (s : List Nat)
    (hk : txin.kind = .coinbase) (hss : txin.scriptSig = some s) :
    Transaction.input_script c txin = .ok s := by
  unfold Transaction.input_script
  rw [hk, hss]
  rfl

theorem input_script_p2pk (c : Crypto) (txin : TxInput) (xps : List XPublicKey)
    (sl : List (List Nat)) (hk : txin.kind = .p2pk)
    (hsl : Transaction.get_siglist c txin = .ok (xps, sl)) :
    Transaction.input_script c txin = .ok (sl.flatMap push_script) := by
  unfold Transaction.input_script
  rw [hk]
  rw [if_neg (show ¬ TxinKind.p2pk = TxinKind.coinbase from by simp)]
  rw [hsl]
  rfl

theorem input_script_p2pkh (c : Crypto) (txin : TxInput) (x : XPublicKey)
    (xs : List XPublicKey) (sl : List (List Nat))
    (hk : txin.kind = .p2pkh)
    (hsl : Transaction.get_siglist c txin = .ok (x :: xs, sl)) :
    Transaction.input_script c txin =
      .ok (sl.flatMap push_script ++ push_script x.raw) := by
  unfold Transaction.input_script
  rw [hk]
  rw [if_neg (show ¬ TxinKind.p2pkh = TxinKind.coinbase from by simp)]
  rw [hsl]
  rfl

theorem input_script_p2sh (c : Crypto) (txin : TxInput) (xps : List XPublicKey)
    (sl : List (List Nat)) (m : Int)
    (hk : txin.kind = .p2sh) (hnum : txin.num_sig = some m)
    (hsl : Transaction.get_siglist c txin = .ok (xps, sl))
    (hm1 : 1 ≤ m) (hmn : m ≤ (xps.length : Int)) :
    Transaction.input_script c txin =
      .ok (OP_0 :: (sl.flatMap push_script ++
        push_script (multisig_layout (xps.map XPublicKey.raw) m.toNat))) := by
  unfold Transaction.input_script
  rw [hk]
  rw [if_neg (show ¬ TxinKind.p2sh = TxinKind.coinbase from by simp)]
  rw [hsl]
  simp only [ebind_ok]
  rw [hnum]
  dsimp only
  show (multisig_script (List.map XPublicKey.raw xps) m >>= fun redeem =>
    pure (OP_0 :: (sl.flatMap push_script ++ push_script redeem))) = _
  rw [show multisig_script (xps.map XPublicKey.raw) m =
      .ok (multisig_layout (xps.map XPublicKey.raw) m.toNat) from by
    unfold multisig_script
    rw [if_pos ⟨hm1, by simpa using hmn⟩]]
  simp only [ebind_ok]
  rfl

theorem push_item_length_le (d : List Nat) : (push_item d).length ≤ d.length + 5 := by
  unfold push_item
  split
  · simp
  · split
    · simp
    · split
      · simp only [List.length_cons, List.length_append, length_leBytes]
        omega
      · simp only [List.length_cons, List.length_append, length_leBytes]
        omega

theorem multisig_layout_length_le (c : Crypto) (keys : List XPublicKey) (mN : Nat)
    (hkeys : keys.all (canonicalKey c) = true) (hm1 : 1 ≤ mN) (hm16 : mN ≤ 16)
    (hn1 : 1 ≤ keys.length) (hn16 : keys.length ≤ 16) :
    (multisig_layout (keys.map XPublicKey.raw) mN).length ≤ 1235 := by
  unfold multisig_layout
  rw [push_int_small mN hm1 hm16]
  rw [show (keys.map XPublicKey.raw).length = keys.length from by simp]
  rw [push_int_small keys.length hn1 hn16]
  have hfl := flatMap_push_item_length (keys.map XPublicKey.raw)
    (fun b hb => (canonicalKeys_raw_short c keys hkeys b hb).2)
  simp only [List.length_append, List.length_cons, List.length_nil,
    List.length_map] at hfl ⊢
  omega

theorem flatMap_push_script_eq (ss : List (List Nat)) :
    ss.flatMap push_script = ss.flatMap push_item := rfl

theorem append5_assoc {α : Type} (a b c d e r : List α) :
    (a ++ (b ++ (c ++ (d ++ e)))) ++ r = a ++ (b ++ (c ++ (d ++ (e ++ r)))) := by
  simp [List.append_assoc]

set_option maxHeartbeats 1600000 in
theorem parse_serialize_input (c : Crypto) (txin : TxInput) (rest : List Nat)
    (h : canonicalInput c txin = true) :
    ∃ script ibytes txin',
      Transaction.input_script c txin = .ok script ∧
      Transaction.serialize_input txin script = .ok ibytes ∧
      parse_input c (ibytes ++ rest) = .ok (txin', rest) ∧
      inputClaimEq txin' txin := by
  unfold canonicalInput at h
  simp only [Bool.and_eq_true, decide_eq_true_eq] at h
  obtain ⟨⟨⟨hph32, hpn⟩, hseq⟩, hkind⟩ := h
  obtain ⟨q, hq, hq32⟩ : ∃ q, txin.sequence = some q ∧ q < 2 ^ 32 := by
    rcases hs : txin.sequence with _ | q
    · rw [hs] at hseq; cases hseq
    · rw [hs] at hseq
      simp only [decide_eq_true_eq] at hseq
      exact ⟨q, rfl, hseq⟩
  cases hk : txin.kind with
  | coinbase =>
      rw [hk] at hkind
      simp only [Bool.and_eq_true, decide_eq_true_eq, beq_iff_eq] at hkind
      obtain ⟨⟨⟨⟨hphz, hssb⟩, hxp⟩, hsg⟩, hv⟩ := hkind
      obtain ⟨s, hss2, hsl64⟩ : ∃ s, txin.scriptSig = some s ∧ s.length < 2 ^ 64 := by
        rcases hs2 : txin.scriptSig with _ | s
        · rw [hs2] at hssb; cases hssb
        · rw [hs2] at hssb
          simp only [decide_eq_true_eq] at hssb
          exact ⟨s, rfl, hssb⟩
      refine ⟨s, _,
        { prevout_hash := txin.prevout_hash, prevout_n := txin.prevout_n,
          sequence := some q, kind := .coinbase, scriptSig := some s,
          x_pubkeys := [], signatures := [], num_sig := none, address := none,
          value := none, scriptCode := none },
        input_script_cb c txin s hk hss2,
        serialize_input_base txin s hpn q hq hq32 (Or.inl hv), ?_, ?_⟩
      · rw [append5_assoc]
        exact parse_input_cb c txin.prevout_hash txin.prevout_n s q rest
          hph32 hphz hpn hq32 hsl64
      · exact ⟨rfl, rfl, hq.symm, hk.symm, hxp.symm, hsg.symm⟩
  | p2pk =>
      rw [hk] at hkind
      simp only [Bool.and_eq_true, decide_eq_true_eq, beq_iff_eq] at hkind
      obtain ⟨⟨⟨hphnz, hxp⟩, hnum⟩, hsgm⟩ := hkind
      rcases hs2 : txin.signatures with _ | ⟨s0, tl⟩
      · rw [hs2] at hsgm; cases hsgm
      · cases tl with
        | cons a b => rw [hs2] at hsgm; cases hsgm
        | nil =>
            rw [hs2] at hsgm
            have hcanon : canonicalSig s0 = true := hsgm
            obtain ⟨l, hs0, hsne, hs255, hs76⟩ := canonicalSig_elim s0 hcanon
            have hpres : sigPresent (some l) = true := by
              cases l with
              | nil => exact absurd rfl hsne
              | cons b bs => rfl
            have hall : txin.signatures.all canonicalSig = true := by
              rw [hs2]
              simp [List.all_cons, hcanon]
            have hgs := get_siglist_canonical c txin 1 hnum hall
              (by rw [hs2]; rfl) (by rw [hxp]; rfl)
            rw [hxp, hs2, hs0] at hgs
            simp only [List.map_cons, List.map_nil, Option.getD_some] at hgs
            have hscr := input_script_p2pk c txin [] [l] hk hgs
            rw [show ([l] : List (List Nat)).flatMap push_script = push_item l
              from by simp [push_script]] at hscr
            have hcomp : Transaction.is_txin_complete txin = true := by
              unfold Transaction.is_txin_complete
              rw [hs2, hs0, hnum]
              simp [List.countP_cons, hpres]
            refine ⟨push_item l, _,
              { prevout_hash := txin.prevout_hash, prevout_n := txin.prevout_n,
                sequence := some q, kind := .p2pk, scriptSig := some (push_item l),
                x_pubkeys := [], signatures := [some l], num_sig := some 1,
                address := none, value := none, scriptCode := none },
              hscr,
              serialize_input_base txin (push_item l) hpn q hq hq32 (Or.inr hcomp),
              ?_, ?_⟩
            · rw [append5_assoc]
              exact parse_input_classified c txin.prevout_hash txin.prevout_n
                (push_item l) q rest ⟨.p2pk, [some l], 1, [], none⟩
                hph32 hphnz hpn hq32
                (by have := push_item_length_le l; omega)
                (parse_scriptSig_p2pk c l hsne hs76)
                (by simp [List.countP_cons, hpres])
            · exact ⟨rfl, rfl, hq.symm, hk.symm, hxp.symm, by rw [hs2, hs0]⟩
  | p2pkh =>
      rw [hk] at hkind
      simp only [Bool.and_eq_true, decide_eq_true_eq, beq_iff_eq] at hkind
      obtain ⟨⟨⟨hphnz, hnum⟩, hxm⟩, hsgm⟩ := hkind
      rcases hx2 : txin.x_pubkeys with _ | ⟨x0, xtl⟩
      · rw [hx2] at hxm; cases hxm
      · cases xtl with
        | cons a b => rw [hx2] at hxm; cases hxm
        | nil =>
            rw [hx2] at hxm
            have hcx : canonicalKey c x0 = true := hxm
            rcases hs2 : txin.signatures with _ | ⟨s0, tl⟩
            · rw [hs2] at hsgm; cases hsgm
            · cases tl with
              | cons a b => rw [hs2] at hsgm; cases hsgm
              | nil =>
                  rw [hs2] at hsgm
                  have hcanon : canonicalSig s0 = true := hsgm
                  obtain ⟨l, hs0, hsne, hs255, hs76⟩ := canonicalSig_elim s0 hcanon
                  obtain ⟨k2, r2, hraw, -, -, hkl⟩ := canonicalKey_elim c x0 hcx
                  have hxl : x0.raw.length < 76 := by rw [hraw]; exact hkl
                  have hpres : sigPresent (some l) = true := by
                    cases l with
                    | nil => exact absurd rfl hsne
                    | cons b bs => rfl
                  have hall : txin.signatures.all canonicalSig = true := by
                    rw [hs2]
                    simp [List.all_cons, hcanon]
                  have hgs := get_siglist_canonical c txin 1 hnum hall
                    (by rw [hs2]; rfl) (by rw [hx2]; simp [List.all_cons, hcx])
                  rw [hx2, hs2, hs0] at hgs
                  simp only [List.map_cons, List.map_nil, Option.getD_some] at hgs
                  have hscr := input_script_p2pkh c txin x0 [] [l] hk hgs
                  rw [show ([l] : List (List Nat)).flatMap push_script = push_item l
                    from by simp [push_script]] at hscr
                  rw [show (push_script x0.raw) = push_item x0.raw from rfl] at hscr
                  have hcomp : Transaction.is_txin_complete txin = true := by
                    unfold Transaction.is_txin_complete
                    rw [hs2, hs0, hnum]
                    simp [List.countP_cons, hpres]
                  refine ⟨push_item l ++ push_item x0.raw, _,
                    { prevout_hash := txin.prevout_hash,
                      prevout_n := txin.prevout_n,
                      sequence := some q, kind := .p2pkh,
                      scriptSig := some (push_item l ++ push_item x0.raw),
                      x_pubkeys := [x0], signatures := [some l],
                      num_sig := some 1,
                      address := some ⟨false, c.hash160 x0.raw⟩, value := none,
                      scriptCode := none },
                    hscr,
                    serialize_input_base txin (push_item l ++ push_item x0.raw)
                      hpn q hq hq32 (Or.inr hcomp),
                    ?_, ?_⟩
                  · rw [append5_assoc]
                    exact parse_input_classified c txin.prevout_hash txin.prevout_n
                      (push_item l ++ push_item x0.raw) q rest
                      ⟨.p2pkh, [some l], 1, [x0], some ⟨false, c.hash160 x0.raw⟩⟩
                      hph32 hphnz hpn hq32
                      (by
                        have h1 := push_item_length_le l
                        have h2 := push_item_length_le x0.raw
                        rw [List.length_append]
                        omega)
                      (parse_scriptSig_p2pkh c l x0 hsne hs76 hs255 hcx)
                      (by simp [List.countP_cons, hpres])
                  · exact ⟨rfl, rfl, hq.symm, hk.symm, hx2.symm, by rw [hs2, hs0]⟩
  | p2sh =>
      rw [hk] at hkind
      simp only [Bool.and_eq_true, decide_eq_true_eq, beq_iff_eq] at hkind
      obtain ⟨⟨⟨hphnz, hnm⟩, hkeys⟩, hall⟩ := hkind
      rcases hnum2 : txin.num_sig with _ | m
      · rw [hnum2] at hnm; cases hnm
      · rw [hnum2] at hnm
        simp only [Bool.and_eq_true, decide_eq_true_eq] at hnm
        obtain ⟨⟨⟨hm1, hmn⟩, hn16⟩, hslm⟩ := hnm
        have hn1 : 1 ≤ txin.x_pubkeys.length := by omega
        have hmN16 : m.toNat ≤ 16 := by omega
        have hmN1 : 1 ≤ m.toNat := by omega
        have hsigs_props : ∀ s ∈ txin.signatures.map (fun s => s.getD []),
            s ≠ [] ∧ s.length < 76 := by
          intro s hs
          obtain ⟨o, hom, hoe⟩ := List.mem_map.mp hs
          obtain ⟨l, hol, hlne, -, hl76⟩ :=
            canonicalSig_elim o (List.all_eq_true.mp hall o hom)
          rw [← hoe, hol]
          simp only [Option.getD_some]
          exact ⟨hlne, hl76⟩
        have hgs := get_siglist_canonical c txin m hnum2 hall hslm hkeys
        have hscr := input_script_p2sh c txin txin.x_pubkeys
          (txin.signatures.map (fun s => s.getD [])) m hk hnum2 hgs hm1 hmn
        have hcomp : Transaction.is_txin_complete txin = true := by
          unfold Transaction.is_txin_complete
          rw [hnum2, countP_canonical _ hall]
          simp only [Option.getD_some, beq_iff_eq]
          exact hslm
        have hps := parse_sig_canonical txin.signatures hall
        have hlay := multisig_layout_length_le c txin.x_pubkeys m.toNat hkeys
          hmN1 hmN16 hn1 hn16
        have hslen : (OP_0 :: ((txin.signatures.map (fun s => s.getD [])).flatMap
            push_script ++ push_script (multisig_layout
              (txin.x_pubkeys.map XPublicKey.raw) m.toNat))).length < 2 ^ 64 := by
          rw [flatMap_push_script_eq]
          have hfl := flatMap_push_item_length
            (txin.signatures.map (fun s => s.getD []))
            (fun d hd => (hsigs_props d hd).2)
          have hpl := push_item_length_le
            (multisig_layout (txin.x_pubkeys.map XPublicKey.raw) m.toNat)
          have hsl16 : (txin.signatures.map (fun s => s.getD [])).length ≤ 16 := by
            simp only [List.length_map]
            omega
          simp only [List.length_cons, List.length_append]
          rw [show push_script (multisig_layout
              (txin.x_pubkeys.map XPublicKey.raw) m.toNat) =
            push_item (multisig_layout
              (txin.x_pubkeys.map XPublicKey.raw) m.toNat) from rfl]
          have h16 : 77 * (txin.signatures.map (fun s => s.getD [])).length ≤
              77 * 16 := by omega
          omega
        have hcls := parse_scriptSig_p2sh c
          (txin.signatures.map (fun s => s.getD []))
          txin.x_pubkeys m hkeys hm1 hmn hn16 hsigs_props
        have hcomp2 : ((parse_sig (txin.signatures.map
            (fun s => s.getD []))).countP (fun s => sigPresent s) : Int) = m := by
          rw [hps, countP_canonical _ hall]
          exact hslm
        refine ⟨OP_0 :: ((txin.signatures.map (fun s => s.getD [])).flatMap
            push_script ++ push_script (multisig_layout
              (txin.x_pubkeys.map XPublicKey.raw) m.toNat)), _,
          { prevout_hash := txin.prevout_hash, prevout_n := txin.prevout_n,
            sequence := some q, kind := .p2sh,
            scriptSig := some (OP_0 :: ((txin.signatures.map
              (fun s => s.getD [])).flatMap push_script ++
              push_script (multisig_layout
                (txin.x_pubkeys.map XPublicKey.raw) m.toNat))),
            x_pubkeys := txin.x_pubkeys,
            signatures := parse_sig (txin.signatures.map (fun s => s.getD [])),
            num_sig := some m,
            address := some ⟨true, c.hash160 (multisig_layout
              (txin.x_pubkeys.map XPublicKey.raw) m.toNat)⟩,
            value := none, scriptCode := none },
          hscr,
          serialize_input_base txin _ hpn q hq hq32 (Or.inr hcomp),
          ?_, ?_⟩
        · rw [append5_assoc]
          exact parse_input_classified c txin.prevout_hash txin.prevout_n
            (OP_0 :: ((txin.signatures.map (fun s => s.getD [])).flatMap
              push_script ++ push_script (multisig_layout
              (txin.x_pubkeys.map XPublicKey.raw) m.toNat))) q rest
            ⟨.p2sh, parse_sig (txin.signatures.map (fun s => s.getD [])), m,
              txin.x_pubkeys, some ⟨true, c.hash160 (multisig_layout
              (txin.x_pubkeys.map XPublicKey.raw) m.toNat)⟩⟩
            hph32 hphnz hpn hq32 hslen hcls hcomp2
        · exact ⟨rfl, rfl, hq.symm, hk.symm, rfl, by rw [hps]⟩
  | unknown =>
      rw [hk] at hkind
      cases hkind

theorem parse_inputs_roundtrip (c : Crypto) (l : List TxInput) (rest : List Nat)
    (h : ∀ txin ∈ l, canonicalInput c txin = true) :
    ∃ bss : List (List Nat),
      mapE (fun txin => do
        Transaction.serialize_input txin (← Transaction.input_script c txin)) l =
        .ok bss ∧
      ∃ l', parse_inputs c l.length (bss.flatten ++ rest) = .ok (l', rest) ∧
        List.Forall₂ inputClaimEq l' l := by
  induction l generalizing rest with
  | nil => exact ⟨[], rfl, [], rfl, List.Forall₂.nil⟩
  | cons x xs ih =>
      obtain ⟨bss2, hmap2, l2, hpar2, hf2⟩ :=
        ih rest (fun y hy => h y (List.mem_cons_of_mem x hy))
      obtain ⟨script, ib, x2, hscr, hser, hpar, heq⟩ :=
        parse_serialize_input c x (bss2.flatten ++ rest)
          (h x (List.mem_cons_self x xs))
      have hfx : (Transaction.input_script c x >>= fun s =>
          Transaction.serialize_input x s) = .ok ib := by
        rw [hscr, ebind_ok]
        exact hser
      refine ⟨ib :: bss2, ?_, x2 :: l2, ?_, List.Forall₂.cons heq hf2⟩
      · simp only [mapE]
        rw [hfx]
        simp only [ebind_ok]
        rw [hmap2]
        simp only [ebind_ok]
        rfl
      · simp only [List.length_cons, parse_inputs, List.flatten_cons,
          List.append_assoc]
        rw [hpar]
        simp only [ebind_ok]
        rw [hpar2]
        simp only [ebind_ok]
        rfl

theorem read_outputs_roundtrip (l : List TxOutput) (rest : List Nat)
    (h : ∀ o ∈ l, o.value < 2 ^ 64 ∧ o.script_pubkey.length < 2 ^ 64) :
    ∃ bss : List (List Nat),
      mapE TxOutput.to_bytes l = .ok bss ∧
      read_outputs l.length (bss.flatten ++ rest) = .ok (l, rest) := by
  have h264 : (256 : Nat) ^ 8 = 2 ^ 64 := by norm_num
  induction l generalizing rest with
  | nil => exact ⟨[], rfl, rfl⟩
  | cons o os ih =>
      obtain ⟨hv, hs⟩ := h o (List.mem_cons_self o os)
      obtain ⟨bss2, hmap2, hrd2⟩ :=
        ih rest (fun y hy => h y (List.mem_cons_of_mem o hy))
      have hob : TxOutput.to_bytes o = .ok (leBytes 8 o.value ++
          (var_int o.script_pubkey.length ++ o.script_pubkey)) := by
        unfold TxOutput.to_bytes
        rw [int_to_hex_nat o.value 8 (by omega)]
        simp only [ebind_ok]
        rw [epure_eq_ok, List.append_assoc]
      have hread : TxOutput.read ((leBytes 8 o.value ++
          (var_int o.script_pubkey.length ++ o.script_pubkey)) ++
          (bss2.flatten ++ rest)) = .ok (o, bss2.flatten ++ rest) := by
        rw [List.append_assoc, List.append_assoc]
        unfold TxOutput.read
        rw [readNum_append 8 o.value _ (by omega)]
        simp only [ebind_ok]
        rw [read_compact_size_var_int o.script_pubkey.length _ hs]
        simp only [ebind_ok]
        rw [if_pos (show o.script_pubkey.length ≤
            (o.script_pubkey ++ (bss2.flatten ++ rest)).length from by
          rw [List.length_append]
          omega)]
        rw [List.take_left, List.drop_left]
        rfl
      refine ⟨(leBytes 8 o.value ++
          (var_int o.script_pubkey.length ++ o.script_pubkey)) :: bss2, ?_, ?_⟩
      · simp only [mapE]
        rw [hob]
        simp only [ebind_ok]
        rw [hmap2]
        simp only [ebind_ok]
        rfl
      · simp only [List.length_cons, read_outputs, List.flatten_cons,
          List.append_assoc]
        rw [show (leBytes 8 o.value ++
            (var_int o.script_pubkey.length ++ (o.script_pubkey ++
              (bss2.flatten ++ rest)))) =
            (leBytes 8 o.value ++ (var_int o.script_pubkey.length ++
              o.script_pubkey)) ++ (bss2.flatten ++ rest) from by
          simp [List.append_assoc]]
        rw [hread]
        simp only [ebind_ok]
        rw [hrd2]
        simp only [ebind_ok]
        rfl

theorem canonical_complete (c : Crypto) (t : Transaction)
    (h : ∀ txin ∈ t.inputs, canonicalInput c txin = true) :
    Transaction.is_complete t = true := by
  unfold Transaction.is_complete
  rw [signature_count_foldl]
  simp only [beq_iff_eq]
  have hmapeq : (t.inputs.filter (fun i => i.kind ≠ TxinKind.coinbase)).map
      (fun i => i.num_sig.getD (-1)) =
    (t.inputs.filter (fun i => i.kind ≠ TxinKind.coinbase)).map
      (fun i => (i.signatures.countP (fun s => sigPresent s) : Int)) := by
    apply List.map_congr_left
    intro txin hmem
    have hc := h txin (List.mem_of_mem_filter hmem)
    have hncb : txin.kind ≠ TxinKind.coinbase := by
      simpa using List.of_mem_filter hmem
    unfold canonicalInput at hc
    simp only [Bool.and_eq_true, decide_eq_true_eq] at hc
    obtain ⟨-, hkind⟩ := hc
    cases hk : txin.kind with
    | coinbase => exact absurd hk hncb
    | unknown => rw [hk] at hkind; cases hkind
    | p2pk =>
        rw [hk] at hkind
        simp only [Bool.and_eq_true, decide_eq_true_eq, beq_iff_eq] at hkind
        obtain ⟨⟨⟨-, -⟩, hnum⟩, hsgm⟩ := hkind
        rcases hs2 : txin.signatures with _ | ⟨s0, tl⟩
        · rw [hs2] at hsgm; cases hsgm
        · cases tl with
          | cons a b => rw [hs2] at hsgm; cases hsgm
          | nil =>
              rw [hs2] at hsgm
              have hcanon : canonicalSig s0 = true := hsgm
              obtain ⟨l, hs0, hsne, -, -⟩ := canonicalSig_elim s0 hcanon
              have hpres : sigPresent (some l) = true := by
                cases l with
                | nil => exact absurd rfl hsne
                | cons b bs => rfl
              rw [hnum, hs0]
              simp [List.countP_cons, hpres]
    | p2pkh =>
        rw [hk] at hkind
        simp only [Bool.and_eq_true, decide_eq_true_eq, beq_iff_eq] at hkind
        obtain ⟨⟨⟨-, hnum⟩, -⟩, hsgm⟩ := hkind
        rcases hs2 : txin.signatures with _ | ⟨s0, tl⟩
        · rw [hs2] at hsgm; cases hsgm
        · cases tl with
          | cons a b => rw [hs2] at hsgm; cases hsgm
          | nil =>
              rw [hs2] at hsgm
              have hcanon : canonicalSig s0 = true := hsgm
              obtain ⟨l, hs0, hsne, -, -⟩ := canonicalSig_elim s0 hcanon
              have hpres : sigPresent (some l) = true := by
                cases l with
                | nil => exact absurd rfl hsne
                | cons b bs => rfl
              rw [hnum, hs0]
              simp [List.countP_cons, hpres]
    | p2sh =>
        rw [hk] at hkind
        simp only [Bool.and_eq_true, decide_eq_true_eq] at hkind
        obtain ⟨⟨⟨-, hnm⟩, -⟩, hall⟩ := hkind
        rcases hnum2 : txin.num_sig with _ | m
        · rw [hnum2] at hnm; cases hnm
        · rw [hnum2] at hnm
          simp only [Bool.and_eq_true, decide_eq_true_eq] at hnm
          obtain ⟨⟨⟨-, -⟩, -⟩, hslm⟩ := hnm
          rw [countP_canonical _ hall]
          simp only [Option.getD_some]
          exact hslm.symm
  rw [hmapeq]

set_option maxHeartbeats 1000000 in
/-- C2 (amended): the claimed roundtrip holds only up to dropped empty
signature slots; for transactions in canonical serialized form — nonempty
standard fully-signed inputs (coinbase, p2pk, p2pkh or p2sh multisig with
every slot filled, plain validated raw member keys, thresholds met exactly,
at most 16 keys) and wire-range version, locktime, outpoints, sequences and
outputs — the transaction is complete and deserializing the serialization
succeeds and reproduces the version, the locktime, the outputs, and every
input up to the compared fields: outpoint, sequence, script kind, key list
and signature list. -/
theorem C2_roundtrip (c : Crypto) (t : Transaction)
    (hcan : canonicalTx c t = true) :
    Transaction.is_complete t = true ∧
    ∃ raw t', Transaction.serialize c t = .ok raw ∧
      deserialize c raw = .ok t' ∧
      t'.version = t.version ∧ t'.locktime = t.locktime ∧
      t'.outputs = t.outputs ∧
      List.Forall₂ inputClaimEq t'.inputs t.inputs := by
  have h232 : (256 : Nat) ^ 4 = 2 ^ 32 := by norm_num
  unfold canonicalTx at hcan
  simp only [Bool.and_eq_true, decide_eq_true_eq, bne_iff_ne, ne_eq] at hcan
  obtain ⟨⟨⟨⟨⟨⟨⟨hv0, hv31⟩, hlk⟩, hne⟩, hni⟩, hno⟩, hinsall⟩, houtsall⟩ := hcan
  have hins := List.all_eq_true.mp hinsall
  have houts : ∀ o ∈ t.outputs,
      o.value < 2 ^ 64 ∧ o.script_pubkey.length < 2 ^ 64 := by
    intro o ho
    have h2 := List.all_eq_true.mp houtsall o ho
    simp only [Bool.and_eq_true, decide_eq_true_eq] at h2
    exact h2
  obtain ⟨obss, homap, hord⟩ := read_outputs_roundtrip t.outputs
    (leBytes 4 t.locktime) houts
  obtain ⟨ibss, himap, l', hipar, hf2⟩ := parse_inputs_roundtrip c t.inputs
    (var_int t.outputs.length ++ (obss.flatten ++ leBytes 4 t.locktime)) hins
  have hvN31 : t.version.toNat < 2 ^ 31 := by omega
  have hser : Transaction.serialize c t = .ok
      (leBytes 4 t.version.toNat ++ (var_int t.inputs.length ++
        (ibss.flatten ++ (var_int t.outputs.length ++
        (obss.flatten ++ leBytes 4 t.locktime))))) := by
    unfold Transaction.serialize
    rw [show int_to_hex t.version 4 = .ok (leBytes 4 t.version.toNat) from by
      unfold int_to_hex
      rw [if_pos ⟨hv0, by
        have hc2 : ((256 : Int) ^ 4) = 2 ^ 32 := by norm_num
        rw [hc2]
        have : (2 : Int) ^ 31 < 2 ^ 32 := by norm_num
        omega⟩]]
    rw [ebind_ok]
    rw [int_to_hex_nat t.locktime 4 (by omega)]
    rw [ebind_ok]
    rw [himap, ebind_ok, homap, ebind_ok]
    simp only [List.append_assoc]
    rfl
  have hdes : deserialize c (leBytes 4 t.version.toNat ++
      (var_int t.inputs.length ++ (ibss.flatten ++ (var_int t.outputs.length ++
      (obss.flatten ++ leBytes 4 t.locktime))))) = .ok
      { version := t.version, locktime := t.locktime, inputs := l',
        outputs := t.outputs } := by
    unfold deserialize read_int32
    rw [readNum_append 4 t.version.toNat _ (by omega), ebind_ok]
    dsimp only
    rw [epure_eq_ok, ebind_ok]
    dsimp only
    rw [show toSigned32 t.version.toNat = t.version from by
      unfold toSigned32
      rw [if_pos hvN31]
      exact Int.toNat_of_nonneg hv0]
    rw [read_compact_size_var_int t.inputs.length _ hni, ebind_ok]
    dsimp only
    rw [if_neg (show ¬ t.inputs.length = 0 from by
      intro h0
      exact hne (List.length_eq_zero.mp h0))]
    rw [epure_eq_ok, ebind_ok]
    rw [hipar, ebind_ok]
    dsimp only
    rw [read_compact_size_var_int t.outputs.length _ hno, ebind_ok]
    dsimp only
    rw [hord, ebind_ok]
    dsimp only
    rw [show readNum 4 (leBytes 4 t.locktime) = .ok (t.locktime, []) from by
      have hx := readNum_append 4 t.locktime [] (by omega)
      rwa [List.append_nil] at hx]
    rw [ebind_ok]
    rfl
  exact ⟨canonical_complete c t hins, _, _, hser, hdes, rfl, rfl, rfl, hf2⟩

/-- Witness for C2's amended theorem at a concrete canonical 2-of-2
multisig transaction. -/
theorem C2_roundtrip_witness :
    canonicalTx crypto0 txW2 = true ∧
    (Transaction.is_complete txW2 = true ∧
    ∃ raw t', Transaction.serialize crypto0 txW2 = .ok raw ∧
      deserialize crypto0 raw = .ok t' ∧
      t'.version = txW2.version ∧ t'.locktime = txW2.locktime ∧
      t'.outputs = txW2.outputs ∧
      List.Forall₂ inputClaimEq t'.inputs txW2.inputs) :=
  ⟨by decide, C2_roundtrip crypto0 txW2 (by decide)⟩

/-- A legacy-keystore extended key reference (kind 0xfe, 69 bytes). -/
def xfe : XPublicKey := ⟨254 :: List.replicate 68 7⟩
/-- A private key for the C4 run. -/
def secC4 : List Nat := List.replicate 32 9
/-- Keypairs matching the legacy reference. -/
def kpC4 : KeyPairs := [(xfe, (secC4, true))]
/-- A p2pkh input whose single declared key is the legacy reference. -/
def inC4 : TxInput :=
  { prevout_hash := 3 :: List.replicate 31 0
    prevout_n := 0
    sequence := some 4294967294
    kind := .p2pkh
    scriptSig := none
    x_pubkeys := [xfe]
    signatures := [none]
    num_sig := some 1
    address := some ⟨false, List.replicate 20 1⟩
    value := some 1000
    scriptCode := none }
/-- The C4 counterexample transaction. -/
def txC4 : Transaction := ⟨1, 0, [inC4], []⟩
/-- The result of the C4 signing pass: signature stored, key list unchanged. -/
def txC4s : Transaction :=
  ⟨1, 0, [{ inC4 with signatures := [some [48, 1, 2, 65]] }], []⟩

set_option maxRecDepth 8192 in
/-- C4: the claim fails for legacy-keystore references: `sign` replaces the
key-list entry only when the matched key has kind 0xfd; a kind-0xfe key gets
its signature inserted but the reference entry stays in the key list,
unresolved (it is no raw public key: its leading byte is 0xfe). -/
theorem C4_counterexample :
    xfe.kind = 254 ∧
    txC4.inputs.map (fun txin =>
      txin.signatures.countP (fun s => sigPresent s)) = [0] ∧
    (Transaction.sign crypto0 kpC4 txC4).map
        (fun t => t.inputs.map (fun txin =>
          (txin.x_pubkeys, txin.signatures.countP (fun s => sigPresent s)))) =
      .ok [([xfe], 1)] ∧
    ¬ (xfe.kind = 2 ∨ xfe.kind = 3 ∨ xfe.kind = 4) :=
  ⟨rfl, rfl, rfl, by decide⟩

/-- C4 (amended): one pass of the slot loop of `sign` either leaves the
transaction unchanged (slot already satisfied, no matching keypair) or — in
the single pass that inserts the signature at slot `j` — replaces the key
entry at `j` exactly when the matched key is a script-hash placeholder (kind
0xfd), with the validated re-derived raw public key; every other matched key,
legacy-keystore references (kind 0xfe) included, is left in place. -/
theorem C4_sign_replaces_only_0xfd (c : Crypto) (kp : KeyPairs) (i j : Nat)
    (num : Int) (t t' : Transaction) (h : sign_slot c kp i j num t = .ok t') :
    t' = t ∨
    ∃ txin x_pubkey sec compressed sig txin2,
      t.inputs.get? i = some txin ∧
      txin.x_pubkeys.get? j = some x_pubkey ∧
      lookupKeypair kp x_pubkey = some (sec, compressed) ∧
      Transaction.sign_txin c t i sec = .ok sig ∧
      t' = { t with inputs := t.inputs.set i txin2 } ∧
      txin2.signatures = txin.signatures.set j (some sig) ∧
      ((x_pubkey.kind ≠ 253 ∧ txin2.x_pubkeys = txin.x_pubkeys) ∨
       (x_pubkey.kind = 253 ∧ ∃ nk, XPublicKey.validate c
          (c.pubkeyFromSec sec compressed) = .ok nk ∧
          txin2.x_pubkeys = txin.x_pubkeys.set j nk)) := by
  unfold sign_slot at h
  rcases hti : t.inputs.get? i with _ | txin <;> rw [hti] at h
  · exact Except.noConfusion h
  · dsimp only at h
    rw [epure_bind] at h
    split at h
    · cases h
      exact Or.inl rfl
    · rcases hxj : txin.x_pubkeys.get? j with _ | x <;> rw [hxj] at h
      · exact Except.noConfusion h
      · dsimp only at h
        rcases hlk : lookupKeypair kp x with _ | p <;> rw [hlk] at h
        · cases h
          exact Or.inl rfl
        · obtain ⟨sec, compressed⟩ := p
          dsimp only at h
          rcases hsig : Transaction.sign_txin c t i sec with e | sig <;>
            rw [hsig] at h
          · rw [ebind_error] at h
            cases h
          · rw [ebind_ok] at h
            by_cases hkind : x.kind = 253
            · rw [if_pos hkind] at h
              rcases hval : XPublicKey.validate c
                  (c.pubkeyFromSec sec compressed) with e | nk <;>
                rw [hval] at h
              · rw [ebind_error] at h
                cases h
              · simp only [ebind_ok, epure_bind, epure_eq_ok] at h
                cases h
                refine Or.inr ⟨txin, x, sec, compressed, sig, _, rfl, hxj, hlk,
                  hsig, rfl, rfl, Or.inr ⟨hkind, nk, hval, rfl⟩⟩
            · rw [if_neg hkind] at h
              simp only [epure_bind, epure_eq_ok] at h
              cases h
              refine Or.inr ⟨txin, x, sec, compressed, sig, _, rfl, hxj, hlk,
                hsig, rfl, rfl, Or.inl ⟨hkind, rfl⟩⟩

set_option maxRecDepth 8192 in
/-- Witness for C4's amended theorem: the concrete kind-0xfe run inserts the
signature and takes the key-preserving branch. -/
theorem C4_sign_replaces_only_0xfd_witness :
    sign_slot crypto0 kpC4 0 0 1 txC4 = .ok txC4s ∧
    (txC4s = txC4 ∨
    ∃ txin x_pubkey sec compressed sig txin2,
      txC4.inputs.get? 0 = some txin ∧
      txin.x_pubkeys.get? 0 = some x_pubkey ∧
      lookupKeypair kpC4 x_pubkey = some (sec, compressed) ∧
      Transaction.sign_txin crypto0 txC4 0 sec = .ok sig ∧
      txC4s = { txC4 with inputs := txC4.inputs.set 0 txin2 } ∧
      txin2.signatures = txin.signatures.set 0 (some sig) ∧
      ((x_pubkey.kind ≠ 253 ∧ txin2.x_pubkeys = txin.x_pubkeys) ∨
       (x_pubkey.kind = 253 ∧ ∃ nk, XPublicKey.validate crypto0
          (crypto0.pubkeyFromSec sec compressed) = .ok nk ∧
          txin2.x_pubkeys = txin.x_pubkeys.set 0 nk))) :=
  ⟨rfl, C4_sign_replaces_only_0xfd crypto0 kpC4 0 0 1 txC4 txC4s rfl⟩

theorem foldE_error_exists {σ α : Type} (f : σ → α → Except PErr σ)
    (s : σ) (l : List α) (e : PErr) (h : foldE f s l = .error e) :
    ∃ s2 x, x ∈ l ∧ f s2 x = .error e := by
  induction l generalizing s with
  | nil => cases h
  | cons x xs ih =>
      simp only [foldE] at h
      rcases hx : f s x with ex | s1 <;> rw [hx] at h
      · rw [ebind_error] at h
        cases h
        exact ⟨s, x, List.mem_cons_self x xs, hx⟩
      · rw [ebind_ok] at h
        obtain ⟨s2, y, hy, hfy⟩ := ih s1 h
        exact ⟨s2, y, List.mem_cons_of_mem x hy, hfy⟩

theorem serialize_outpoint_err (txin : TxInput) (e : PErr)
    (h : Transaction.serialize_outpoint txin = .error e) : e = PErr.intRange := by
  unfold Transaction.serialize_outpoint at h
  rcases hx : int_to_hex (txin.prevout_n : Int) 4 with ex | v <;> rw [hx] at h
  · rw [ebind_error] at h
    cases h
    exact int_to_hex_err _ _ _ hx
  · rw [ebind_ok] at h
    exact Except.noConfusion h

theorem txoutput_to_bytes_err (o : TxOutput) (e : PErr)
    (h : TxOutput.to_bytes o = .error e) : e = PErr.intRange := by
  unfold TxOutput.to_bytes at h
  rcases hx : int_to_hex (o.value : Int) 8 with ex | v <;> rw [hx] at h
  · rw [ebind_error] at h
    cases h
    exact int_to_hex_err _ _ _ hx
  · rw [ebind_ok] at h
    exact Except.noConfusion h

theorem serialize_preimage_ne_lm (c : Crypto) (t : Transaction) (i : Nat)
    (e : PErr) (h : Transaction.serialize_preimage c t i = .error e) :
    e ≠ PErr.lengthMismatch := by
  unfold Transaction.serialize_preimage at h
  rcases h1 : int_to_hex t.version 4 with e1 | v1 <;> rw [h1] at h
  · rw [ebind_error] at h
    cases h
    rw [int_to_hex_err _ _ _ h1]
    decide
  rw [ebind_ok] at h
  rcases h2 : int_to_hex ((Transaction.nHashType : Nat) : Int) 4 with e2 | v2 <;>
    rw [h2] at h
  · rw [ebind_error] at h
    cases h
    rw [int_to_hex_err _ _ _ h2]
    decide
  rw [ebind_ok] at h
  rcases h3 : int_to_hex (t.locktime : Int) 4 with e3 | v3 <;> rw [h3] at h
  · rw [ebind_error] at h
    cases h
    rw [int_to_hex_err _ _ _ h3]
    decide
  rw [ebind_ok] at h
  rcases hti : t.inputs.get? i with _ | txin <;> rw [hti] at h
  · dsimp only at h
    rw [ethrow_bind] at h
    cases h
    decide
  dsimp only at h
  rw [epure_bind] at h
  rcases h4 : mapE Transaction.serialize_outpoint t.inputs with e4 | ops <;>
    rw [h4] at h
  · rw [ebind_error] at h
    cases h
    obtain ⟨x, -, hxe⟩ := mapE_error_exists _ _ _ h4
    rw [serialize_outpoint_err _ _ hxe]
    decide
  rw [ebind_ok] at h
  rcases h5 : mapE (fun txin =>
      int_to_hex ((txin.sequence.getD (0xffffffff - 1) : Nat) : Int) 4) t.inputs
      with e5 | seqs <;> rw [h5] at h
  · rw [ebind_error] at h
    cases h
    obtain ⟨x, -, hxe⟩ := mapE_error_exists _ _ _ h5
    rw [int_to_hex_err _ _ _ hxe]
    decide
  rw [ebind_ok] at h
  rcases h6 : mapE TxOutput.to_bytes t.outputs with e6 | outs <;> rw [h6] at h
  · rw [ebind_error] at h
    cases h
    obtain ⟨x, -, hxe⟩ := mapE_error_exists _ _ _ h6
    rw [txoutput_to_bytes_err _ _ hxe]
    decide
  rw [ebind_ok] at h
  rcases h7 : Transaction.serialize_outpoint txin with e7 | op <;> rw [h7] at h
  · rw [ebind_error] at h
    cases h
    rw [serialize_outpoint_err _ _ h7]
    decide
  rw [ebind_ok] at h
  rcases h8 : Transaction.get_preimage_script c txin with e8 | ps <;> rw [h8] at h
  · rw [ebind_error] at h
    cases h
    exact (get_preimage_script_err c txin _ h8).2
  rw [ebind_ok] at h
  rcases h9 : txin.value with _ | v <;> rw [h9] at h
  · dsimp only at h
    rw [ethrow_bind] at h
    cases h
    decide
  dsimp only at h
  rcases h10 : int_to_hex (v : Int) 8 with e10 | vb <;> rw [h10] at h
  · rw [ebind_error] at h
    cases h
    rw [int_to_hex_err _ _ _ h10]
    decide
  rw [ebind_ok] at h
  rcases h11 : int_to_hex ((txin.sequence.getD (0xffffffff - 1) : Nat) : Int) 4
      with e11 | sq <;> rw [h11] at h
  · rw [ebind_error] at h
    cases h
    rw [int_to_hex_err _ _ _ h11]
    decide
  rw [ebind_ok] at h
  exact Except.noConfusion h

theorem preimage_hash_ne_lm (c : Crypto) (t : Transaction) (i : Nat) (e : PErr)
    (h : Transaction.preimage_hash c t i = .error e) : e ≠ PErr.lengthMismatch := by
  unfold Transaction.preimage_hash at h
  rcases hx : Transaction.serialize_preimage c t i with ex | v <;> rw [hx] at h
  · cases h
    exact serialize_preimage_ne_lm _ _ _ _ hx
  · exact Except.noConfusion h

theorem realise_err (c : Crypto) (x : XPublicKey) (e : PErr)
    (h : (XPublicKey.to_public_key c x >>= fun pk =>
      PubResult.to_bytes pk >>= fun b => XPublicKey.validate c b) = .error e) :
    e ≠ PErr.lengthMismatch := by
  rcases h1 : XPublicKey.to_public_key c x with e1 | pk <;> rw [h1] at h
  · rw [ebind_error] at h
    cases h
    rcases to_public_key_err _ _ _ h1 with h2 | h2 <;> (rw [h2]; decide)
  rw [ebind_ok] at h
  rcases h2 : PubResult.to_bytes pk with e2 | b <;> rw [h2] at h
  · rw [ebind_error] at h
    cases h
    rw [to_bytes_err _ _ h2]
    decide
  rw [ebind_ok] at h
  rcases validate_err c b e h with h3 | h3 <;> (rw [h3]; decide)

theorem get_siglist_ne_lm (c : Crypto) (txin : TxInput) (e : PErr)
    (h : Transaction.get_siglist c txin = .error e) : e ≠ PErr.lengthMismatch := by
  unfold Transaction.get_siglist at h
  dsimp only at h
  split at h
  · rcases hm : mapE (fun x => XPublicKey.to_public_key c x >>= fun pk =>
        PubResult.to_bytes pk >>= fun b => XPublicKey.validate c b)
        txin.x_pubkeys with em | r <;> rw [hm] at h
    · rw [ebind_error] at h
      cases h
      obtain ⟨x, -, hxe⟩ := mapE_error_exists _ _ _ hm
      exact realise_err c x _ hxe
    · rw [ebind_ok] at h
      exact Except.noConfusion h
  · exact Except.noConfusion h

theorem input_script_ne_lm (c : Crypto) (txin : TxInput) (e : PErr)
    (h : Transaction.input_script c txin = .error e) : e ≠ PErr.lengthMismatch := by
  unfold Transaction.input_script at h
  by_cases hk : txin.kind = TxinKind.coinbase
  · rw [if_pos hk] at h
    rcases hss : txin.scriptSig with _ | s <;> rw [hss] at h
    · cases h
      decide
    · exact Except.noConfusion h
  · rw [if_neg hk] at h
    rcases hgs : Transaction.get_siglist c txin with eg | p <;> rw [hgs] at h
    · rw [ebind_error] at h
      cases h
      exact get_siglist_ne_lm c txin _ hgs
    rw [ebind_ok] at h
    dsimp only at h
    rcases hk2 : txin.kind with _ | _ | _ | _ | _ <;> rw [hk2] at h
    · exact absurd hk2 hk
    · exact Except.noConfusion h
    · rcases hx : p.1.head? with _ | x <;> rw [hx] at h
      · cases h
        decide
      · exact Except.noConfusion h
    · rcases hns : txin.num_sig with _ | ns <;> rw [hns] at h
      · dsimp only at h
        rw [ethrow_bind] at h
        cases h
        decide
      · have h2 : (multisig_script (p.1.map XPublicKey.raw) ns >>= fun redeem =>
            (pure (OP_0 :: (p.2.flatMap push_script ++ push_script redeem)) :
              Except PErr (List Nat))) = .error e := h
        rcases hms : multisig_script (p.1.map XPublicKey.raw) ns with em | rd <;>
          rw [hms] at h2
        · rw [ebind_error] at h2
          cases h2
          rw [multisig_script_err _ _ _ hms]
          decide
        · rw [ebind_ok] at h2
          exact Except.noConfusion h2
    · rcases hss : txin.scriptSig with _ | s <;> rw [hss] at h
      · cases h
        decide
      · exact Except.noConfusion h

theorem serialize_input_ne_lm (txin : TxInput) (script : List Nat) (e : PErr)
    (h : Transaction.serialize_input txin script = .error e) :
    e ≠ PErr.lengthMismatch := by
  unfold Transaction.serialize_input at h
  rcases h1 : Transaction.serialize_outpoint txin with e1 | op <;> rw [h1] at h
  · rw [ebind_error] at h
    cases h
    rw [serialize_outpoint_err _ _ h1]
    decide
  rw [ebind_ok] at h
  rcases h2 : int_to_hex ((txin.sequence.getD (0xffffffff - 1) : Nat) : Int) 4
      with e2 | sq <;> rw [h2] at h
  · rw [ebind_error] at h
    cases h
    rw [int_to_hex_err _ _ _ h2]
    decide
  rw [ebind_ok] at h
  dsimp only at h
  rcases hv : txin.value with _ | v <;> rw [hv] at h
  · exact Except.noConfusion h
  · dsimp only at h
    split at h
    · rcases h3 : int_to_hex (v : Int) 8 with e3 | vb <;> rw [h3] at h
      · rw [ebind_error] at h
        cases h
        rw [int_to_hex_err _ _ _ h3]
        decide
      · rw [ebind_ok] at h
        exact Except.noConfusion h
    · exact Except.noConfusion h

theorem serialize_ne_lm (c : Crypto) (t : Transaction) (e : PErr)
    (h : Transaction.serialize c t = .error e) : e ≠ PErr.lengthMismatch := by
  unfold Transaction.serialize at h
  rcases h1 : int_to_hex t.version 4 with e1 | v1 <;> rw [h1] at h
  · rw [ebind_error] at h
    cases h
    rw [int_to_hex_err _ _ _ h1]
    decide
  rw [ebind_ok] at h
  rcases h2 : int_to_hex (t.locktime : Int) 4 with e2 | v2 <;> rw [h2] at h
  · rw [ebind_error] at h
    cases h
    rw [int_to_hex_err _ _ _ h2]
    decide
  rw [ebind_ok] at h
  rcases h3 : mapE (fun txin => do
      Transaction.serialize_input txin (← Transaction.input_script c txin))
      t.inputs with e3 | txins <;> rw [h3] at h
  · rw [ebind_error] at h
    cases h
    obtain ⟨x, -, hxe⟩ := mapE_error_exists _ _ _ h3
    rcases hxs : Transaction.input_script c x with ei | s <;> rw [hxs] at hxe
    · rw [ebind_error] at hxe
      cases hxe
      exact input_script_ne_lm c x _ hxs
    · rw [ebind_ok] at hxe
      exact serialize_input_ne_lm x s _ hxe
  rw [ebind_ok] at h
  rcases h4 : mapE TxOutput.to_bytes t.outputs with e4 | touts <;> rw [h4] at h
  · rw [ebind_error] at h
    cases h
    obtain ⟨x, -, hxe⟩ := mapE_error_exists _ _ _ h4
    rw [txoutput_to_bytes_err _ _ hxe]
    decide
  rw [ebind_ok] at h
  exact Except.noConfusion h

theorem update_signatures_input_ne_lm (c : Crypto) (sigs : List (List Nat))
    (i : Nat) (t : Transaction) (e : PErr)
    (h : update_signatures_input c sigs i t = .error e) :
    e ≠ PErr.lengthMismatch := by
  unfold update_signatures_input at h
  rcases hti : t.inputs.get? i with _ | txin <;> rw [hti] at h
  · dsimp only at h
    rw [ethrow_bind] at h
    cases h
    decide
  dsimp only at h
  rw [epure_bind] at h
  rcases hsr : sigs.get? i with _ | sigRaw <;> rw [hsr] at h
  · dsimp only at h
    rw [ethrow_bind] at h
    cases h
    decide
  dsimp only at h
  rw [epure_bind] at h
  split at h
  · exact Except.noConfusion h
  · rcases hmp : mapE (XPublicKey.to_public_key c) txin.x_pubkeys
        with em | pubkeys <;> rw [hmp] at h
    · rw [ebind_error] at h
      cases h
      obtain ⟨x, -, hxe⟩ := mapE_error_exists _ _ _ hmp
      rcases to_public_key_err _ _ _ hxe with h2 | h2 <;> (rw [h2]; decide)
    rw [ebind_ok] at h
    rcases hph : Transaction.preimage_hash c t i with ep | pre <;> rw [hph] at h
    · rw [ebind_error] at h
      cases h
      exact preimage_hash_ne_lm c t i _ hph
    rw [ebind_ok] at h
    rcases hdc : c.derToCompact sigRaw with _ | rsb <;> rw [hdc] at h
    · dsimp only at h
      rw [ethrow_bind] at h
      cases h
      decide
    · dsimp only at h
      rw [epure_bind] at h
      exact Except.noConfusion h

theorem set_get_eq {α : Type} (l : List α) (i : Nat) (a : α)
    (h : l.get? i = some a) : l.set i a = l := by
  induction l generalizing i with
  | nil => cases h
  | cons x xs ih =>
      cases i with
      | zero =>
          cases h
          rfl
      | succ n =>
          simp only [List.set_cons_succ]
          rw [ih n h]

theorem try_recids_no_match (c : Crypto) (pubkeys : List PubResult)
    (rsb pre_hash sig : List Nat) (txin : TxInput) (recids : List Nat)
    (h : ∀ recid ∈ recids, ∀ pk,
      c.recoverPubkey (rsb ++ [recid]) pre_hash = some pk →
      pubkeys.contains (.pub pk) = false ∨
        c.verifyRecoverable (rsb ++ [recid]) pre_hash pk = false) :
    try_recids c pubkeys rsb pre_hash sig txin recids = txin := by
  induction recids with
  | nil => rfl
  | cons r rs ih =>
      simp only [try_recids]
      rcases hr : c.recoverPubkey (rsb ++ [r]) pre_hash with _ | pk
      · exact ih (fun q hq => h q (List.mem_cons_of_mem r hq))
      · dsimp only
        rcases h r (List.mem_cons_self r rs) pk hr with hc | hv
        · rw [if_neg (by rw [hc]; exact Bool.false_ne_true)]
          exact ih (fun q hq => h q (List.mem_cons_of_mem r hq))
        · by_cases hc2 : pubkeys.contains (PubResult.pub pk) = true
          · rw [if_pos hc2, if_neg (by rw [hv]; exact Bool.false_ne_true)]
            exact ih (fun q hq => h q (List.mem_cons_of_mem r hq))
          · rw [if_neg hc2]
            exact ih (fun q hq => h q (List.mem_cons_of_mem r hq))

/-- C5 (amended): `update_signatures` is a no-op returning the transaction
unchanged when it is already complete; on an incomplete transaction it raises
the length-mismatch `RuntimeError` exactly when the supplied signature count
differs from the input count (no other component of the call raises that
error); and an input whose preliminaries succeed (keys resolve, the preimage
hash — hence the spent value — is available, the DER signature converts) and
for which no recovery id in 0..3 yields a declared verifying public key is
left unchanged without an error.  The best-effort skip is conditional on
those preliminaries: as the counterexample shows, an input lacking its spent
value makes the whole call raise InputValueMissing even though no recovery
id matches. -/
theorem C5_update_signatures (c : Crypto) (t : Transaction)
    (sigs : List (List Nat)) :
    (Transaction.is_complete t = true →
      Transaction.update_signatures c t sigs = .ok t) ∧
    (Transaction.is_complete t = false → t.inputs.length ≠ sigs.length →
      Transaction.update_signatures c t sigs = .error .lengthMismatch) ∧
    (Transaction.update_signatures c t sigs = .error .lengthMismatch →
      Transaction.is_complete t = false ∧ t.inputs.length ≠ sigs.length) ∧
    (∀ i txin sigRaw pubkeys pre_hash rsb,
      t.inputs.get? i = some txin →
      sigs.get? i = some sigRaw →
      txin.signatures.contains (some (sigRaw ++ [Transaction.nHashType])) = false →
      mapE (XPublicKey.to_public_key c) txin.x_pubkeys = .ok pubkeys →
      Transaction.preimage_hash c t i = .ok pre_hash →
      c.derToCompact sigRaw = some rsb →
      (∀ recid ∈ [0, 1, 2, 3], ∀ pk,
        c.recoverPubkey (rsb ++ [recid]) pre_hash = some pk →
        pubkeys.contains (.pub pk) = false ∨
          c.verifyRecoverable (rsb ++ [recid]) pre_hash pk = false) →
      update_signatures_input c sigs i t = .ok t) := by
  refine ⟨?_, ?_, ?_, ?_⟩
  · intro h
    unfold Transaction.update_signatures
    rw [if_pos h]
    rfl
  · intro h hlen
    unfold Transaction.update_signatures
    rw [if_neg (by rw [h]; exact Bool.false_ne_true)]
    dsimp only
    rw [if_pos hlen]
    rfl
  · intro h
    unfold Transaction.update_signatures at h
    by_cases hc : t.is_complete = true
    · rw [if_pos hc] at h
      exact Except.noConfusion h
    · have hcf : t.is_complete = false := by
        rw [Bool.not_eq_true] at hc
        exact hc
      rw [if_neg hc] at h
      by_cases hlen : t.inputs.length ≠ sigs.length
      · exact ⟨hcf, hlen⟩
      · rw [if_neg hlen] at h
        dsimp only at h
        rcases hf : foldE (fun t i => update_signatures_input c sigs i t) t
            (List.range t.inputs.length) with ef | t1 <;> rw [hf] at h
        · rw [ebind_error] at h
          cases h
          obtain ⟨s2, x, -, hxe⟩ := foldE_error_exists _ _ _ _ hf
          exact absurd rfl (update_signatures_input_ne_lm _ _ _ _ _ hxe)
        · rw [ebind_ok] at h
          rcases hs : Transaction.serialize c t1 with es | r <;> rw [hs] at h
          · rw [ebind_error] at h
            cases h
            exact absurd rfl (serialize_ne_lm _ _ _ hs)
          · rw [ebind_ok] at h
            exact Except.noConfusion h
  · intro i txin sigRaw pubkeys pre_hash rsb hti hsr hcont hmp hph hdc hno
    unfold update_signatures_input
    rw [hti]
    dsimp only
    rw [epure_bind, hsr]
    dsimp only
    rw [epure_bind]
    rw [if_neg (by rw [hcont]; exact Bool.false_ne_true)]
    rw [hmp, ebind_ok, hph, ebind_ok, hdc]
    dsimp only
    show (pure ((⟨t.version, t.locktime,
        t.inputs.set i (try_recids c pubkeys rsb pre_hash
          (sigRaw ++ [Transaction.nHashType]) txin [0, 1, 2, 3]),
        t.outputs⟩ : Transaction)) : Except PErr Transaction) =
      Except.ok t
    rw [try_recids_no_match c pubkeys rsb pre_hash _ txin [0, 1, 2, 3] hno]
    rw [set_get_eq t.inputs i txin hti]
    rfl

/-- The C5 counterexample transaction: a single unfilled multisig input with
no spent value recorded. -/
def txC5 : Transaction := ⟨1, 0, [{ inUnder with value := none }], []⟩
/-- One supplied signature, matching the input count. -/
def sigsC5 : List (List Nat) := [sigBytes]

/-- C5: the claim fails: with signature and input counts equal and a crypto
backend whose recovery never yields a key (so no recovery id matches for any
input), `update_signatures` still raises InputValueMissing — the unmatched
input is not silently skipped, because the preimage hash is computed before
the recovery loop and the input carries no spent value. -/
theorem C5_counterexample :
    Transaction.is_complete txC5 = false ∧
    txC5.inputs.length = sigsC5.length ∧
    (∀ rs ph : List Nat, crypto0.recoverPubkey rs ph = none) ∧
    Transaction.update_signatures crypto0 txC5 sigsC5 =
      .error PErr.inputValueMissing :=
  ⟨rfl, rfl, fun _ _ => rfl, rfl⟩

/-- Witness for C5's amended theorem: the complete transaction `txC1` is
returned unchanged, and the incomplete one-input `txC5` with zero supplied
signatures raises the length mismatch. -/
theorem C5_update_signatures_witness :
    Transaction.update_signatures crypto0 txC1 [] = .ok txC1 ∧
    Transaction.update_signatures crypto0 txC5 [] =
      .error PErr.lengthMismatch :=
  ⟨(C5_update_signatures crypto0 txC1 []).1 (by decide),
   (C5_update_signatures crypto0 txC5 []).2.1 (by decide) (by decide)⟩
